import Mathlib

/-!
# Verification of the gomediaimport planning and copy core

This file is a shallow embedding, in Lean 4, of the import planning and
concurrent copy engine of the `gomediaimport` tool, namely:

* the duplicate index and destination-filename resolver
  (`setFinalDestinationFilename`, `isDuplicateInPreviousFiles`,
  `isNameTakenByPreviousFile`, `isDuplicate`, `calculateXXHash`),
* the two-pass media/sidecar linkage of `importMedia`,
* the copy scheduler and copy executor (`copyFiles`, `copyFile`).

Modelling conventions:

* The filesystem is a function from (directory, name) pairs to optional file
  data.  `filepath.Join dir name` is modelled by the pair `(dir, name)`;
  the Go program only ever joins a directory with a slash-free file name, so
  the pair is a faithful key.  Directory paths themselves stay strings and
  `filepath.Join` on two directory strings is modelled by `joinDir`.
* `os.Stat` is modelled as total (a file is present or absent); opening or
  reading a file can fail via the `readErr` flag of `FileData`, which models
  I/O errors after a successful stat — exactly the situation in which
  `calculateXXHash` and `io.Copy` fail in the Go code.
* `MkdirAll` can fail on directories in `FS.badDirs`; `Sync`/`Close` of a
  freshly written destination fails on paths in `FS.badPaths`.  Both model
  the corresponding Go error paths.
* The xxHash64 checksum is modelled by an abstract deterministic function
  `hashOf` of the file content.
* Go `time.Time` values are modelled as `Int`; the two `Format` layouts used
  by the program are modelled by abstract deterministic functions.
* The concurrent worker pool is modelled by a sequential fold over the
  interleaved dispatch list.  Workers race only on disjoint record indices
  and on the shared error slice and byte counter; the per-record claims
  below do not depend on the interleaving of distinct jobs, and "first
  error in completion order" is modelled as first error in dispatch order.
* Source enumeration, metadata extraction, original-file deletion and drive
  ejection are external collaborators (spec §1); the embedding starts from
  an enumerated record list and stops after the copy phase.
-/

/-- Go `FileStatus` string constants (`""` is the zero value `unset`). -/
inductive FileStatus where
  | unset                   -- ""
  | copied                  -- "copied"
  | preExisting             -- "pre-existing"
  | failed                  -- "failed"
  | unnamable               -- "unnamable"
  | dirCreationFailed       -- "directory creation failed"
  | sidecarDeleted          -- "sidecar deleted"
deriving DecidableEq, Repr, Inhabited

/-- Go `SidecarAction` string constants. -/
inductive SidecarAction where
  | ignore
  | copy
  | delete
deriving DecidableEq, Repr, Inhabited

/-- Media categories (Go `MediaCategory` strings); `""` = non-media. -/
abbrev MediaCategory := String

/-- The `Sidecar` media category constant. -/
def Sidecar : MediaCategory := "sidecar"

/-- Go `FileType` strings (e.g. "jpeg"). -/
abbrev FileType := String

/-- One on-disk file: its stat size, its content (which determines both the
number of bytes `io.Copy` transfers and its checksum) and a flag modelling
open/read failures that occur after a successful stat. -/
structure FileData where
  size : Int
  content : String
  readErr : Bool := false
  mtime : Int := 0
deriving DecidableEq, Repr, Inhabited

/-- A file path as the Go code builds it: `filepath.Join dir name`. -/
abbrev FPath := String × String

/-- The filesystem state, plus fault-injection sets for `MkdirAll`
(`badDirs`) and for `Sync`/`Close` of written destinations (`badPaths`). -/
structure FS where
  files : FPath → Option FileData
  dirs : String → Bool
  badDirs : String → Bool
  badPaths : FPath → Bool

/-- Model of `filepath.Join dir name` for a directory and a file name. -/
def mkPath (dir name : String) : FPath := (dir, name)

/-- Model of `filepath.Join` of two directory components. -/
def joinDir (a b : String) : String := a ++ "/" ++ b

/-- The configuration fields read by the embedded core. -/
structure Config where
  destDir : String
  organizeByDate : Bool := false
  renameByDateTime : Bool := false
  checksumDuplicates : Bool := false
  sidecars : List (String × SidecarAction) := []
  sidecarDefault : SidecarAction := .ignore
  workers : Int := 0
  dryRun : Bool := false
deriving Repr, Inhabited

/-- Go struct `FileInfo` (the fields of the current version, including the
sidecar `ParentIndex`). -/
structure FileInfo where
  sourceName : String
  sourceDir : String
  destName : String := ""
  destDir : String := ""
  sourceChecksum : String := ""
  creationDateTime : Int := 0
  size : Int := 0
  mediaCategory : MediaCategory := ""
  fileType : FileType := ""
  status : FileStatus := .unset
  parentIndex : Int := -1
deriving DecidableEq, Repr, Inhabited

/-- Record access `files[i]` (callers always index in bounds). -/
def getF (files : List FileInfo) (i : Nat) : FileInfo := files.getD i default

/-- Model of Go `time.Time.Format "2006/01"`: an abstract deterministic
rendering of the timestamp. -/
def formatYearMonth (t : Int) : String := "ym" ++ toString t

/-- Model of Go `time.Time.Format "20060102_150405"`. -/
def formatDateTime (t : Int) : String := "dt" ++ toString t

/-- Extension of a (slash-free) name as a character list: the suffix starting
at the last dot, `[]` if the name has no dot (Go `filepath.Ext`). -/
def extCore : List Char → List Char
  | [] => []
  | c :: cs =>
    if '.' ∈ cs then extCore cs
    else if c = '.' then c :: cs
    else extCore cs

/-- Model of Go `filepath.Ext` on the slash-free names this program joins. -/
def extOf (s : String) : String := ⟨extCore s.data⟩

/-- Model of Go `strings.TrimSuffix`. -/
def trimSuffix (s suffix : String) : String :=
  if suffix.data.isSuffixOf s.data then ⟨s.data.take (s.data.length - suffix.data.length)⟩
  else s

/-- Model of Go `fmt.Sprintf "_%03d"`'s numeric part: three-digit zero
padding, wider numbers printed as is. -/
def pad3 (n : Nat) : String :=
  if n < 10 then "00" ++ toString n
  else if n < 100 then "0" ++ toString n
  else toString n

/-- Kernel-computable model of Go `strings.ToLower` (ASCII names). -/
def toLowerStr (s : String) : String := ⟨s.data.map Char.toLower⟩

/-- Kernel-computable model of the Go slice `ext[1:]` (drop the dot). -/
def drop1 (s : String) : String := ⟨s.data.drop 1⟩

/-- Abstract deterministic model of the xxHash64 content checksum; never
empty, so it is distinguishable from the unset cache `""`. -/
def hashOf (content : String) : String := "xxh:" ++ content

/-- Go table `sidecarDefaults` (media_types.go). -/
def sidecarDefaults : List (String × SidecarAction) :=
  [("thm", .delete), ("ctg", .delete), ("xmp", .copy), ("aae", .delete),
   ("lrf", .delete), ("srt", .copy), ("mpl", .delete), ("cpi", .delete)]

/-- First-match lookup in an association list (Go map read). -/
def assocLookup {κ α : Type} [DecidableEq κ] : List (κ × α) → κ → Option α
  | [], _ => none
  | (k, v) :: rest, key => if k = key then some v else assocLookup rest key

/-- Go `isSidecarExtension`. -/
def isSidecarExtension (ext : String) : Bool :=
  (assocLookup sidecarDefaults ext).isSome

/-- Go `getSidecarAction`: overrides, then built-in defaults, then the
global default. -/
def getSidecarAction (ext : String) (sidecarOverrides : List (String × SidecarAction))
    (sidecarDefault : SidecarAction) : SidecarAction :=
  match assocLookup sidecarOverrides ext with
  | some action => action
  | none =>
    match assocLookup sidecarDefaults ext with
    | some action => action
    | none => sidecarDefault

/-- One row of the Go `fileTypes` table. -/
structure FileTypeInfo where
  fileType : FileType
  mediaCategory : MediaCategory
  extensions : List String
deriving Repr, Inhabited

/-- Go table `fileTypes` (media_types.go, current version). -/
def fileTypes : List FileTypeInfo :=
  [⟨"jpeg", "processed_picture", ["jpg", "jpeg", "jpe", "jif", "jfif", "jfi"]⟩,
   ⟨"jpeg2000", "processed_picture", ["jp2", "j2k", "jpf", "jpm", "jpg2", "j2c", "jpc", "jpx", "mj2"]⟩,
   ⟨"jpegxl", "processed_picture", ["jxl"]⟩,
   ⟨"png", "processed_picture", ["png"]⟩,
   ⟨"gif", "processed_picture", ["gif"]⟩,
   ⟨"bmp", "processed_picture", ["bmp"]⟩,
   ⟨"tiff", "processed_picture", ["tiff", "tif"]⟩,
   ⟨"psd", "processed_picture", ["psd"]⟩,
   ⟨"eps", "processed_picture", ["eps"]⟩,
   ⟨"svg", "processed_picture", ["svg"]⟩,
   ⟨"ico", "processed_picture", ["ico"]⟩,
   ⟨"webp", "processed_picture", ["webp"]⟩,
   ⟨"heif", "processed_picture", ["heif", "heifs", "heic", "heics", "avci", "avcs", "hif"]⟩,
   ⟨"raw", "raw_picture", ["arw", "cr2", "cr3", "crw", "dng", "erf", "kdc", "mrw", "nef", "orf", "pef", "raf", "raw", "rw2", "sr2", "srf", "x3f"]⟩,
   ⟨"mp4", "video", ["mp4"]⟩,
   ⟨"avi", "video", ["avi"]⟩,
   ⟨"mov", "video", ["mov"]⟩,
   ⟨"wmv", "video", ["wmv"]⟩,
   ⟨"flv", "video", ["flv"]⟩,
   ⟨"mkv", "video", ["mkv"]⟩,
   ⟨"webm", "video", ["webm"]⟩,
   ⟨"ogv", "video", ["ogv"]⟩,
   ⟨"m4v", "video", ["m4v"]⟩,
   ⟨"3gp", "video", ["3gp"]⟩,
   ⟨"3g2", "video", ["3g2"]⟩,
   ⟨"asf", "video", ["asf"]⟩,
   ⟨"vob", "video", ["vob"]⟩,
   ⟨"mts", "video", ["mts", "m2ts"]⟩,
   ⟨"rawvideo", "raw_video", ["braw", "r3d", "ari"]⟩]

/-- Go `getFirstExtensionForFileType`. -/
def getFirstExtensionForFileType (fileType : FileType) : String :=
  match fileTypes.find? (fun ft => ft.fileType == fileType && !ft.extensions.isEmpty) with
  | some ft => ft.extensions.headD ""
  | none => ""

/-- Go `calculateXXHash` (file_operations.go): open, stream, hash.  Fails if
the file is absent (open) or flagged unreadable (read). -/
def calculateXXHash (fs : FS) (p : FPath) : Except String String :=
  match fs.files p with
  | none => .error "open failed"
  | some f => if f.readErr then .error "read failed" else .ok (hashOf f.content)

/-- Go `exists` (file_operations.go, current version): stat the path.  Stat
itself is modelled as total, so the error branch of the Go function does not
arise in the model. -/
def existsPath (fs : FS) (destPath : FPath) : Bool :=
  (fs.files destPath).isSome

/-- Go `isDuplicate` (file_operations.go, current version).  Returns the
duplicate verdict together with the (possibly cache-filled) record, or
propagates a checksum-computation error. -/
def isDuplicate (fs : FS) (file : FileInfo) (destPath : FPath)
    (checksumDuplicates : Bool) : Except String (Bool × FileInfo) :=
  match fs.files destPath with
  | none => .ok (false, file)
  | some destInfo =>
    if destInfo.size ≠ file.size then .ok (false, file)
    else if checksumDuplicates then
      match
        (if file.sourceChecksum = "" then
          match calculateXXHash fs (mkPath file.sourceDir file.sourceName) with
          | .error e => .error e
          | .ok c => .ok (c, { file with sourceChecksum := c })
        else .ok (file.sourceChecksum, file) : Except String (String × FileInfo)) with
      | .error e => .error e
      | .ok (srcChecksum, file') =>
        match calculateXXHash fs destPath with
        | .error e => .error e
        | .ok destChecksum => .ok (srcChecksum = destChecksum, file')
    else .ok (true, file)

/-- The duplicate-detection index `map[fileSizeTime][]int`, as an
association list from (size, timestamp) to record indices. -/
abbrev STIndex := List ((Int × Int) × List Nat)

/-- Go map append `sizeTimeIndex[key] = append(sizeTimeIndex[key], i)`. -/
def appendST : STIndex → (Int × Int) → Nat → STIndex
  | [], key, i => [(key, [i])]
  | (k, l) :: rest, key, i =>
    if k = key then (k, l ++ [i]) :: rest else (k, l) :: appendST rest key i

/-- The scan over previously indexed records inside
`isDuplicateInPreviousFiles`: lazily fill each previous record's checksum
cache (skipping records whose checksum cannot be computed) and compare. -/
def dupScanPrev (fs : FS) (curChecksum : String) :
    List Nat → List FileInfo → Bool × List FileInfo
  | [], files => (false, files)
  | i :: rest, files =>
    let previousFile := getF files i
    if previousFile.sourceChecksum = "" then
      match calculateXXHash fs (mkPath previousFile.sourceDir previousFile.sourceName) with
      | .error _ => dupScanPrev fs curChecksum rest files
      | .ok c =>
        let files' := files.set i { previousFile with sourceChecksum := c }
        if curChecksum = c then (true, files')
        else dupScanPrev fs curChecksum rest files'
    else
      if curChecksum = previousFile.sourceChecksum then (true, files)
      else dupScanPrev fs curChecksum rest files

/-- Go `isDuplicateInPreviousFiles` (file_operations.go, current version):
O(1) lookup by (size, timestamp), checksum tie-break when enabled; a failed
checksum computation is logged and treated as "not a duplicate". -/
def isDuplicateInPreviousFiles (fs : FS) (files : List FileInfo) (currentIndex : Nat)
    (checksumDuplicates : Bool) (sizeTimeIndex : STIndex) : Bool × List FileInfo :=
  let currentFile := getF files currentIndex
  match assocLookup sizeTimeIndex (currentFile.size, currentFile.creationDateTime) with
  | none => (false, files)
  | some indices =>
    if !checksumDuplicates then (true, files)
    else
      match
        (if currentFile.sourceChecksum = "" then
          match calculateXXHash fs (mkPath currentFile.sourceDir currentFile.sourceName) with
          | .error e => .error e
          | .ok c => .ok (c, files.set currentIndex { currentFile with sourceChecksum := c })
        else .ok (currentFile.sourceChecksum, files) :
          Except String (String × List FileInfo)) with
      | .error _ => (false, files)
      | .ok (cur, files') => dupScanPrev fs cur indices files'

/-- Go `isNameTakenByPreviousFile`: does any earlier record already claim
(this destination directory, `proposedName`)? -/
def isNameTakenByPreviousFile (files : List FileInfo) (currentIndex : Nat)
    (proposedName : String) : Bool :=
  (List.range currentIndex).any fun i =>
    (getF files i).destDir == (getF files currentIndex).destDir &&
      (getF files i).destName == proposedName

/-- The `_001` … `_999999` disambiguation loop of
`setFinalDestinationFilename` (`k` is the Go loop counter, `remaining` the
iterations left; the loop is entered with `k = 1`, `remaining = 999999`). -/
def resolveSuffixLoop (fs : FS) (cfg : Config) (currentIndex : Nat) (baseDir : String)
    (baseFilename : String) (ext : String) :
    Nat → Nat → List FileInfo → Except String (List FileInfo)
  | _, 0, _ => .error "could not find a unique filename after 999,999 attempts"
  | k, remaining + 1, files =>
    let newFilename := baseFilename ++ "_" ++ pad3 k ++ ext
    let fullPath := mkPath baseDir newFilename
    if !existsPath fs fullPath && !isNameTakenByPreviousFile files currentIndex newFilename then
      .ok (files.set currentIndex { getF files currentIndex with destName := newFilename })
    else
      match isDuplicate fs (getF files currentIndex) fullPath cfg.checksumDuplicates with
      | .error e => .error e
      | .ok (dup, file') =>
        let files := files.set currentIndex file'
        if dup then
          .ok (files.set currentIndex
            { getF files currentIndex with status := .preExisting, destName := newFilename })
        else resolveSuffixLoop fs cfg currentIndex baseDir baseFilename ext (k + 1) remaining files

/-- The extension normalization at the top of `setFinalDestinationFilename`:
when renaming by date-time, the extension is replaced by the canonical
extension for the file type of the record (when one exists). -/
def resolvedExt (cfg : Config) (ft : FileType) (ext0 : String) : String :=
  if cfg.renameByDateTime then
    let newExt := getFirstExtensionForFileType ft
    if newExt ≠ "" then "." ++ newExt else ext0
  else ext0

/-- Go `setFinalDestinationFilename` (file_operations.go, current version). -/
def setFinalDestinationFilename (fs : FS) (files : List FileInfo) (currentIndex : Nat)
    (initialFilename : String) (cfg : Config) (sizeTimeIndex : STIndex) :
    Except String (List FileInfo) :=
  let file := getF files currentIndex
  let baseDir := file.destDir
  let ext0 := extOf initialFilename
  let baseFilename := trimSuffix initialFilename ext0
  let ext := resolvedExt cfg file.fileType ext0
  let initialFilename := baseFilename ++ ext
  let (isDup, files) :=
    isDuplicateInPreviousFiles fs files currentIndex cfg.checksumDuplicates sizeTimeIndex
  if isDup then
    .ok (files.set currentIndex
      { getF files currentIndex with status := .preExisting, destName := initialFilename })
  else
    let fullPath := mkPath baseDir initialFilename
    if !existsPath fs fullPath && !isNameTakenByPreviousFile files currentIndex initialFilename then
      .ok (files.set currentIndex { getF files currentIndex with destName := initialFilename })
    else
      match isDuplicate fs (getF files currentIndex) fullPath cfg.checksumDuplicates with
      | .error e => .error e
      | .ok (dup, file') =>
        let files := files.set currentIndex file'
        if dup then
          .ok (files.set currentIndex
            { getF files currentIndex with status := .preExisting, destName := initialFilename })
        else resolveSuffixLoop fs cfg currentIndex baseDir baseFilename ext 1 999999 files

/-- The destination directory a pass-1/orphan record is given
(`importMedia`): date-organized subdirectory or the destination root. -/
def plannedDestDir (cfg : Config) (f : FileInfo) : String :=
  if cfg.organizeByDate then joinDir cfg.destDir (formatYearMonth f.creationDateTime)
  else cfg.destDir

/-- One iteration of `importMedia`'s pass 1 (non-sidecar records): set the
destination directory, pick the initial name, resolve the final name, and on
success append the record to the duplicate index. -/
def pass1Step (fs : FS) (cfg : Config) (st : List FileInfo × STIndex) (i : Nat) :
    List FileInfo × STIndex :=
  let (files, idx) := st
  let f := getF files i
  if f.mediaCategory == Sidecar then st
  else
    let files := files.set i { f with destDir := plannedDestDir cfg f }
    let initialFilename :=
      if cfg.renameByDateTime then formatDateTime f.creationDateTime ++ extOf f.sourceName
      else f.sourceName
    match setFinalDestinationFilename fs files i initialFilename cfg idx with
    | .error _ => (files.set i { getF files i with status := .unnamable }, idx)
    | .ok files' =>
      (files', appendST idx ((getF files' i).size, (getF files' i).creationDateTime) i)

/-- Pass 1 of `importMedia` over the whole record list. -/
def pass1 (fs : FS) (cfg : Config) (files : List FileInfo) : List FileInfo × STIndex :=
  (List.range files.length).foldl (pass1Step fs cfg) (files, [])

/-- The pass-1 parent table: (source directory, lowercased base name) →
index of the first non-sidecar record with that key. -/
def buildParentIndex (files : List FileInfo) : List ((String × String) × Nat) :=
  (List.range files.length).foldl
    (fun pidx i =>
      let f := getF files i
      if f.mediaCategory == Sidecar then pidx
      else
        let ext := extOf f.sourceName
        let base := trimSuffix f.sourceName ext
        let key := (f.sourceDir, toLowerStr base)
        match assocLookup pidx key with
        | some _ => pidx
        | none => pidx ++ [(key, i)])
    []

/-- The lowercase, dot-stripped sidecar extension computed at the top of
pass 2 of `importMedia`. -/
def sidecarExtOf (name : String) : String :=
  let e := toLowerStr (extOf name)
  if e ≠ "" then drop1 e else e

/-- One iteration of `importMedia`'s pass 2 (sidecar records): resolve the
action; `delete` marks the record, otherwise anchor to the parent's resolved
destination or plan the orphan independently. -/
def pass2Step (cfg : Config) (parentIdx : List ((String × String) × Nat))
    (files : List FileInfo) (i : Nat) : List FileInfo :=
  let f := getF files i
  if f.mediaCategory != Sidecar then files
  else
    let action := getSidecarAction (sidecarExtOf f.sourceName) cfg.sidecars cfg.sidecarDefault
    if action = SidecarAction.delete then
      files.set i { f with status := .sidecarDeleted }
    else
      let ext := extOf f.sourceName
      let base := trimSuffix f.sourceName ext
      match assocLookup parentIdx (f.sourceDir, toLowerStr base) with
      | some pi =>
        let parentFile := getF files pi
        let parentDestExt := extOf parentFile.destName
        let parentDestBase := trimSuffix parentFile.destName parentDestExt
        files.set i { f with
          parentIndex := (pi : Int),
          destDir := parentFile.destDir,
          destName := parentDestBase ++ ext }
      | none =>
        let destName :=
          if cfg.renameByDateTime then formatDateTime f.creationDateTime ++ ext
          else f.sourceName
        files.set i { f with destDir := plannedDestDir cfg f, destName := destName }

/-- Pass 2 of `importMedia` over the whole record list. -/
def pass2 (cfg : Config) (parentIdx : List ((String × String) × Nat))
    (files : List FileInfo) : List FileInfo :=
  (List.range files.length).foldl (pass2Step cfg parentIdx) files

/-- The planning phase of `importMedia` (current version): initialize
`ParentIndex`, run pass 1, build the parent table, run pass 2. -/
def planFiles (fs : FS) (files : List FileInfo) (cfg : Config) : List FileInfo :=
  let files0 := files.map fun f => { f with parentIndex := -1 }
  let files1 := (pass1 fs cfg files0).1
  let parentIdx := buildParentIndex files1
  pass2 cfg parentIdx files1

/-- Go `effectiveWorkers`. -/
def effectiveWorkers (workers : Int) : Int :=
  if workers ≤ 0 then 4 else workers

/-- File data as `os.Create` + `io.Copy` leave it on disk: stat size equals
the number of bytes written. -/
def writtenFile (content : String) : FileData :=
  { size := (content.length : Int), content := content, readErr := false, mtime := 0 }

/-- Point update of the file map. -/
def fsSet (fs : FS) (p : FPath) (fd : Option FileData) : FS :=
  { fs with files := fun q => if q = p then fd else fs.files q }

/-- Go `copyFile` (part_013, current version): open + stat the source,
create the destination, stream-copy, compare byte counts, sync, close.
Returns the filesystem after the attempt (a failed attempt can leave a
partial destination file, which the caller removes) together with either the
byte count written or the error. -/
def copyFile (fs : FS) (src dst : FPath) : FS × Except String Int :=
  match fs.files src with
  | none => (fs, .error "open failed")
  | some sourceInfo =>
    -- os.Create: truncate/create the destination
    let fs1 := fsSet fs dst (some (writtenFile ""))
    if sourceInfo.readErr then (fs1, .error "read failed")
    else
      let written : Int := (sourceInfo.content.length : Int)
      let fs2 := fsSet fs1 dst (some (writtenFile sourceInfo.content))
      if written ≠ sourceInfo.size then (fs2, .error "incomplete copy")
      else if fs.badPaths dst then (fs2, .error "sync or close failed")
      else (fs2, .ok written)

/-- Go `setFileTimes`: set the destination's modification time (modelled as
always succeeding; the Go caller only warns on failure). -/
def setFileTimes (fs : FS) (p : FPath) (modTime : Int) : FS :=
  match fs.files p with
  | none => fs
  | some fd => fsSet fs p (some { fd with mtime := modTime })

/-- Go `os.MkdirAll` on the destination directory: idempotent creation,
failing exactly on fault-injected directories. -/
def mkdirAll (fs : FS) (d : String) : Except String FS :=
  if fs.badDirs d then .error "mkdir failed"
  else .ok { fs with dirs := fun x => x == d || fs.dirs x }

/-- The mutable state shared by the copy workers: the record list, the
filesystem, the total bytes successfully written to the destination, and the
accumulated per-job errors (`copyErrors`). -/
structure CopyState where
  files : List FileInfo
  fs : FS
  bytesWritten : Int
  copyErrors : List String

/-- The body of the worker loop in `copyFiles` (part_013, current version)
for one job index: create the directory tree (a failure records an error and
sets `directory creation failed`), copy (a failure removes the partial file
and sets `failed`, printing to stderr but recording no error), then set the
file times and mark `copied`.  In dry-run mode none of this happens. -/
def runJob (cfg : Config) (st : CopyState) (i : Nat) : CopyState :=
  let f := getF st.files i
  let srcPath := mkPath f.sourceDir f.sourceName
  let destPath := mkPath f.destDir f.destName
  if !cfg.dryRun then
    match mkdirAll st.fs f.destDir with
    | .error e =>
      { st with
        files := st.files.set i { f with status := .dirCreationFailed },
        copyErrors := st.copyErrors ++ [e] }
    | .ok fs1 =>
      match copyFile fs1 srcPath destPath with
      | (fs2, .error _) =>
        -- os.Remove(destPath); status = failed; error printed, not recorded
        { st with
          files := st.files.set i { f with status := .failed },
          fs := fsSet fs2 destPath none }
      | (fs2, .ok written) =>
        let fs3 := setFileTimes fs2 destPath f.creationDateTime
        { st with
          files := st.files.set i { f with status := .copied },
          fs := fs3,
          bytesWritten := st.bytesWritten + written }
  else st

/-- Fueled worker for `interleave` (the fuel, initially the list length,
only makes the recursion structural; it never runs out). -/
def interleaveGo {α : Type} : Nat → List α → List α
  | _, [] => []
  | 0, _ :: _ => []
  | n + 1, x :: xs => x :: interleaveGo n xs.reverse

/-- The size-interleaved dispatch order: repeatedly take the head (largest
remaining) and then the last element (smallest remaining) of the sorted
list.  This is the functional reading of the two-pointer `lo`/`hi` loop in
`copyFiles`. -/
def interleave {α : Type} (l : List α) : List α := interleaveGo l.length l

/-- Sorting the work list by descending file size (model of Go `sort.Slice`
with the comparator `files[work[a]].Size > files[work[b]].Size`; the Go sort
is unstable, so any descending-sorted permutation is a faithful model). -/
def sortBySizeDesc (files : List FileInfo) (l : List Nat) : List Nat :=
  List.insertionSort (fun a b => (getF files a).size ≥ (getF files b).size) l

/-- The work list of `copyFiles`: indices of all records whose status is not
`unnamable`, `pre-existing` or `sidecar deleted`. -/
def workList (files : List FileInfo) : List Nat :=
  (List.range files.length).filter fun i =>
    let s := (getF files i).status
    !(s == FileStatus.unnamable || s == FileStatus.preExisting ||
      s == FileStatus.sidecarDeleted)

/-- The dispatch sequence handed to the worker queue. -/
def dispatchOrder (files : List FileInfo) : List Nat :=
  interleave (sortBySizeDesc files (workList files))

/-- Go `copyFiles` (part_013, current version), with the worker pool
modelled as a sequential fold over the dispatch order.  Returns the final
state and the value `copyFiles` returns (`copyErrors[0]` if any error was
recorded, success otherwise). -/
def copyFiles (files : List FileInfo) (fs : FS) (cfg : Config) :
    CopyState × Option String :=
  let work := workList files
  if work.isEmpty then ({ files := files, fs := fs, bytesWritten := 0, copyErrors := [] }, none)
  else
    let interleaved := interleave (sortBySizeDesc files work)
    let final := interleaved.foldl (runJob cfg)
      { files := files, fs := fs, bytesWritten := 0, copyErrors := [] }
    (final, final.copyErrors.head?)

/-- The embedded pipeline of `importMedia` (current version): plan, then
copy.  (Original-file deletion and drive ejection are external collaborators
and not part of the core.) -/
def importMedia (fs : FS) (files : List FileInfo) (cfg : Config) :
    CopyState × Option String :=
  copyFiles (planFiles fs files cfg) fs cfg

-- ## Properties of the size-interleaved dispatch order (claim C9)

theorem interleave_cons {α : Type} (x : α) (xs : List α) :
    interleave (x :: xs) = x :: interleave xs.reverse := by
  show interleaveGo (xs.length + 1) (x :: xs) = x :: interleaveGo xs.reverse.length xs.reverse
  rw [interleaveGo, List.length_reverse]

theorem interleave_length {α : Type} : ∀ (l : List α), (interleave l).length = l.length
  | [] => rfl
  | x :: xs => by
    rw [interleave_cons]
    simp [interleave_length xs.reverse]
termination_by l => l.length
decreasing_by simp

theorem interleave_perm {α : Type} : ∀ (l : List α), (interleave l).Perm l
  | [] => List.Perm.refl []
  | x :: xs => by
    rw [interleave_cons]
    exact ((interleave_perm xs.reverse).trans xs.reverse_perm).cons x
termination_by l => l.length
decreasing_by simp

theorem interleave_getElem {α : Type} :
    ∀ (l : List α),
      (∀ k, 2 * k < l.length → (interleave l)[2 * k]? = l[k]?) ∧
      (∀ k, 2 * k + 1 < l.length →
        (interleave l)[2 * k + 1]? = l[l.length - 1 - k]?)
  | [] => by
    refine ⟨fun k hk => ?_, fun k hk => ?_⟩ <;> simp at hk
  | x :: xs => by
    have IH := interleave_getElem xs.reverse
    rw [interleave_cons]
    refine ⟨fun k hk => ?_, fun k hk => ?_⟩
    · match k with
      | 0 => simp
      | j + 1 =>
        simp only [List.length_cons] at hk
        have hb : 2 * j + 1 < xs.reverse.length := by simp; omega
        have h1 : (x :: interleave xs.reverse)[2 * (j + 1)]? =
            (interleave xs.reverse)[2 * j + 1]? := by
          rw [show 2 * (j + 1) = (2 * j + 1) + 1 by ring, List.getElem?_cons_succ]
        rw [h1, IH.2 j hb]
        have h2 : xs.reverse[xs.reverse.length - 1 - j]? = xs[j]? := by
          rw [List.getElem?_reverse (by simp only [List.length_reverse]; omega)]
          have hidx : xs.length - 1 - (xs.reverse.length - 1 - j) = j := by
            simp only [List.length_reverse]
            omega
          rw [hidx]
        rw [h2, List.getElem?_cons_succ]
    · simp only [List.length_cons] at hk
      have hb : 2 * k < xs.reverse.length := by simp; omega
      rw [List.getElem?_cons_succ, IH.1 k hb,
        List.getElem?_reverse (by omega)]
      have h3 : (x :: xs).length - 1 - k = (xs.reverse.length - 1 - k) + 1 := by
        simp only [List.length_reverse, List.length_cons]
        omega
      rw [h3, List.getElem?_cons_succ]
      have hidx : xs.reverse.length - 1 - k = xs.length - 1 - k := by
        simp only [List.length_reverse]
      rw [hidx]
termination_by l => l.length
decreasing_by all_goals simp

/-- C9.  The dispatch sequence handed to the worker queue is a permutation
of the work list and, with `s` the work list sorted by descending file size
(of length `n`), dispatch position `2k` holds `s[k]` and dispatch position
`2k+1` holds `s[n-1-k]`: the schedule alternates largest-remaining and
smallest-remaining jobs.  (`s` is indeed a descending-sorted permutation of
the work list — last two conjuncts.) -/
theorem C9_size_interleaved_dispatch (files : List FileInfo) :
    (dispatchOrder files).Perm (workList files) ∧
    (∀ k, 2 * k < (sortBySizeDesc files (workList files)).length →
      (dispatchOrder files)[2 * k]? = (sortBySizeDesc files (workList files))[k]?) ∧
    (∀ k, 2 * k + 1 < (sortBySizeDesc files (workList files)).length →
      (dispatchOrder files)[2 * k + 1]? =
        (sortBySizeDesc files (workList files))[(sortBySizeDesc files (workList files)).length - 1 - k]?) ∧
    (sortBySizeDesc files (workList files)).Perm (workList files) ∧
    (sortBySizeDesc files (workList files)).Sorted
      (fun a b => (getF files a).size ≥ (getF files b).size) := by
  have hperm : (sortBySizeDesc files (workList files)).Perm (workList files) :=
    List.perm_insertionSort _ _
  refine ⟨?_, ?_, ?_, hperm, ?_⟩
  · exact (interleave_perm _).trans hperm
  · exact (interleave_getElem _).1
  · exact (interleave_getElem _).2
  · haveI : IsTotal Nat (fun a b => (getF files a).size ≥ (getF files b).size) :=
      ⟨fun a b => le_total (getF files b).size (getF files a).size⟩
    haveI : IsTrans Nat (fun a b => (getF files a).size ≥ (getF files b).size) :=
      ⟨fun _ _ _ hab hbc => le_trans hbc hab⟩
    exact List.sorted_insertionSort _ _

/-- Concrete instantiation of `C9_size_interleaved_dispatch` (three records
of sizes 1, 9, 5: sorted order is indices 1, 2, 0 and the dispatch order is
1, 0, 2). -/
theorem C9_size_interleaved_dispatch_witness :
    (dispatchOrder
        [{ sourceName := "a", sourceDir := "s", size := 1 : FileInfo },
         { sourceName := "b", sourceDir := "s", size := 9 : FileInfo },
         { sourceName := "c", sourceDir := "s", size := 5 : FileInfo }])[2 * 0]? =
      (sortBySizeDesc
        [{ sourceName := "a", sourceDir := "s", size := 1 : FileInfo },
         { sourceName := "b", sourceDir := "s", size := 9 : FileInfo },
         { sourceName := "c", sourceDir := "s", size := 5 : FileInfo }]
        (workList
          [{ sourceName := "a", sourceDir := "s", size := 1 : FileInfo },
           { sourceName := "b", sourceDir := "s", size := 9 : FileInfo },
           { sourceName := "c", sourceDir := "s", size := 5 : FileInfo }]))[0]? ∧
    (dispatchOrder
        [{ sourceName := "a", sourceDir := "s", size := 1 : FileInfo },
         { sourceName := "b", sourceDir := "s", size := 9 : FileInfo },
         { sourceName := "c", sourceDir := "s", size := 5 : FileInfo }])[2 * 0 + 1]? =
      (sortBySizeDesc
        [{ sourceName := "a", sourceDir := "s", size := 1 : FileInfo },
         { sourceName := "b", sourceDir := "s", size := 9 : FileInfo },
         { sourceName := "c", sourceDir := "s", size := 5 : FileInfo }]
        (workList
          [{ sourceName := "a", sourceDir := "s", size := 1 : FileInfo },
           { sourceName := "b", sourceDir := "s", size := 9 : FileInfo },
           { sourceName := "c", sourceDir := "s", size := 5 : FileInfo }]))[3 - 1 - 0]? := by
  refine ⟨(C9_size_interleaved_dispatch _).2.1 0 (by decide), ?_⟩
  have h := (C9_size_interleaved_dispatch
    [{ sourceName := "a", sourceDir := "s", size := 1 : FileInfo },
     { sourceName := "b", sourceDir := "s", size := 9 : FileInfo },
     { sourceName := "c", sourceDir := "s", size := 5 : FileInfo }]).2.2.1 0 (by decide)
  exact h

-- ## Generic record-list access lemmas

theorem getF_set_self {files : List FileInfo} {i : Nat} {v : FileInfo}
    (h : i < files.length) : getF (files.set i v) i = v := by
  simp [getF, List.getD_eq_getElem?_getD, List.getElem?_set_self, h]

theorem getF_set_ne {files : List FileInfo} {i j : Nat} {v : FileInfo}
    (h : i ≠ j) : getF (files.set i v) j = getF files j := by
  simp [getF, List.getD_eq_getElem?_getD, List.getElem?_set_ne h]

theorem foldl_id {α β : Type} (f : α → β → α) (h : ∀ a b, f a b = a)
    (init : α) (l : List β) : l.foldl f init = init := by
  induction l generalizing init with
  | nil => rfl
  | cons b l ih => rw [List.foldl_cons, h init b]; exact ih init

-- ## The copy executor (claim C3)

/-- C3.  For a copy job in a non-dry run: the record's status becomes
`copied` only if the source was present and readable, the byte count written
equals the stat'd source size, and the destination handle synced and closed
without error; and whenever the directory was created but `copyFile` failed,
the (possibly partial) destination file is removed and the status becomes
`failed` — a failed job leaves no artifact at the final destination path. -/
theorem C3_copy_integrity (cfg : Config) (st : CopyState) (i : Nat)
    (hdry : cfg.dryRun = false) (hin : i < st.files.length) :
    ((getF (runJob cfg st i).files i).status = FileStatus.copied →
      ∃ sd, st.fs.files (mkPath (getF st.files i).sourceDir (getF st.files i).sourceName) =
          some sd ∧
        sd.readErr = false ∧
        ((sd.content.length : Int)) = sd.size ∧
        st.fs.badPaths (mkPath (getF st.files i).destDir (getF st.files i).destName) = false) ∧
    (∀ fs1, mkdirAll st.fs (getF st.files i).destDir = .ok fs1 →
      ∀ e fs2,
        copyFile fs1 (mkPath (getF st.files i).sourceDir (getF st.files i).sourceName)
            (mkPath (getF st.files i).destDir (getF st.files i).destName) = (fs2, .error e) →
        (getF (runJob cfg st i).files i).status = FileStatus.failed ∧
        (runJob cfg st i).fs.files
          (mkPath (getF st.files i).destDir (getF st.files i).destName) = none) := by
  constructor
  · intro hcopied
    rw [runJob] at hcopied
    simp only [hdry, Bool.not_false, if_true] at hcopied
    rcases hmk : mkdirAll st.fs (getF st.files i).destDir with e | fs1
    · rw [hmk] at hcopied
      simp only at hcopied
      rw [getF_set_self hin] at hcopied
      simp at hcopied
    · rw [hmk] at hcopied
      simp only at hcopied
      rcases hcp : copyFile fs1 (mkPath (getF st.files i).sourceDir (getF st.files i).sourceName)
          (mkPath (getF st.files i).destDir (getF st.files i).destName) with ⟨fs2, res⟩
      rw [hcp] at hcopied
      rcases res with e | written
      · simp only at hcopied
        rw [getF_set_self hin] at hcopied
        simp at hcopied
      · -- the success branch of copyFile pins down everything claimed
        have hfs1 : fs1.files = st.fs.files ∧ fs1.badPaths = st.fs.badPaths := by
          rw [mkdirAll] at hmk
          by_cases hb : st.fs.badDirs (getF st.files i).destDir
          · simp [hb] at hmk
          · simp [hb] at hmk
            rw [← hmk]
            exact ⟨rfl, rfl⟩
        rw [copyFile] at hcp
        rcases hsrc : fs1.files (mkPath (getF st.files i).sourceDir (getF st.files i).sourceName)
          with _ | sd
        · rw [hsrc] at hcp; simp at hcp
        · rw [hsrc] at hcp
          simp only at hcp
          by_cases hre : sd.readErr
          · simp [hre] at hcp
          · simp only [hre, if_false, Bool.false_eq_true] at hcp
            by_cases hlen : ((sd.content.length : Int)) ≠ sd.size
            · simp [hlen] at hcp
            · push_neg at hlen
              simp only [hlen] at hcp
              by_cases hbad : fs1.badPaths
                  (mkPath (getF st.files i).destDir (getF st.files i).destName)
              · simp [hbad] at hcp
              · refine ⟨sd, ?_, by simpa using hre, hlen, ?_⟩
                · rw [← hfs1.1]; exact hsrc
                · rw [← hfs1.2]; simpa using hbad
  · intro fs1 hmk e fs2 hcp
    rw [runJob]
    simp only [hdry, Bool.not_false, if_true]
    rw [hmk]
    simp only
    rw [hcp]
    simp only
    refine ⟨getF_set_self hin ▸ rfl, ?_⟩
    simp [fsSet]

/-- Concrete instantiation of `C3_copy_integrity`: one record whose source
file is missing; the job fails and leaves nothing at the destination. -/
theorem C3_copy_integrity_witness :
    ((getF (runJob { destDir := "d" }
        { files := [{ sourceName := "gone.jpg", sourceDir := "s", destName := "gone.jpg",
                      destDir := "d", size := 5 : FileInfo }],
          fs := { files := fun _ => none, dirs := fun _ => false,
                  badDirs := fun _ => false, badPaths := fun _ => false },
          bytesWritten := 0, copyErrors := [] } 0).files 0).status = FileStatus.failed ∧
     (runJob { destDir := "d" }
        { files := [{ sourceName := "gone.jpg", sourceDir := "s", destName := "gone.jpg",
                      destDir := "d", size := 5 : FileInfo }],
          fs := { files := fun _ => none, dirs := fun _ => false,
                  badDirs := fun _ => false, badPaths := fun _ => false },
          bytesWritten := 0, copyErrors := [] } 0).fs.files ("d", "gone.jpg") = none) := by
  have h := (C3_copy_integrity { destDir := "d" }
    { files := [{ sourceName := "gone.jpg", sourceDir := "s", destName := "gone.jpg",
                  destDir := "d", size := 5 : FileInfo }],
      fs := { files := fun _ => none, dirs := fun _ => false,
              badDirs := fun _ => false, badPaths := fun _ => false },
      bytesWritten := 0, copyErrors := [] } 0 rfl (by decide)).2
  exact h _ rfl "open failed" _ rfl

-- ## Planning does not read the dry-run flag (claim C7)

theorem resolveSuffixLoop_cfg (fs : FS) (cfg cfg2 : Config)
    (hc : cfg2.checksumDuplicates = cfg.checksumDuplicates)
    (ci : Nat) (bd bf e : String) :
    ∀ rem k fl, resolveSuffixLoop fs cfg2 ci bd bf e k rem fl =
      resolveSuffixLoop fs cfg ci bd bf e k rem fl := by
  intro rem
  induction rem with
  | zero => intro k fl; rfl
  | succ n ih =>
    intro k fl
    simp only [resolveSuffixLoop, hc, ih]
theorem setFinalDestinationFilename_cfg (fs : FS) (cfg cfg2 : Config)
    (hc : cfg2.checksumDuplicates = cfg.checksumDuplicates)
    (hr : cfg2.renameByDateTime = cfg.renameByDateTime)
    (fl : List FileInfo) (ci : Nat) (init : String) (idx : STIndex) :
    setFinalDestinationFilename fs fl ci init cfg2 idx =
      setFinalDestinationFilename fs fl ci init cfg idx := by
  have hre : ∀ ft e0, resolvedExt cfg2 ft e0 = resolvedExt cfg ft e0 := by
    intro ft e0
    simp only [resolvedExt, hr]
  simp only [setFinalDestinationFilename, hc, hre, resolveSuffixLoop_cfg fs cfg cfg2 hc]

theorem pass1_cfg (fs : FS) (cfg cfg2 : Config)
    (hd : cfg2.destDir = cfg.destDir)
    (ho : cfg2.organizeByDate = cfg.organizeByDate)
    (hc : cfg2.checksumDuplicates = cfg.checksumDuplicates)
    (hr : cfg2.renameByDateTime = cfg.renameByDateTime)
    (fl : List FileInfo) :
    pass1 fs cfg2 fl = pass1 fs cfg fl := by
  have hstep : pass1Step fs cfg2 = pass1Step fs cfg := by
    funext st i
    simp only [pass1Step, plannedDestDir, hd, ho, hr,
      setFinalDestinationFilename_cfg fs cfg cfg2 hc hr]
  rw [pass1, pass1, hstep]

theorem pass2_cfg (cfg cfg2 : Config)
    (hd : cfg2.destDir = cfg.destDir)
    (ho : cfg2.organizeByDate = cfg.organizeByDate)
    (hr : cfg2.renameByDateTime = cfg.renameByDateTime)
    (hs : cfg2.sidecars = cfg.sidecars)
    (hsd : cfg2.sidecarDefault = cfg.sidecarDefault)
    (pidx : List ((String × String) × Nat)) (fl : List FileInfo) :
    pass2 cfg2 pidx fl = pass2 cfg pidx fl := by
  have hstep : pass2Step cfg2 pidx = pass2Step cfg pidx := by
    funext fl2 i
    simp only [pass2Step, plannedDestDir, hd, ho, hr, hs, hsd]
  rw [pass2, pass2, hstep]

theorem planFiles_cfg (fs : FS) (cfg cfg2 : Config)
    (hd : cfg2.destDir = cfg.destDir)
    (ho : cfg2.organizeByDate = cfg.organizeByDate)
    (hc : cfg2.checksumDuplicates = cfg.checksumDuplicates)
    (hr : cfg2.renameByDateTime = cfg.renameByDateTime)
    (hs : cfg2.sidecars = cfg.sidecars)
    (hsd : cfg2.sidecarDefault = cfg.sidecarDefault)
    (fl : List FileInfo) :
    planFiles fs fl cfg2 = planFiles fs fl cfg := by
  simp only [planFiles, pass1_cfg fs cfg cfg2 hd ho hc hr,
    pass2_cfg cfg cfg2 hd ho hr hs hsd]

/-- The state `copyFiles` returns in dry-run mode: every job is a no-op. -/
theorem runJob_dryRun (cfg : Config) (hdry : cfg.dryRun = true)
    (st : CopyState) (i : Nat) : runJob cfg st i = st := by
  simp [runJob, hdry]

/-- C7.  With dry-run enabled, the copy phase performs no directory
creation, no byte copy and no timestamp mutation (the filesystem — files,
directories and mtimes — is returned unchanged), writes zero bytes, reports
success, and leaves every record at its planning-time status; and planning
itself is identical to that of a non-dry run. -/
theorem C7_dry_run_no_op (fs : FS) (files : List FileInfo) (cfg : Config)
    (hdry : cfg.dryRun = true) :
    (importMedia fs files cfg).1.fs = fs ∧
    (importMedia fs files cfg).1.files = planFiles fs files cfg ∧
    (importMedia fs files cfg).1.bytesWritten = 0 ∧
    (importMedia fs files cfg).2 = none ∧
    planFiles fs files cfg = planFiles fs files { cfg with dryRun := false } := by
  have hcf : copyFiles (planFiles fs files cfg) fs cfg =
      ({ files := planFiles fs files cfg, fs := fs, bytesWritten := 0, copyErrors := [] },
        none) := by
    rw [copyFiles]
    by_cases h : (workList (planFiles fs files cfg)).isEmpty
    · simp [h]
    · simp only [h, if_false, Bool.false_eq_true,
        foldl_id (runJob cfg) (runJob_dryRun cfg hdry)]
      rfl
  rw [importMedia, hcf]
  refine ⟨rfl, rfl, rfl, rfl, ?_⟩
  exact (planFiles_cfg fs cfg { cfg with dryRun := false } rfl rfl rfl rfl rfl rfl files).symm

/-- Concrete witness for `C7_dry_run_no_op`: a populated source and an
absent destination stay untouched by a dry run. -/
theorem C7_dry_run_no_op_witness :
    (importMedia
        { files := fun p => if p = ("s", "p.jpg") then
            some { size := 3, content := "abc" } else none,
          dirs := fun _ => false, badDirs := fun _ => false, badPaths := fun _ => false }
        [{ sourceName := "p.jpg", sourceDir := "s", size := 3,
           mediaCategory := "processed_picture", fileType := "jpeg" : FileInfo }]
        { destDir := "d", dryRun := true }).1.fs =
      { files := fun p => if p = ("s", "p.jpg") then
          some { size := 3, content := "abc" } else none,
        dirs := fun _ => false, badDirs := fun _ => false, badPaths := fun _ => false } ∧
    (importMedia
        { files := fun p => if p = ("s", "p.jpg") then
            some { size := 3, content := "abc" } else none,
          dirs := fun _ => false, badDirs := fun _ => false, badPaths := fun _ => false }
        [{ sourceName := "p.jpg", sourceDir := "s", size := 3,
           mediaCategory := "processed_picture", fileType := "jpeg" : FileInfo }]
        { destDir := "d", dryRun := true }).1.bytesWritten = 0 := by
  refine ⟨(C7_dry_run_no_op _ _ _ rfl).1, (C7_dry_run_no_op _ _ _ rfl).2.2.1⟩

-- ## Copy errors are not propagated by the pool (claim C5)

/-- C5.  The claim says the copy phase returns the first recorded per-job
error whenever any job failed.  Failing input: a single-record work list
whose source file is missing.  The job fails — the record's status becomes
`failed` — yet the worker records no error for a `copyFile` failure (only
directory-creation failures are appended to `copyErrors`), so `copyFiles`
returns success.  This theorem evaluates the embedded code at that input. -/
theorem C5_copy_error_not_reported :
    (copyFiles
        [{ sourceName := "gone.jpg", sourceDir := "s", destName := "gone.jpg",
           destDir := "d", size := 5 : FileInfo }]
        { files := fun _ => none, dirs := fun _ => false,
          badDirs := fun _ => false, badPaths := fun _ => false }
        { destDir := "d" }).2 = none ∧
    (getF (copyFiles
        [{ sourceName := "gone.jpg", sourceDir := "s", destName := "gone.jpg",
           destDir := "d", size := 5 : FileInfo }]
        { files := fun _ => none, dirs := fun _ => false,
          badDirs := fun _ => false, badPaths := fun _ => false }
        { destDir := "d" }).1.files 0).status = FileStatus.failed := by
  exact ⟨rfl, by decide⟩

-- ## Frame lemmas: which fields each planning function can change

theorem getF_set (files : List FileInfo) (i : Nat) (v : FileInfo) (j : Nat) :
    getF (files.set i v) j =
      if i = j ∧ i < files.length then v else getF files j := by
  by_cases h : i = j ∧ i < files.length
  · rw [if_pos h, ← h.1, getF_set_self h.2]
  · rw [if_neg h]
    by_cases hij : i = j
    · subst hij
      have : ¬i < files.length := fun hl => h ⟨rfl, hl⟩
      rw [getF, List.set_eq_of_length_le (by omega), ← getF]
    · exact getF_set_ne hij

/-- `b` differs from `a` at most in `sourceChecksum` caches. -/
def cacheOnly (a b : List FileInfo) : Prop :=
  ∀ j, ∃ c, getF b j = { getF a j with sourceChecksum := c }

theorem cacheOnly_refl (a : List FileInfo) : cacheOnly a a :=
  fun j => ⟨(getF a j).sourceChecksum, rfl⟩

theorem cacheOnly_trans {a b c : List FileInfo} (h1 : cacheOnly a b)
    (h2 : cacheOnly b c) : cacheOnly a c := by
  intro j
  obtain ⟨x, hx⟩ := h1 j
  obtain ⟨y, hy⟩ := h2 j
  exact ⟨y, by rw [hy, hx]⟩

theorem cacheOnly_set (a : List FileInfo) (i : Nat) (c : String) :
    cacheOnly a (a.set i { getF a i with sourceChecksum := c }) := by
  intro j
  rw [getF_set]
  by_cases h : i = j ∧ i < a.length
  · rw [if_pos h, h.1]
    exact ⟨c, rfl⟩
  · rw [if_neg h]
    exact ⟨(getF a j).sourceChecksum, rfl⟩

/-- `isDuplicate` can only fill the record's checksum cache. -/
theorem isDuplicate_frame (fs : FS) (file : FileInfo) (p : FPath) (cks : Bool)
    (d : Bool) (f' : FileInfo) (h : isDuplicate fs file p cks = .ok (d, f')) :
    ∃ c, f' = { file with sourceChecksum := c } := by
  rw [isDuplicate] at h
  rcases hd : fs.files p with _ | destInfo
  · rw [hd] at h
    simp only [Except.ok.injEq, Prod.mk.injEq] at h
    exact ⟨file.sourceChecksum, by rw [← h.2]⟩
  · rw [hd] at h
    simp only at h
    by_cases hsz : destInfo.size ≠ file.size
    · rw [if_pos hsz] at h
      simp only [Except.ok.injEq, Prod.mk.injEq] at h
      exact ⟨file.sourceChecksum, by rw [← h.2]⟩
    · rw [if_neg hsz] at h
      by_cases hck : cks
      · rw [if_pos hck] at h
        by_cases hempty : file.sourceChecksum = ""
        · rw [if_pos hempty] at h
          rcases hx : calculateXXHash fs (mkPath file.sourceDir file.sourceName) with e | c
          · rw [hx] at h; simp at h
          · rw [hx] at h
            simp only at h
            rcases hy : calculateXXHash fs p with e | c2
            · rw [hy] at h; simp at h
            · rw [hy] at h
              simp only [Except.ok.injEq, Prod.mk.injEq] at h
              exact ⟨c, by rw [← h.2]⟩
        · rw [if_neg hempty] at h
          rcases hy : calculateXXHash fs p with e | c2
          · rw [hy] at h; simp at h
          · rw [hy] at h
            simp only [Except.ok.injEq, Prod.mk.injEq] at h
            exact ⟨file.sourceChecksum, by rw [← h.2]⟩
      · rw [if_neg hck] at h
        simp only [Except.ok.injEq, Prod.mk.injEq] at h
        exact ⟨file.sourceChecksum, by rw [← h.2]⟩

theorem dupScanPrev_frame (fs : FS) (cur : String) :
    ∀ (idxs : List Nat) (files : List FileInfo),
      cacheOnly files (dupScanPrev fs cur idxs files).2
  | [], files => cacheOnly_refl files
  | i :: rest, files => by
    rw [dupScanPrev]
    by_cases hempty : (getF files i).sourceChecksum = ""
    · simp only [hempty, if_true]
      rcases hx : calculateXXHash fs
          (mkPath (getF files i).sourceDir (getF files i).sourceName) with e | c
      · exact dupScanPrev_frame fs cur rest files
      · simp only
        by_cases heq : cur = c
        · simp only [heq, if_true]
          exact cacheOnly_set files i c
        · simp only [heq, if_false]
          exact cacheOnly_trans (cacheOnly_set files i c)
            (dupScanPrev_frame fs cur rest _)
    · simp only [hempty, if_false]
      by_cases heq : cur = (getF files i).sourceChecksum
      · simp only [heq, if_true]
        exact cacheOnly_refl files
      · simp only [heq, if_false]
        exact dupScanPrev_frame fs cur rest files

theorem isDuplicateInPreviousFiles_frame (fs : FS) (files : List FileInfo)
    (ci : Nat) (cks : Bool) (idx : STIndex) :
    cacheOnly files (isDuplicateInPreviousFiles fs files ci cks idx).2 := by
  rw [isDuplicateInPreviousFiles]
  rcases hl : assocLookup idx ((getF files ci).size, (getF files ci).creationDateTime)
    with _ | indices
  · exact cacheOnly_refl files
  · simp only
    by_cases hck : cks
    · simp only [hck, Bool.not_true, if_false]
      by_cases hempty : (getF files ci).sourceChecksum = ""
      · simp only [hempty, if_true]
        rcases hx : calculateXXHash fs
            (mkPath (getF files ci).sourceDir (getF files ci).sourceName) with e | c
        · simp only
          exact cacheOnly_refl files
        · simp only
          exact cacheOnly_trans (cacheOnly_set files ci c) (dupScanPrev_frame fs c indices _)
      · simp only [hempty, if_false]
        exact dupScanPrev_frame fs (getF files ci).sourceChecksum indices files
    · simp only [hck, Bool.not_false, if_true]
      exact cacheOnly_refl files

/-- `b` differs from `a` at most in checksum caches plus record `ci`'s
destination name and status. -/
def updOnly (ci : Nat) (a b : List FileInfo) : Prop :=
  (∀ j, j ≠ ci → ∃ c, getF b j = { getF a j with sourceChecksum := c }) ∧
  (∃ c n s, getF b ci = { getF a ci with sourceChecksum := c, destName := n, status := s })

theorem updOnly_of_cacheOnly {ci : Nat} {a b : List FileInfo} (h : cacheOnly a b) :
    updOnly ci a b := by
  refine ⟨fun j _ => h j, ?_⟩
  obtain ⟨c, hc⟩ := h ci
  exact ⟨c, (getF a ci).destName, (getF a ci).status, hc⟩

theorem updOnly_trans {ci : Nat} {a b c : List FileInfo}
    (h1 : updOnly ci a b) (h2 : updOnly ci b c) : updOnly ci a c := by
  constructor
  · intro j hj
    obtain ⟨x, hx⟩ := h1.1 j hj
    obtain ⟨y, hy⟩ := h2.1 j hj
    exact ⟨y, by rw [hy, hx]⟩
  · obtain ⟨x, n, s, hx⟩ := h1.2
    obtain ⟨y, n2, s2, hy⟩ := h2.2
    exact ⟨y, n2, s2, by rw [hy, hx]⟩

theorem updOnly_set {ci : Nat} (a : List FileInfo) (c : String) (n : String)
    (s : FileStatus) :
    updOnly ci a (a.set ci { getF a ci with sourceChecksum := c, destName := n, status := s }) := by
  constructor
  · intro j hj
    rw [getF_set, if_neg (fun hcon => hj hcon.1.symm)]
    exact ⟨(getF a j).sourceChecksum, rfl⟩
  · rw [getF_set]
    by_cases h : ci = ci ∧ ci < a.length
    · rw [if_pos h]
      exact ⟨c, n, s, rfl⟩
    · rw [if_neg h]
      exact ⟨(getF a ci).sourceChecksum, (getF a ci).destName, (getF a ci).status, rfl⟩

theorem resolveSuffixLoop_frame (fs : FS) (cfg : Config) (ci : Nat)
    (bd bf e : String) :
    ∀ (rem k : Nat) (files out : List FileInfo),
      resolveSuffixLoop fs cfg ci bd bf e k rem files = .ok out → updOnly ci files out := by
  intro rem
  induction rem with
  | zero => intro k files out h; exact absurd h (by rw [resolveSuffixLoop]; simp)
  | succ m ih =>
    intro k files out h
    rw [resolveSuffixLoop] at h
    by_cases hfree : !existsPath fs (mkPath bd (bf ++ "_" ++ pad3 k ++ e)) &&
        !isNameTakenByPreviousFile files ci (bf ++ "_" ++ pad3 k ++ e)
    · rw [if_pos hfree] at h
      simp only [Except.ok.injEq] at h
      rw [← h]
      exact updOnly_set files (getF files ci).sourceChecksum _ (getF files ci).status
    · rw [if_neg hfree] at h
      rcases hdp : isDuplicate fs (getF files ci) (mkPath bd (bf ++ "_" ++ pad3 k ++ e))
          cfg.checksumDuplicates with er | ⟨dup, file'⟩
      · rw [hdp] at h; simp at h
      · rw [hdp] at h
        simp only at h
        obtain ⟨c, hc⟩ := isDuplicate_frame _ _ _ _ _ _ hdp
        have hset : updOnly ci files (files.set ci file') := by
          rw [hc]
          exact updOnly_set files c (getF files ci).destName (getF files ci).status
        by_cases hdup : dup = true
        · rw [if_pos hdup] at h
          simp only [Except.ok.injEq] at h
          rw [← h]
          refine updOnly_trans hset ?_
          exact updOnly_set _ _ _ _
        · rw [if_neg hdup] at h
          exact updOnly_trans hset (ih (k + 1) (files.set ci file') out h)

theorem setFinalDestinationFilename_frame (fs : FS) (files : List FileInfo)
    (ci : Nat) (init : String) (cfg : Config) (idx : STIndex) (out : List FileInfo)
    (h : setFinalDestinationFilename fs files ci init cfg idx = .ok out) :
    updOnly ci files out := by
  rw [setFinalDestinationFilename] at h
  split at h
  next isDup files1 hdp =>
    have hupd1 : updOnly ci files files1 := by
      have := isDuplicateInPreviousFiles_frame fs files ci cfg.checksumDuplicates idx
      rw [hdp] at this
      exact updOnly_of_cacheOnly this
    split at h
    · simp only [Except.ok.injEq] at h
      rw [← h]
      exact updOnly_trans hupd1 (updOnly_set _ _ _ _)
    · dsimp only at h
      split at h
      · simp only [Except.ok.injEq] at h
        rw [← h]
        exact updOnly_trans hupd1 (updOnly_set _ _ _ _)
      · split at h
        · exact absurd h (by simp)
        next dup file2 hdp2 =>
          obtain ⟨c, hc⟩ := isDuplicate_frame _ _ _ _ _ _ hdp2
          have hset : updOnly ci files1 (files1.set ci file2) := by
            rw [hc]
            exact updOnly_set files1 c (getF files1 ci).destName (getF files1 ci).status
          split at h
          · simp only [Except.ok.injEq] at h
            rw [← h]
            exact updOnly_trans hupd1 (updOnly_trans hset (updOnly_set _ _ _ _))
          · exact updOnly_trans hupd1 (updOnly_trans hset
              (resolveSuffixLoop_frame fs cfg ci _ _ _ _ _ _ _ h))

/-- `b` differs from `a` at most in checksum caches, destination names and
directories, and statuses: everything pass 1 can write. -/
def planOnly (a b : List FileInfo) : Prop :=
  ∀ j, ∃ c n s d, getF b j =
    { getF a j with sourceChecksum := c, destName := n, status := s, destDir := d }

theorem planOnly_refl (a : List FileInfo) : planOnly a a := by
  intro j
  exact ⟨(getF a j).sourceChecksum, (getF a j).destName, (getF a j).status,
    (getF a j).destDir, rfl⟩

theorem planOnly_trans {a b c : List FileInfo} (h1 : planOnly a b)
    (h2 : planOnly b c) : planOnly a c := by
  intro j
  obtain ⟨x1, x2, x3, x4, hx⟩ := h1 j
  obtain ⟨y1, y2, y3, y4, hy⟩ := h2 j
  exact ⟨y1, y2, y3, y4, by rw [hy, hx]⟩

theorem planOnly_of_updOnly {ci : Nat} {a b : List FileInfo} (h : updOnly ci a b) :
    planOnly a b := by
  intro j
  by_cases hj : j = ci
  · subst hj
    obtain ⟨c, n, s, hc⟩ := h.2
    exact ⟨c, n, s, (getF a j).destDir, hc⟩
  · obtain ⟨c, hc⟩ := h.1 j hj
    exact ⟨c, (getF a j).destName, (getF a j).status, (getF a j).destDir, hc⟩

theorem planOnly_set (a : List FileInfo) (i : Nat) (c n : String) (s : FileStatus)
    (d : String) :
    planOnly a (a.set i
      { getF a i with sourceChecksum := c, destName := n, status := s, destDir := d }) := by
  intro j
  rw [getF_set]
  by_cases h : i = j ∧ i < a.length
  · rw [if_pos h, h.1]
    exact ⟨c, n, s, d, rfl⟩
  · rw [if_neg h]
    exact ⟨(getF a j).sourceChecksum, (getF a j).destName, (getF a j).status,
      (getF a j).destDir, rfl⟩

theorem pass1Step_frame (fs : FS) (cfg : Config) (st : List FileInfo × STIndex)
    (i : Nat) : planOnly st.1 (pass1Step fs cfg st i).1 := by
  rw [pass1Step]
  split
  · exact planOnly_refl _
  · dsimp only
    have h1 : planOnly st.1 (st.1.set i { getF st.1 i with destDir := plannedDestDir cfg (getF st.1 i) }) := by
      have := planOnly_set st.1 i (getF st.1 i).sourceChecksum (getF st.1 i).destName
        (getF st.1 i).status (plannedDestDir cfg (getF st.1 i))
      exact this
    split
    next e heq =>
      refine planOnly_trans h1 ?_
      have := planOnly_set (st.1.set i { getF st.1 i with destDir := plannedDestDir cfg (getF st.1 i) }) i
        (getF (st.1.set i { getF st.1 i with destDir := plannedDestDir cfg (getF st.1 i) }) i).sourceChecksum
        (getF (st.1.set i { getF st.1 i with destDir := plannedDestDir cfg (getF st.1 i) }) i).destName
        FileStatus.unnamable
        (getF (st.1.set i { getF st.1 i with destDir := plannedDestDir cfg (getF st.1 i) }) i).destDir
      exact this
    next files2 heq =>
      exact planOnly_trans h1
        (planOnly_of_updOnly (setFinalDestinationFilename_frame _ _ _ _ _ _ _ heq))

theorem pass1_foldl_frame (fs : FS) (cfg : Config) :
    ∀ (L : List Nat) (st : List FileInfo × STIndex),
      planOnly st.1 ((L.foldl (pass1Step fs cfg) st)).1
  | [], st => planOnly_refl st.1
  | i :: L, st => by
    rw [List.foldl_cons]
    exact planOnly_trans (pass1Step_frame fs cfg st i) (pass1_foldl_frame fs cfg L _)

theorem pass1_frame (fs : FS) (cfg : Config) (files : List FileInfo) :
    planOnly files (pass1 fs cfg files).1 := by
  rw [pass1]
  exact pass1_foldl_frame fs cfg _ _

/-- Identity fields are preserved by anything `planOnly` allows. -/
theorem planOnly_id {a b : List FileInfo} (h : planOnly a b) (j : Nat) :
    (getF b j).sourceName = (getF a j).sourceName ∧
    (getF b j).sourceDir = (getF a j).sourceDir ∧
    (getF b j).creationDateTime = (getF a j).creationDateTime ∧
    (getF b j).size = (getF a j).size ∧
    (getF b j).mediaCategory = (getF a j).mediaCategory ∧
    (getF b j).fileType = (getF a j).fileType ∧
    (getF b j).parentIndex = (getF a j).parentIndex := by
  obtain ⟨c, n, s, d, hc⟩ := h j
  rw [hc]
  exact ⟨rfl, rfl, rfl, rfl, rfl, rfl, rfl⟩

/-- A fold of per-index steps that never touch other indices leaves an
absent index untouched. -/
theorem foldl_untouched {σ β : Type} (step : σ → Nat → σ) (acc : σ → Nat → β)
    (hother : ∀ st m j, j ≠ m → acc (step st m) j = acc st j) :
    ∀ (L : List Nat) (st : σ) (i : Nat), i ∉ L →
      acc (L.foldl step st) i = acc st i
  | [], _, _, _ => rfl
  | m :: L, st, i, hmem => by
    rw [List.foldl_cons]
    have hne : i ≠ m := fun hc => hmem (hc ▸ List.mem_cons_self m L)
    rw [foldl_untouched step acc hother L (step st m) i (fun hc => hmem (List.mem_cons_of_mem m hc))]
    exact hother st m i hne

theorem pass2Step_other (cfg : Config) (pidx : List ((String × String) × Nat))
    (fl : List FileInfo) (m j : Nat) (hne : j ≠ m) :
    getF (pass2Step cfg pidx fl m) j = getF fl j := by
  rw [pass2Step]
  split
  · rfl
  · dsimp only
    repeat' split
    all_goals rw [getF_set, if_neg (fun hcon => hne hcon.1.symm)]

theorem pass2_foldl_nonSidecar (cfg : Config) (pidx : List ((String × String) × Nat))
    (base : List FileInfo) (j : Nat) (hcat : (getF base j).mediaCategory ≠ Sidecar) :
    ∀ (L : List Nat) (cur : List FileInfo), getF cur j = getF base j →
      getF (L.foldl (pass2Step cfg pidx) cur) j = getF base j
  | [], cur, hinv => hinv
  | m :: L, cur, hinv => by
    rw [List.foldl_cons]
    refine pass2_foldl_nonSidecar cfg pidx base j hcat L _ ?_
    by_cases hm : j = m
    · subst hm
      rw [pass2Step, hinv]
      rw [if_pos ?hc]
      · exact hinv
      case hc =>
        simp only [bne_iff_ne, ne_eq]
        exact hcat
    · rw [pass2Step_other cfg pidx cur m j hm]
      exact hinv

theorem pass2_nonSidecar (cfg : Config) (pidx : List ((String × String) × Nat))
    (fl : List FileInfo) (j : Nat) (hcat : (getF fl j).mediaCategory ≠ Sidecar) :
    getF (pass2 cfg pidx fl) j = getF fl j := by
  rw [pass2]
  exact pass2_foldl_nonSidecar cfg pidx fl j hcat _ fl rfl

/-- A worker job can only change record statuses. -/
theorem runJob_statusOnly (cfg : Config) (st : CopyState) (i : Nat) (j : Nat) :
    ∃ s, getF (runJob cfg st i).files j = { getF st.files j with status := s } := by
  rw [runJob]
  split
  · split
    · rw [getF_set]
      by_cases h : i = j ∧ i < st.files.length
      · rw [if_pos h, h.1]
        exact ⟨FileStatus.dirCreationFailed, rfl⟩
      · rw [if_neg h]
        exact ⟨(getF st.files j).status, rfl⟩
    · split
      · rw [getF_set]
        by_cases h : i = j ∧ i < st.files.length
        · rw [if_pos h, h.1]
          exact ⟨FileStatus.failed, rfl⟩
        · rw [if_neg h]
          exact ⟨(getF st.files j).status, rfl⟩
      · rw [getF_set]
        by_cases h : i = j ∧ i < st.files.length
        · rw [if_pos h, h.1]
          exact ⟨FileStatus.copied, rfl⟩
        · rw [if_neg h]
          exact ⟨(getF st.files j).status, rfl⟩
  · exact ⟨(getF st.files j).status, rfl⟩

theorem copyFold_statusOnly (cfg : Config) :
    ∀ (L : List Nat) (st : CopyState) (j : Nat),
      ∃ s, getF (L.foldl (runJob cfg) st).files j = { getF st.files j with status := s }
  | [], st, j => ⟨(getF st.files j).status, rfl⟩
  | i :: L, st, j => by
    rw [List.foldl_cons]
    obtain ⟨s1, h1⟩ := runJob_statusOnly cfg st i j
    obtain ⟨s2, h2⟩ := copyFold_statusOnly cfg L (runJob cfg st i) j
    exact ⟨s2, by rw [h2, h1]⟩

/-- The copy phase can only change record statuses. -/
theorem copyFiles_statusOnly (files : List FileInfo) (fs : FS) (cfg : Config) (j : Nat) :
    ∃ s, getF (copyFiles files fs cfg).1.files j = { getF files j with status := s } := by
  rw [copyFiles]
  split
  · exact ⟨(getF files j).status, rfl⟩
  · exact copyFold_statusOnly cfg _ _ j

-- ## The resolver mutates only its own record (claim C10)

/-- C10.  A successful `setFinalDestinationFilename` call for record
`currentIndex` mutates only that record's planning-output fields
(destination name, status; the destination directory is not even written)
plus lazily filled source-checksum caches: for every other record the
destination directory, destination name and status — and every other field
except the checksum cache — are left unchanged, so planning a later record
never alters an earlier record's resolved destination. -/
theorem C10_resolver_mutates_only_current (fs : FS) (files : List FileInfo)
    (ci : Nat) (init : String) (cfg : Config) (idx : STIndex) (out : List FileInfo)
    (h : setFinalDestinationFilename fs files ci init cfg idx = .ok out) :
    (∀ j, j ≠ ci →
      (getF out j).destDir = (getF files j).destDir ∧
      (getF out j).destName = (getF files j).destName ∧
      (getF out j).status = (getF files j).status ∧
      (getF out j).sourceName = (getF files j).sourceName ∧
      (getF out j).sourceDir = (getF files j).sourceDir ∧
      (getF out j).creationDateTime = (getF files j).creationDateTime ∧
      (getF out j).size = (getF files j).size ∧
      (getF out j).mediaCategory = (getF files j).mediaCategory ∧
      (getF out j).fileType = (getF files j).fileType ∧
      (getF out j).parentIndex = (getF files j).parentIndex) ∧
    ((getF out ci).destDir = (getF files ci).destDir ∧
      (getF out ci).sourceName = (getF files ci).sourceName ∧
      (getF out ci).sourceDir = (getF files ci).sourceDir ∧
      (getF out ci).creationDateTime = (getF files ci).creationDateTime ∧
      (getF out ci).size = (getF files ci).size ∧
      (getF out ci).mediaCategory = (getF files ci).mediaCategory ∧
      (getF out ci).fileType = (getF files ci).fileType ∧
      (getF out ci).parentIndex = (getF files ci).parentIndex) := by
  have hupd := setFinalDestinationFilename_frame fs files ci init cfg idx out h
  constructor
  · intro j hj
    obtain ⟨c, hc⟩ := hupd.1 j hj
    rw [hc]
    exact ⟨rfl, rfl, rfl, rfl, rfl, rfl, rfl, rfl, rfl, rfl⟩
  · obtain ⟨c, n, s, hc⟩ := hupd.2
    rw [hc]
    exact ⟨rfl, rfl, rfl, rfl, rfl, rfl, rfl, rfl⟩

/-- Concrete instantiation of `C10_resolver_mutates_only_current`: resolving
record 0 of a two-record list leaves record 1 untouched. -/
theorem C10_resolver_mutates_only_current_witness :
    (getF [{ sourceName := "a.jpg", sourceDir := "s", destName := "a.jpg",
             destDir := "d", size := 1 : FileInfo },
           { sourceName := "b.jpg", sourceDir := "s", destName := "x.jpg",
             destDir := "d", size := 2 : FileInfo }] 1).destName = "x.jpg" ∧
    (getF (([{ sourceName := "a.jpg", sourceDir := "s", destDir := "d",
               size := 1 : FileInfo },
             { sourceName := "b.jpg", sourceDir := "s", destName := "x.jpg",
               destDir := "d", size := 2 : FileInfo }].set 0
              { sourceName := "a.jpg", sourceDir := "s", destName := "a.jpg",
                destDir := "d", size := 1 : FileInfo })) 1).destName = "x.jpg" := by
  have h := C10_resolver_mutates_only_current
    { files := fun _ => none, dirs := fun _ => false,
      badDirs := fun _ => false, badPaths := fun _ => false }
    [{ sourceName := "a.jpg", sourceDir := "s", destDir := "d", size := 1 : FileInfo },
     { sourceName := "b.jpg", sourceDir := "s", destName := "x.jpg",
       destDir := "d", size := 2 : FileInfo }]
    0 "a.jpg" { destDir := "d" } []
    ([{ sourceName := "a.jpg", sourceDir := "s", destDir := "d", size := 1 : FileInfo },
      { sourceName := "b.jpg", sourceDir := "s", destName := "x.jpg",
        destDir := "d", size := 2 : FileInfo }].set 0
        { sourceName := "a.jpg", sourceDir := "s", destName := "a.jpg",
          destDir := "d", size := 1 : FileInfo })
    rfl
  refine ⟨by decide, ?_⟩
  have h2 := (h.1 1 (by decide)).2.1
  rw [h2]
  decide

-- ## Length preservation through planning and copying

theorem dupScanPrev_length (fs : FS) (cur : String) :
    ∀ (idxs : List Nat) (files : List FileInfo),
      (dupScanPrev fs cur idxs files).2.length = files.length
  | [], _ => rfl
  | i :: rest, files => by
    rw [dupScanPrev]
    repeat' split
    all_goals simp [List.length_set, dupScanPrev_length fs cur rest]

theorem isDuplicateInPreviousFiles_length (fs : FS) (files : List FileInfo)
    (ci : Nat) (cks : Bool) (idx : STIndex) :
    (isDuplicateInPreviousFiles fs files ci cks idx).2.length = files.length := by
  rw [isDuplicateInPreviousFiles]
  split
  · rfl
  · split
    · rfl
    · split
      · rfl
      next cur files2 heq =>
        have h2 : files2.length = files.length := by
          split at heq
          · split at heq
            · exact absurd heq (by simp)
            · simp only [Except.ok.injEq, Prod.mk.injEq] at heq
              rw [← heq.2]
              simp [List.length_set]
          · simp only [Except.ok.injEq, Prod.mk.injEq] at heq
            rw [← heq.2]
        rw [dupScanPrev_length, h2]

theorem resolveSuffixLoop_length (fs : FS) (cfg : Config) (ci : Nat) (bd bf e : String) :
    ∀ (rem k : Nat) (files out : List FileInfo),
      resolveSuffixLoop fs cfg ci bd bf e k rem files = .ok out →
      out.length = files.length := by
  intro rem
  induction rem with
  | zero =>
    intro k files out h
    exact absurd h (by rw [resolveSuffixLoop]; simp)
  | succ m ih =>
    intro k files out h
    rw [resolveSuffixLoop] at h
    split at h
    · simp only [Except.ok.injEq] at h
      rw [← h]
      simp [List.length_set]
    · split at h
      · exact absurd h (by simp)
      · split at h
        · simp only [Except.ok.injEq] at h
          rw [← h]
          simp [List.length_set]
        · rw [ih _ _ _ h]
          simp [List.length_set]

theorem setFinalDestinationFilename_length (fs : FS) (files : List FileInfo)
    (ci : Nat) (init : String) (cfg : Config) (idx : STIndex) (out : List FileInfo)
    (h : setFinalDestinationFilename fs files ci init cfg idx = .ok out) :
    out.length = files.length := by
  rw [setFinalDestinationFilename] at h
  split at h
  next isDup files1 hdp =>
    have hlen1 : files1.length = files.length := by
      have := isDuplicateInPreviousFiles_length fs files ci cfg.checksumDuplicates idx
      rw [hdp] at this
      exact this
    split at h
    · simp only [Except.ok.injEq] at h
      rw [← h]
      simp [List.length_set, hlen1]
    · dsimp only at h
      split at h
      · simp only [Except.ok.injEq] at h
        rw [← h]
        simp [List.length_set, hlen1]
      · split at h
        · exact absurd h (by simp)
        next dup file2 hdp2 =>
          split at h
          · simp only [Except.ok.injEq] at h
            rw [← h]
            simp [List.length_set, hlen1]
          · rw [resolveSuffixLoop_length _ _ _ _ _ _ _ _ _ _ h]
            simp [List.length_set, hlen1]

theorem pass1Step_length (fs : FS) (cfg : Config) (st : List FileInfo × STIndex)
    (i : Nat) : (pass1Step fs cfg st i).1.length = st.1.length := by
  rw [pass1Step]
  split
  · rfl
  · dsimp only
    split
    next e heq =>
      simp [List.length_set]
    next files2 heq =>
      rw [setFinalDestinationFilename_length _ _ _ _ _ _ _ heq]
      simp [List.length_set]

theorem pass1_foldl_length (fs : FS) (cfg : Config) :
    ∀ (L : List Nat) (st : List FileInfo × STIndex),
      ((L.foldl (pass1Step fs cfg) st)).1.length = st.1.length
  | [], _ => rfl
  | i :: L, st => by
    rw [List.foldl_cons, pass1_foldl_length fs cfg L, pass1Step_length]

theorem pass1_length (fs : FS) (cfg : Config) (files : List FileInfo) :
    (pass1 fs cfg files).1.length = files.length := by
  rw [pass1]
  exact pass1_foldl_length fs cfg _ _

theorem pass2Step_length (cfg : Config) (pidx : List ((String × String) × Nat))
    (fl : List FileInfo) (m : Nat) :
    (pass2Step cfg pidx fl m).length = fl.length := by
  rw [pass2Step]
  split
  · rfl
  · dsimp only
    split
    · simp [List.length_set]
    · split
      all_goals simp [List.length_set]

theorem pass2_foldl_length (cfg : Config) (pidx : List ((String × String) × Nat)) :
    ∀ (L : List Nat) (fl : List FileInfo),
      (L.foldl (pass2Step cfg pidx) fl).length = fl.length
  | [], _ => rfl
  | m :: L, fl => by
    rw [List.foldl_cons, pass2_foldl_length cfg pidx L, pass2Step_length]

-- ## The parent table only holds in-range, non-sidecar records

theorem assocLookup_append_single {κ α : Type} [DecidableEq κ] :
    ∀ (l : List (κ × α)) (k0 : κ) (v0 : α) (k : κ) (v : α),
      assocLookup (l ++ [(k0, v0)]) k = some v →
      assocLookup l k = some v ∨ v = v0
  | [], k0, v0, k, v => by
    intro h
    rw [List.nil_append, assocLookup] at h
    right
    by_cases hk : k0 = k
    · rw [if_pos hk] at h
      exact (Option.some.inj h).symm
    · rw [if_neg hk] at h
      exact absurd h (by simp [assocLookup])
  | (k1, v1) :: rest, k0, v0, k, v => by
    intro h
    rw [List.cons_append, assocLookup] at h
    by_cases hk : k1 = k
    · rw [if_pos hk] at h
      left
      rw [assocLookup, if_pos hk]
      exact h
    · rw [if_neg hk] at h
      rcases assocLookup_append_single rest k0 v0 k v h with h2 | h2
      · left
        rw [assocLookup, if_neg hk]
        exact h2
      · right
        exact h2

theorem buildParentIndex_sound (fl : List FileInfo) :
    ∀ (k : String × String) (pi : Nat),
      assocLookup (buildParentIndex fl) k = some pi →
      (getF fl pi).mediaCategory ≠ Sidecar ∧ pi < fl.length := by
  rw [buildParentIndex]
  suffices hgen : ∀ (L : List Nat) (acc : List ((String × String) × Nat)),
      (∀ k pi, assocLookup acc k = some pi →
        (getF fl pi).mediaCategory ≠ Sidecar ∧ pi < fl.length) →
      (∀ m ∈ L, m < fl.length) →
      ∀ k pi, assocLookup (L.foldl (fun pidx i =>
            let f := getF fl i
            if f.mediaCategory == Sidecar then pidx
            else
              let ext := extOf f.sourceName
              let base := trimSuffix f.sourceName ext
              let key := (f.sourceDir, toLowerStr base)
              match assocLookup pidx key with
              | some _ => pidx
              | none => pidx ++ [(key, i)]) acc) k = some pi →
        (getF fl pi).mediaCategory ≠ Sidecar ∧ pi < fl.length by
    intro k pi h
    exact hgen (List.range fl.length) [] (by intro k2 pi2 h2; rw [assocLookup] at h2; exact absurd h2 (by simp))
      (fun m hm => List.mem_range.mp hm) k pi h
  intro L
  induction L with
  | nil => intro acc hacc _ k pi h; exact hacc k pi h
  | cons hd tl ih =>
    intro acc hacc hmem k pi h
    rw [List.foldl_cons] at h
    have hdlt : hd < fl.length := hmem hd (List.mem_cons_self hd tl)
    refine ih _ ?_ (fun x hx => hmem x (List.mem_cons_of_mem hd hx)) k pi h
    intro k2 pi2 h2
    by_cases hcat : (getF fl hd).mediaCategory == Sidecar
    · rw [if_pos hcat] at h2
      exact hacc k2 pi2 h2
    · rw [if_neg hcat] at h2
      dsimp only at h2
      split at h2
      · exact hacc k2 pi2 h2
      · rcases assocLookup_append_single _ _ _ _ _ h2 with h3 | h3
        · exact hacc k2 pi2 h3
        · subst h3
          refine ⟨?_, hdlt⟩
          simpa using hcat

-- ## Pass 2 anchors a found sidecar to its parent (claim C4)

theorem range_split (i n : Nat) (h : i < n) :
    List.range n = (List.range i ++ [i]) ++ List.range' (i + 1) (n - i - 1) := by
  rw [← List.range_succ, List.range_eq_range' n, List.range_eq_range' (i + 1)]
  have hap := List.range'_append 0 (i + 1) (n - i - 1) 1
  simp only [Nat.zero_add, Nat.one_mul] at hap
  rw [hap]
  congr 1
  omega

theorem pass2_parent_formula (cfg : Config) (pidx : List ((String × String) × Nat))
    (fl : List FileInfo) (i pi : Nat)
    (hin : i < fl.length)
    (hcat : (getF fl i).mediaCategory = Sidecar)
    (hpar : (getF fl pi).mediaCategory ≠ Sidecar)
    (haction : getSidecarAction (sidecarExtOf (getF fl i).sourceName)
        cfg.sidecars cfg.sidecarDefault ≠ SidecarAction.delete)
    (hlook : assocLookup pidx
        ((getF fl i).sourceDir,
          toLowerStr (trimSuffix (getF fl i).sourceName (extOf (getF fl i).sourceName))) =
        some pi) :
    getF (pass2 cfg pidx fl) i =
      { getF fl i with
          parentIndex := (pi : Int),
          destDir := (getF fl pi).destDir,
          destName := trimSuffix (getF fl pi).destName (extOf (getF fl pi).destName) ++
            extOf (getF fl i).sourceName } ∧
    getF (pass2 cfg pidx fl) pi = getF fl pi := by
  refine ⟨?_, pass2_nonSidecar cfg pidx fl pi hpar⟩
  rw [pass2, range_split i fl.length hin, List.foldl_append, List.foldl_append]
  set cur := (List.range i).foldl (pass2Step cfg pidx) fl with hcur
  have hci : getF cur i = getF fl i := by
    rw [hcur]
    exact foldl_untouched (pass2Step cfg pidx) getF
      (fun st m j hj => pass2Step_other cfg pidx st m j hj) (List.range i) fl i
      (fun hmem => by have := List.mem_range.mp hmem; omega)
  have hcpi : getF cur pi = getF fl pi := by
    rw [hcur]
    exact pass2_foldl_nonSidecar cfg pidx fl pi hpar (List.range i) fl rfl
  have hlen : cur.length = fl.length := by
    rw [hcur]
    exact pass2_foldl_length cfg pidx (List.range i) fl
  have hstep : ([i].foldl (pass2Step cfg pidx) cur) =
      cur.set i
        { getF fl i with
            parentIndex := (pi : Int),
            destDir := (getF fl pi).destDir,
            destName := trimSuffix (getF fl pi).destName (extOf (getF fl pi).destName) ++
              extOf (getF fl i).sourceName } := by
    rw [List.foldl_cons, List.foldl_nil, pass2Step, hci]
    rw [if_neg (by simp [hcat])]
    dsimp only
    rw [if_neg haction, hlook]
    dsimp only
    rw [hcpi]
  rw [hstep]
  have hnotmem : i ∉ List.range' (i + 1) (fl.length - i - 1) := by
    intro hmem
    rw [List.mem_range'] at hmem
    obtain ⟨x, _, hx⟩ := hmem
    omega
  rw [foldl_untouched (pass2Step cfg pidx) getF
    (fun st m j hj => pass2Step_other cfg pidx st m j hj) _ _ i hnotmem]
  exact getF_set_self (hlen ▸ hin)

theorem getF_map_parentInit (files : List FileInfo) (j : Nat) (h : j < files.length) :
    getF (files.map fun f => { f with parentIndex := -1 }) j =
      { getF files j with parentIndex := -1 } := by
  simp [getF, List.getD_eq_getElem?_getD, List.getElem?_map, List.getElem?_eq_getElem h]

/-- C4.  A sidecar whose (source directory, lowercased base name) key is
found in the pass-1 parent table inherits, in the final pipeline output, the
parent's resolved destination directory, and its destination name is the
parent's resolved name with only the extension swapped to the sidecar's own
extension — whatever status the parent ended with. -/
theorem C4_sidecar_inherits_parent (fs : FS) (files : List FileInfo) (cfg : Config)
    (i pi : Nat)
    (hin : i < files.length)
    (hcat : (getF files i).mediaCategory = Sidecar)
    (haction : getSidecarAction (sidecarExtOf (getF files i).sourceName)
        cfg.sidecars cfg.sidecarDefault ≠ SidecarAction.delete)
    (hlook : assocLookup
        (buildParentIndex
          (pass1 fs cfg (files.map fun f => { f with parentIndex := -1 })).1)
        ((getF files i).sourceDir,
          toLowerStr (trimSuffix (getF files i).sourceName (extOf (getF files i).sourceName))) =
        some pi) :
    (getF (importMedia fs files cfg).1.files i).destDir =
      (getF (importMedia fs files cfg).1.files pi).destDir ∧
    (getF (importMedia fs files cfg).1.files i).destName =
      trimSuffix (getF (importMedia fs files cfg).1.files pi).destName
          (extOf (getF (importMedia fs files cfg).1.files pi).destName) ++
        extOf (getF files i).sourceName := by
  set files0 := files.map fun f => { f with parentIndex := -1 } with hfiles0
  set p1 := (pass1 fs cfg files0).1 with hp1
  set pidx := buildParentIndex p1 with hpidx
  have hplan : planFiles fs files cfg = pass2 cfg pidx p1 := rfl
  have hfr := pass1_frame fs cfg files0
  have hid_i := planOnly_id hfr i
  have hmap_i := getF_map_parentInit files i hin
  have hcat1 : (getF p1 i).mediaCategory = Sidecar := by
    rw [hid_i.2.2.2.2.1, hmap_i]
    exact hcat
  have hsn1 : (getF p1 i).sourceName = (getF files i).sourceName := by
    rw [hid_i.1, hmap_i]
  have hsd1 : (getF p1 i).sourceDir = (getF files i).sourceDir := by
    rw [hid_i.2.1, hmap_i]
  have hsound := buildParentIndex_sound p1 _ _ hlook
  have hlen1 : p1.length = files.length := by
    rw [hp1, pass1_length, hfiles0, List.length_map]
  have hform := pass2_parent_formula cfg pidx p1 i pi (by rw [hlen1]; exact hin)
      hcat1 hsound.1
      (by rw [hsn1]; exact haction)
      (by rw [hsn1, hsd1]; exact hlook)
  obtain ⟨s_i, hs_i⟩ := copyFiles_statusOnly (planFiles fs files cfg) fs cfg i
  obtain ⟨s_pi, hs_pi⟩ := copyFiles_statusOnly (planFiles fs files cfg) fs cfg pi
  have him : (importMedia fs files cfg).1.files =
      (copyFiles (planFiles fs files cfg) fs cfg).1.files := rfl
  constructor
  · rw [him, hs_i, hs_pi]
    show (getF (planFiles fs files cfg) i).destDir =
      (getF (planFiles fs files cfg) pi).destDir
    rw [hplan, hform.1, hform.2]
  · rw [him, hs_i, hs_pi]
    show (getF (planFiles fs files cfg) i).destName =
      trimSuffix (getF (planFiles fs files cfg) pi).destName
          (extOf (getF (planFiles fs files cfg) pi).destName) ++
        extOf (getF files i).sourceName
    rw [hplan, hform.1, hform.2]
    rw [show ({ getF p1 i with
          parentIndex := (pi : Int),
          destDir := (getF p1 pi).destDir,
          destName := trimSuffix (getF p1 pi).destName (extOf (getF p1 pi).destName) ++
            extOf (getF p1 i).sourceName } : FileInfo).destName =
        trimSuffix (getF p1 pi).destName (extOf (getF p1 pi).destName) ++
          extOf (getF p1 i).sourceName from rfl]
    rw [hsn1]

/-- Concrete instantiation of `C4_sidecar_inherits_parent`: `IMG_001.xmp`
anchored to `IMG_001.jpg`. -/
theorem C4_sidecar_inherits_parent_witness :
    (getF (importMedia
        { files := fun p =>
            if p = ("s", "IMG_001.jpg") then some { size := 1, content := "J" }
            else if p = ("s", "IMG_001.xmp") then some { size := 1, content := "X" }
            else none,
          dirs := fun _ => false, badDirs := fun _ => false, badPaths := fun _ => false }
        [{ sourceName := "IMG_001.jpg", sourceDir := "s", size := 1,
           mediaCategory := "processed_picture", fileType := "jpeg" : FileInfo },
         { sourceName := "IMG_001.xmp", sourceDir := "s", size := 1,
           mediaCategory := "sidecar" : FileInfo }]
        { destDir := "d" }).1.files 1).destName =
      trimSuffix
          (getF (importMedia
            { files := fun p =>
                if p = ("s", "IMG_001.jpg") then some { size := 1, content := "J" }
                else if p = ("s", "IMG_001.xmp") then some { size := 1, content := "X" }
                else none,
              dirs := fun _ => false, badDirs := fun _ => false, badPaths := fun _ => false }
            [{ sourceName := "IMG_001.jpg", sourceDir := "s", size := 1,
               mediaCategory := "processed_picture", fileType := "jpeg" : FileInfo },
             { sourceName := "IMG_001.xmp", sourceDir := "s", size := 1,
               mediaCategory := "sidecar" : FileInfo }]
            { destDir := "d" }).1.files 0).destName
          (extOf (getF (importMedia
            { files := fun p =>
                if p = ("s", "IMG_001.jpg") then some { size := 1, content := "J" }
                else if p = ("s", "IMG_001.xmp") then some { size := 1, content := "X" }
                else none,
              dirs := fun _ => false, badDirs := fun _ => false, badPaths := fun _ => false }
            [{ sourceName := "IMG_001.jpg", sourceDir := "s", size := 1,
               mediaCategory := "processed_picture", fileType := "jpeg" : FileInfo },
             { sourceName := "IMG_001.xmp", sourceDir := "s", size := 1,
               mediaCategory := "sidecar" : FileInfo }]
            { destDir := "d" }).1.files 0).destName)
        ++ ".xmp" := by
  have h := (C4_sidecar_inherits_parent
    { files := fun p =>
        if p = ("s", "IMG_001.jpg") then some { size := 1, content := "J" }
        else if p = ("s", "IMG_001.xmp") then some { size := 1, content := "X" }
        else none,
      dirs := fun _ => false, badDirs := fun _ => false, badPaths := fun _ => false }
    [{ sourceName := "IMG_001.jpg", sourceDir := "s", size := 1,
       mediaCategory := "processed_picture", fileType := "jpeg" : FileInfo },
     { sourceName := "IMG_001.xmp", sourceDir := "s", size := 1,
       mediaCategory := "sidecar" : FileInfo }]
    { destDir := "d" } 1 0 (by decide) (by decide) (by decide) (by decide)).2
  rw [h]
  rfl

-- ## Checksum-failure policy (claim C8)

/-- C8, counterexample.  A checksum-computation failure during the on-disk
duplicate check is fatal for the record: with checksums enabled, an
unreadable source file and a same-size destination file at the initial
name, the record ends `unnamable` — it is not planned and copied normally,
contradicting the claim that such failures are never fatal. -/
theorem C8_checksum_failure_fatal_counterexample :
    (getF (importMedia
        { files := fun p =>
            if p = ("s", "p.jpg") then some { size := 3, content := "abc", readErr := true }
            else if p = ("d", "p.jpg") then some { size := 3, content := "xyz" }
            else none,
          dirs := fun _ => false, badDirs := fun _ => false, badPaths := fun _ => false }
        [{ sourceName := "p.jpg", sourceDir := "s", size := 3,
           mediaCategory := "processed_picture", fileType := "jpeg" : FileInfo }]
        { destDir := "d", checksumDuplicates := true }).1.files 0).status =
      FileStatus.unnamable := by
  decide

/-- C8, as amended.  (1) In the duplicate check against previously planned
records, a failure to compute the current record's checksum yields "not a
duplicate" and is not fatal; (2) a previously indexed record whose checksum
cannot be computed is simply skipped; (3) but in the on-disk duplicate
check, a checksum-computation failure is propagated: the resolver returns
an error (and the caller then marks the record `unnamable`). -/
theorem C8_checksum_failure_policy :
    (∀ (fs : FS) (files : List FileInfo) (ci : Nat) (idx : STIndex)
        (indices : List Nat) (e : String),
      assocLookup idx ((getF files ci).size, (getF files ci).creationDateTime) =
        some indices →
      (getF files ci).sourceChecksum = "" →
      calculateXXHash fs (mkPath (getF files ci).sourceDir (getF files ci).sourceName) =
        .error e →
      isDuplicateInPreviousFiles fs files ci true idx = (false, files)) ∧
    (∀ (fs : FS) (cur : String) (i : Nat) (rest : List Nat) (files : List FileInfo)
        (e : String),
      (getF files i).sourceChecksum = "" →
      calculateXXHash fs (mkPath (getF files i).sourceDir (getF files i).sourceName) =
        .error e →
      dupScanPrev fs cur (i :: rest) files = dupScanPrev fs cur rest files) ∧
    (∀ (fs : FS) (files : List FileInfo) (ci : Nat) (init : String) (cfg : Config)
        (idx : STIndex) (d : FileData) (e : String),
      cfg.checksumDuplicates = true →
      assocLookup idx ((getF files ci).size, (getF files ci).creationDateTime) = none →
      (getF files ci).sourceChecksum = "" →
      fs.files (mkPath (getF files ci).destDir
        (trimSuffix init (extOf init) ++
          resolvedExt cfg (getF files ci).fileType (extOf init))) = some d →
      d.size = (getF files ci).size →
      calculateXXHash fs (mkPath (getF files ci).sourceDir (getF files ci).sourceName) =
        .error e →
      setFinalDestinationFilename fs files ci init cfg idx = .error e) := by
  refine ⟨?_, ?_, ?_⟩
  · intro fs files ci idx indices e hlook hempty hx
    rw [isDuplicateInPreviousFiles, hlook]
    simp only [Bool.not_true, Bool.false_eq_true, if_false]
    rw [if_pos hempty, hx]
  · intro fs cur i rest files e hempty hx
    rw [dupScanPrev, if_pos hempty, hx]
  · intro fs files ci init cfg idx d e hck hnone hempty hdest hsize hx
    have hidp : isDuplicateInPreviousFiles fs files ci cfg.checksumDuplicates idx =
        (false, files) := by
      rw [isDuplicateInPreviousFiles, hnone]
    rw [setFinalDestinationFilename, hidp]
    dsimp only
    rw [if_neg (by simp)]
    have hex : existsPath fs (mkPath (getF files ci).destDir
        (trimSuffix init (extOf init) ++
          resolvedExt cfg (getF files ci).fileType (extOf init))) = true := by
      rw [existsPath, hdest]
      rfl
    rw [if_neg (by rw [hex]; simp)]
    have hdup : isDuplicate fs (getF files ci)
        (mkPath (getF files ci).destDir
          (trimSuffix init (extOf init) ++
            resolvedExt cfg (getF files ci).fileType (extOf init)))
        cfg.checksumDuplicates = .error e := by
      rw [isDuplicate, hdest]
      dsimp only
      rw [if_neg (show ¬(d.size ≠ (getF files ci).size) by simp [hsize])]
      rw [if_pos hck, if_pos hempty, hx]
    rw [hdup]

/-- Concrete instantiation of `C8_checksum_failure_policy`, part 1: an
unreadable source with an index hit is reported as "not a duplicate". -/
theorem C8_checksum_failure_policy_witness :
    isDuplicateInPreviousFiles
      { files := fun _ => none, dirs := fun _ => false,
        badDirs := fun _ => false, badPaths := fun _ => false }
      [{ sourceName := "p.jpg", sourceDir := "s", size := 3 : FileInfo }]
      0 true [((3, 0), [5])] =
      (false,
        [{ sourceName := "p.jpg", sourceDir := "s", size := 3 : FileInfo }]) := by
  exact (C8_checksum_failure_policy).1
    { files := fun _ => none, dirs := fun _ => false,
      badDirs := fun _ => false, badPaths := fun _ => false }
    [{ sourceName := "p.jpg", sourceDir := "s", size := 3 : FileInfo }]
    0 [((3, 0), [5])] [5] "open failed" (by decide) (by decide) rfl

-- ## Suffix-range exhaustion (claim C6)

/-- The record's checksum cache is unset or holds the hash of its (present,
readable) source file. -/
def srcValid (fs : FS) (srcD srcN : String) (f : FileInfo) : Prop :=
  f.sourceChecksum = "" ∨
  ∃ sd, fs.files (mkPath srcD srcN) = some sd ∧ sd.readErr = false ∧
    f.sourceChecksum = hashOf sd.content

/-- On-disk content at a candidate path that is not a duplicate of the
record: differing size, or (with checksums enabled) content whose checksum
comparison cannot succeed. -/
def nonDupF (fs : FS) (cks : Bool) (srcD srcN : String) (sz : Int) (fd : FileData) : Prop :=
  fd.size ≠ sz ∨
  (cks = true ∧
    (fd.readErr = true ∨
      ∀ sd, fs.files (mkPath srcD srcN) = some sd → hashOf fd.content ≠ hashOf sd.content))

theorem calculateXXHash_ok (fs : FS) (p : FPath) (c : String)
    (h : calculateXXHash fs p = .ok c) :
    ∃ sd, fs.files p = some sd ∧ sd.readErr = false ∧ c = hashOf sd.content := by
  rw [calculateXXHash] at h
  rcases hp : fs.files p with _ | sd
  · rw [hp] at h; exact absurd h (by simp)
  · rw [hp] at h
    dsimp only at h
    by_cases hre : sd.readErr
    · rw [if_pos hre] at h; exact absurd h (by simp)
    · rw [if_neg hre] at h
      simp only [Except.ok.injEq] at h
      exact ⟨sd, rfl, by simpa using hre, h.symm⟩

/-- At an occupied, non-duplicate candidate, `isDuplicate` either answers
"not a duplicate" (possibly filling the cache, validly) or fails. -/
theorem isDuplicate_nonDup (fs : FS) (cks : Bool) (srcD srcN : String) (sz : Int)
    (file : FileInfo) (p : FPath) (fd : FileData)
    (hsd : file.sourceDir = srcD) (hsn : file.sourceName = srcN)
    (hsz : file.size = sz) (hcache : srcValid fs srcD srcN file)
    (hp : fs.files p = some fd) (hnd : nonDupF fs cks srcD srcN sz fd) :
    (∃ file', isDuplicate fs file p cks = .ok (false, file') ∧
      file'.sourceDir = srcD ∧ file'.sourceName = srcN ∧ file'.size = sz ∧
      srcValid fs srcD srcN file') ∨
    (∃ e, isDuplicate fs file p cks = .error e) := by
  rw [isDuplicate, hp]
  by_cases hszne : fd.size ≠ file.size
  · left
    refine ⟨file, ?_, hsd, hsn, hsz, hcache⟩
    dsimp only
    rw [if_pos hszne]
  · -- sizes equal: the hypothesis forces the checksum-comparison disjunct
    have hszeq : fd.size = sz := by
      push_neg at hszne
      rw [hszne, hsz]
    rcases hnd with hnd | ⟨hcks, hnd⟩
    · exact absurd hszeq hnd
    · dsimp only
      rw [if_neg hszne, if_pos hcks]
      split
      next e1 heq =>
        right
        exact ⟨e1, rfl⟩
      next src file2 heq =>
        have hsrc : (∃ sd, fs.files (mkPath srcD srcN) = some sd ∧ sd.readErr = false ∧
            src = hashOf sd.content) ∧ file2.sourceDir = srcD ∧ file2.sourceName = srcN ∧
            file2.size = sz ∧ srcValid fs srcD srcN file2 := by
          split at heq
          · split at heq
            · exact absurd heq (by simp)
            next c hcx =>
              simp only [Except.ok.injEq, Prod.mk.injEq] at heq
              obtain ⟨sd, hsd2, hre2, hc2⟩ := calculateXXHash_ok _ _ _ hcx
              rw [hsd, hsn] at hsd2
              refine ⟨⟨sd, hsd2, hre2, by rw [← heq.1]; exact hc2⟩, ?_, ?_, ?_, ?_⟩
              · rw [← heq.2]; exact hsd
              · rw [← heq.2]; exact hsn
              · rw [← heq.2]; exact hsz
              · rw [← heq.2]
                right
                exact ⟨sd, hsd2, hre2, by
                  show ({ file with sourceChecksum := c } : FileInfo).sourceChecksum =
                    hashOf sd.content
                  rw [← hc2]⟩
          next hne =>
            simp only [Except.ok.injEq, Prod.mk.injEq] at heq
            rcases hcache with hcB | ⟨sd, hsd2, hre2, hval⟩
            · exact absurd hcB hne
            · refine ⟨⟨sd, hsd2, hre2, by rw [← heq.1]; exact hval⟩, ?_, ?_, ?_, ?_⟩
              · rw [← heq.2]; exact hsd
              · rw [← heq.2]; exact hsn
              · rw [← heq.2]; exact hsz
              · rw [← heq.2]
                right
                exact ⟨sd, hsd2, hre2, hval⟩
        split
        next e2 heq2 =>
          right
          exact ⟨e2, rfl⟩
        next destC heq2 =>
          left
          obtain ⟨⟨sd, hsd2, hre2, hsrcC⟩, hfd1, hfn1, hfz1, hfv1⟩ := hsrc
          obtain ⟨dd, hdd, hddre, hddc⟩ := calculateXXHash_ok _ _ _ heq2
          rw [hp] at hdd
          have hddfd : dd = fd := (Option.some.inj hdd).symm
          have hne2 : src ≠ destC := by
            rcases hnd with hre | hnd
            · rw [← hddfd] at hre
              rw [hddre] at hre
              exact absurd hre (by simp)
            · rw [hsrcC, hddc, hddfd]
              intro hcon
              exact hnd sd hsd2 hcon.symm
          refine ⟨file2, ?_, hfd1, hfn1, hfz1, hfv1⟩
          simp [hne2]

/-- If every candidate in the remaining suffix range is occupied by
non-duplicate content, the disambiguation loop exhausts and fails. -/
theorem resolveSuffixLoop_exhausts (fs : FS) (cfg : Config) (ci : Nat)
    (bd bf e : String) (srcD srcN : String) (sz : Int) :
    ∀ (rem k : Nat) (files : List FileInfo),
      (getF files ci).sourceDir = srcD → (getF files ci).sourceName = srcN →
      (getF files ci).size = sz → srcValid fs srcD srcN (getF files ci) →
      (∀ m, k ≤ m → m < k + rem →
        ∃ fd, fs.files (mkPath bd (bf ++ "_" ++ pad3 m ++ e)) = some fd ∧
          nonDupF fs cfg.checksumDuplicates srcD srcN sz fd) →
      ∃ err, resolveSuffixLoop fs cfg ci bd bf e k rem files = .error err := by
  intro rem
  induction rem with
  | zero =>
    intro k files _ _ _ _ _
    exact ⟨"could not find a unique filename after 999,999 attempts",
      by rw [resolveSuffixLoop]⟩
  | succ n ih =>
    intro k files hsd hsn hsz hcache hcand
    obtain ⟨fd, hfd, hnd⟩ := hcand k (le_refl k) (by omega)
    rw [resolveSuffixLoop]
    have hex : existsPath fs (mkPath bd (bf ++ "_" ++ pad3 k ++ e)) = true := by
      rw [existsPath, hfd]
      rfl
    rw [if_neg (by rw [hex]; simp)]
    rcases isDuplicate_nonDup fs cfg.checksumDuplicates srcD srcN sz (getF files ci)
        (mkPath bd (bf ++ "_" ++ pad3 k ++ e)) fd hsd hsn hsz hcache hfd hnd with
      ⟨file2, hdup, hp1, hp2, hp3, hp4⟩ | ⟨er, hdup⟩
    · rw [hdup]
      dsimp only
      rw [if_neg (by simp)]
      by_cases hlt : ci < files.length
      · refine ih (k + 1) (files.set ci file2) ?_ ?_ ?_ ?_ ?_
        · rw [getF_set_self hlt]; exact hp1
        · rw [getF_set_self hlt]; exact hp2
        · rw [getF_set_self hlt]; exact hp3
        · rw [getF_set_self hlt]; exact hp4
        · intro m hm1 hm2
          exact hcand m (by omega) (by omega)
      · have hset : files.set ci file2 = files := by
          apply List.set_eq_of_length_le
          omega
        rw [hset]
        refine ih (k + 1) files hsd hsn hsz hcache ?_
        intro m hm1 hm2
        exact hcand m (by omega) (by omega)
    · rw [hdup]
      exact ⟨er, rfl⟩

/-- With no duplicate among previously planned records, an unset checksum
cache, and every candidate name — the initial one and the whole
`_000001` … `_999999` range — occupied by non-duplicate content, the
resolver fails. -/
theorem setFinalDestinationFilename_exhausts (fs : FS) (files : List FileInfo)
    (ci : Nat) (init : String) (cfg : Config) (idx : STIndex)
    (hidx : assocLookup idx ((getF files ci).size, (getF files ci).creationDateTime) = none)
    (hcache : srcValid fs (getF files ci).sourceDir (getF files ci).sourceName (getF files ci))
    (hinit : ∃ fd, fs.files (mkPath (getF files ci).destDir
        (trimSuffix init (extOf init) ++
          resolvedExt cfg (getF files ci).fileType (extOf init))) = some fd ∧
      nonDupF fs cfg.checksumDuplicates (getF files ci).sourceDir
        (getF files ci).sourceName (getF files ci).size fd)
    (hcand : ∀ m, 1 ≤ m → m ≤ 999999 →
      ∃ fd, fs.files (mkPath (getF files ci).destDir
          (trimSuffix init (extOf init) ++ "_" ++ pad3 m ++
            resolvedExt cfg (getF files ci).fileType (extOf init))) = some fd ∧
        nonDupF fs cfg.checksumDuplicates (getF files ci).sourceDir
          (getF files ci).sourceName (getF files ci).size fd) :
    ∃ err, setFinalDestinationFilename fs files ci init cfg idx = .error err := by
  have hidp : isDuplicateInPreviousFiles fs files ci cfg.checksumDuplicates idx =
      (false, files) := by
    rw [isDuplicateInPreviousFiles, hidx]
  rw [setFinalDestinationFilename, hidp]
  dsimp only
  rw [if_neg (by simp)]
  obtain ⟨fd, hfd, hnd⟩ := hinit
  have hex : existsPath fs (mkPath (getF files ci).destDir
      (trimSuffix init (extOf init) ++
        resolvedExt cfg (getF files ci).fileType (extOf init))) = true := by
    rw [existsPath, hfd]
    rfl
  rw [if_neg (by rw [hex]; simp)]
  rcases isDuplicate_nonDup fs cfg.checksumDuplicates (getF files ci).sourceDir
      (getF files ci).sourceName (getF files ci).size (getF files ci) _ fd rfl rfl rfl
      hcache hfd hnd with
    ⟨file2, hdup, hp1, hp2, hp3, hp4⟩ | ⟨er, hdup⟩
  · rw [hdup]
    dsimp only
    rw [if_neg (by simp)]
    by_cases hlt : ci < files.length
    · refine resolveSuffixLoop_exhausts fs cfg ci (getF files ci).destDir
        (trimSuffix init (extOf init)) (resolvedExt cfg (getF files ci).fileType (extOf init))
        (getF files ci).sourceDir (getF files ci).sourceName (getF files ci).size 999999 1
        (files.set ci file2) ?_ ?_ ?_ ?_ ?_
      · rw [getF_set_self hlt]; exact hp1
      · rw [getF_set_self hlt]; exact hp2
      · rw [getF_set_self hlt]; exact hp3
      · rw [getF_set_self hlt]; exact hp4
      · intro m hm1 hm2
        exact hcand m hm1 (by omega)
    · have hset : files.set ci file2 = files := by
        apply List.set_eq_of_length_le
        omega
      rw [hset]
      refine resolveSuffixLoop_exhausts fs cfg ci (getF files ci).destDir
        (trimSuffix init (extOf init)) (resolvedExt cfg (getF files ci).fileType (extOf init))
        (getF files ci).sourceDir (getF files ci).sourceName (getF files ci).size 999999 1
        files rfl rfl rfl hcache ?_
      intro m hm1 hm2
      exact hcand m hm1 (by omega)
  · rw [hdup]
    exact ⟨er, rfl⟩

-- ## Checksum caches stay valid throughout planning

/-- Every record's checksum cache is unset or correct for its own source. -/
def cacheValid (fs : FS) (files : List FileInfo) : Prop :=
  ∀ j, srcValid fs (getF files j).sourceDir (getF files j).sourceName (getF files j)

theorem cacheValid_set {fs : FS} {files : List FileInfo} {i : Nat} {v : FileInfo}
    (hv : srcValid fs v.sourceDir v.sourceName v) (h : cacheValid fs files) :
    cacheValid fs (files.set i v) := by
  intro j
  rw [getF_set]
  by_cases hc : i = j ∧ i < files.length
  · rw [if_pos hc]
    exact hv
  · rw [if_neg hc]
    exact h j

theorem srcValid_keepCache {fs : FS} {f v : FileInfo}
    (hsd : v.sourceDir = f.sourceDir) (hsn : v.sourceName = f.sourceName)
    (hsc : v.sourceChecksum = f.sourceChecksum)
    (h : srcValid fs f.sourceDir f.sourceName f) :
    srcValid fs v.sourceDir v.sourceName v := by
  rw [srcValid, hsd, hsn, hsc]
  exact h

theorem srcValid_fill {fs : FS} {f : FileInfo} {c : String}
    (hx : calculateXXHash fs (mkPath f.sourceDir f.sourceName) = .ok c) :
    srcValid fs f.sourceDir f.sourceName { f with sourceChecksum := c } := by
  obtain ⟨sd, hsd, hre, hc⟩ := calculateXXHash_ok _ _ _ hx
  right
  exact ⟨sd, hsd, hre, hc⟩

theorem dupScanPrev_cacheValid (fs : FS) (cur : String) :
    ∀ (idxs : List Nat) (files : List FileInfo), cacheValid fs files →
      cacheValid fs (dupScanPrev fs cur idxs files).2
  | [], _, h => h
  | i :: rest, files, h => by
    rw [dupScanPrev]
    split
    · split
      · exact dupScanPrev_cacheValid fs cur rest files h
      next c hx =>
        have hset : cacheValid fs (files.set i { getF files i with sourceChecksum := c }) :=
          cacheValid_set (srcValid_fill hx) h
        split
        · exact hset
        · exact dupScanPrev_cacheValid fs cur rest _ hset
    · split
      · exact h
      · exact dupScanPrev_cacheValid fs cur rest files h

theorem isDuplicateInPreviousFiles_cacheValid (fs : FS) (files : List FileInfo)
    (ci : Nat) (cks : Bool) (idx : STIndex) (h : cacheValid fs files) :
    cacheValid fs (isDuplicateInPreviousFiles fs files ci cks idx).2 := by
  rw [isDuplicateInPreviousFiles]
  split
  · exact h
  · split
    · exact h
    · split
      · exact h
      next cur files2 heq =>
        refine dupScanPrev_cacheValid fs cur _ files2 ?_
        split at heq
        · split at heq
          · exact absurd heq (by simp)
          next c hx =>
            simp only [Except.ok.injEq, Prod.mk.injEq] at heq
            rw [← heq.2]
            exact cacheValid_set (srcValid_fill hx) h
        · simp only [Except.ok.injEq, Prod.mk.injEq] at heq
          rw [← heq.2]
          exact h

/-- A successful `isDuplicate` returns a record whose cache is still valid
(it was either untouched or filled from a successful source hash). -/
theorem isDuplicate_cacheValid (fs : FS) (file : FileInfo) (p : FPath) (cks : Bool)
    (d : Bool) (f' : FileInfo) (h : isDuplicate fs file p cks = .ok (d, f'))
    (hv : srcValid fs file.sourceDir file.sourceName file) :
    srcValid fs f'.sourceDir f'.sourceName f' := by
  rw [isDuplicate] at h
  split at h
  · simp only [Except.ok.injEq, Prod.mk.injEq] at h
    rw [← h.2]
    exact hv
  · split at h
    · simp only [Except.ok.injEq, Prod.mk.injEq] at h
      rw [← h.2]
      exact hv
    · split at h
      · split at h
        · exact absurd h (by simp)
        next src file2 heq =>
          have hf2 : srcValid fs file2.sourceDir file2.sourceName file2 := by
            split at heq
            · split at heq
              · exact absurd heq (by simp)
              next c hx =>
                simp only [Except.ok.injEq, Prod.mk.injEq] at heq
                rw [← heq.2]
                exact srcValid_fill hx
            · simp only [Except.ok.injEq, Prod.mk.injEq] at heq
              rw [← heq.2]
              exact hv
          split at h
          · exact absurd h (by simp)
          · simp only [Except.ok.injEq, Prod.mk.injEq] at h
            rw [← h.2]
            exact hf2
      · simp only [Except.ok.injEq, Prod.mk.injEq] at h
        rw [← h.2]
        exact hv

theorem resolveSuffixLoop_cacheValid (fs : FS) (cfg : Config) (ci : Nat)
    (bd bf e : String) :
    ∀ (rem k : Nat) (files out : List FileInfo),
      resolveSuffixLoop fs cfg ci bd bf e k rem files = .ok out →
      cacheValid fs files → cacheValid fs out := by
  intro rem
  induction rem with
  | zero =>
    intro k files out h
    exact absurd h (by rw [resolveSuffixLoop]; simp)
  | succ n ih =>
    intro k files out h hv
    rw [resolveSuffixLoop] at h
    split at h
    · simp only [Except.ok.injEq] at h
      rw [← h]
      refine cacheValid_set ?_ hv
      exact srcValid_keepCache rfl rfl rfl (hv ci)
    · split at h
      · exact absurd h (by simp)
      next dup file2 heq =>
        have hset : cacheValid fs (files.set ci file2) :=
          cacheValid_set (isDuplicate_cacheValid _ _ _ _ _ _ heq (hv ci)) hv
        split at h
        · simp only [Except.ok.injEq] at h
          rw [← h]
          refine cacheValid_set ?_ hset
          exact srcValid_keepCache rfl rfl rfl (hset ci)
        · exact ih _ _ _ h hset

theorem setFinalDestinationFilename_cacheValid (fs : FS) (files : List FileInfo)
    (ci : Nat) (init : String) (cfg : Config) (idx : STIndex) (out : List FileInfo)
    (h : setFinalDestinationFilename fs files ci init cfg idx = .ok out)
    (hv : cacheValid fs files) : cacheValid fs out := by
  rw [setFinalDestinationFilename] at h
  split at h
  next isDup files1 hdp =>
    have hv1 : cacheValid fs files1 := by
      have := isDuplicateInPreviousFiles_cacheValid fs files ci cfg.checksumDuplicates idx hv
      rw [hdp] at this
      exact this
    split at h
    · simp only [Except.ok.injEq] at h
      rw [← h]
      refine cacheValid_set ?_ hv1
      exact srcValid_keepCache rfl rfl rfl (hv1 ci)
    · dsimp only at h
      split at h
      · simp only [Except.ok.injEq] at h
        rw [← h]
        refine cacheValid_set ?_ hv1
        exact srcValid_keepCache rfl rfl rfl (hv1 ci)
      · split at h
        · exact absurd h (by simp)
        next dup file2 heq =>
          have hset : cacheValid fs (files1.set ci file2) :=
            cacheValid_set (isDuplicate_cacheValid _ _ _ _ _ _ heq (hv1 ci)) hv1
          split at h
          · simp only [Except.ok.injEq] at h
            rw [← h]
            refine cacheValid_set ?_ hset
            exact srcValid_keepCache rfl rfl rfl (hset ci)
          · exact resolveSuffixLoop_cacheValid fs cfg ci _ _ _ _ _ _ _ h hset

theorem pass1Step_cacheValid (fs : FS) (cfg : Config) (st : List FileInfo × STIndex)
    (i : Nat) (hv : cacheValid fs st.1) : cacheValid fs (pass1Step fs cfg st i).1 := by
  rw [pass1Step]
  split
  · exact hv
  · dsimp only
    have hset : cacheValid fs (st.1.set i
        { getF st.1 i with destDir := plannedDestDir cfg (getF st.1 i) }) := by
      refine cacheValid_set ?_ hv
      exact srcValid_keepCache rfl rfl rfl (hv i)
    split
    next e heq =>
      refine cacheValid_set ?_ hset
      exact srcValid_keepCache rfl rfl rfl (hset i)
    next files2 heq =>
      exact setFinalDestinationFilename_cacheValid _ _ _ _ _ _ _ heq hset

theorem pass1_foldl_cacheValid (fs : FS) (cfg : Config) :
    ∀ (L : List Nat) (st : List FileInfo × STIndex), cacheValid fs st.1 →
      cacheValid fs ((L.foldl (pass1Step fs cfg) st)).1
  | [], _, hv => hv
  | i :: L, st, hv => by
    rw [List.foldl_cons]
    exact pass1_foldl_cacheValid fs cfg L _ (pass1Step_cacheValid fs cfg st i hv)

-- ## Supporting lemmas for the pipeline-level exhaustion claim

theorem assocLookup_appendST_ne (key k2 : Int × Int) (v : Nat) (hne : k2 ≠ key) :
    ∀ idx : STIndex, assocLookup (appendST idx k2 v) key = assocLookup idx key
  | [] => by simp [appendST, assocLookup, hne]
  | (k1, l1) :: rest => by
    simp only [appendST]
    by_cases h1 : k1 = k2
    · rw [if_pos h1]
      simp only [assocLookup]
      rw [if_neg (fun h => hne (h1.symm.trans h)),
        if_neg (fun h => hne (h1.symm.trans h))]
    · rw [if_neg h1]
      simp only [assocLookup]
      by_cases h2 : k1 = key
      · rw [if_pos h2, if_pos h2]
      · rw [if_neg h2, if_neg h2]
        exact assocLookup_appendST_ne key k2 v hne rest

theorem pass1Step_other (fs : FS) (cfg : Config) (st : List FileInfo × STIndex)
    (m j : Nat) (hne : j ≠ m) :
    ∃ c, getF (pass1Step fs cfg st m).1 j = { getF st.1 j with sourceChecksum := c } := by
  rw [pass1Step]
  split
  · exact ⟨(getF st.1 j).sourceChecksum, rfl⟩
  · dsimp only
    split
    next e heq =>
      refine ⟨(getF st.1 j).sourceChecksum, ?_⟩
      rw [getF_set, if_neg (fun hcon => hne hcon.1.symm),
        getF_set, if_neg (fun hcon => hne hcon.1.symm)]
    next files2 heq =>
      obtain ⟨c, hc⟩ := (setFinalDestinationFilename_frame _ _ _ _ _ _ _ heq).1 j hne
      refine ⟨c, ?_⟩
      rw [hc, getF_set, if_neg (fun hcon => hne hcon.1.symm)]

theorem pass1_foldl_other (fs : FS) (cfg : Config) :
    ∀ (L : List Nat) (st : List FileInfo × STIndex) (j : Nat), j ∉ L →
      ∃ c, getF ((L.foldl (pass1Step fs cfg) st)).1 j =
        { getF st.1 j with sourceChecksum := c }
  | [], st, j, _ => ⟨(getF st.1 j).sourceChecksum, rfl⟩
  | m :: L, st, j, hmem => by
    rw [List.foldl_cons]
    obtain ⟨c1, hc1⟩ := pass1Step_other fs cfg st m j
      (fun hcon => hmem (hcon ▸ List.mem_cons_self m L))
    obtain ⟨c2, hc2⟩ := pass1_foldl_other fs cfg L (pass1Step fs cfg st m) j
      (fun hcon => hmem (List.mem_cons_of_mem m hcon))
    exact ⟨c2, by rw [hc2, hc1]⟩

theorem runJob_other (cfg : Config) (st : CopyState) (m j : Nat) (hne : j ≠ m) :
    getF (runJob cfg st m).files j = getF st.files j := by
  rw [runJob]
  split
  · split
    · rw [getF_set, if_neg (fun hcon => hne hcon.1.symm)]
    · split
      · rw [getF_set, if_neg (fun hcon => hne hcon.1.symm)]
      · rw [getF_set, if_neg (fun hcon => hne hcon.1.symm)]
  · rfl

/-- A record that planning left `unnamable` (or otherwise skipped) is not
in the copy work list, and the copy phase leaves it untouched. -/
theorem copyFiles_untouched (files : List FileInfo) (fs : FS) (cfg : Config)
    (i : Nat) (hskip : i ∉ workList files) :
    getF (copyFiles files fs cfg).1.files i = getF files i := by
  rw [copyFiles]
  split
  · rfl
  · refine foldl_untouched (runJob cfg) (fun st j => getF st.files j)
      (fun st m j hj => runJob_other cfg st m j hj) _ _ i ?_
    intro hmem
    exact hskip ((List.Perm.mem_iff
      ((interleave_perm _).trans (List.perm_insertionSort _ _))).mp hmem)

theorem not_mem_workList (files : List FileInfo) (i : Nat)
    (h : (getF files i).status = FileStatus.unnamable ∨
      (getF files i).status = FileStatus.preExisting ∨
      (getF files i).status = FileStatus.sidecarDeleted) :
    i ∉ workList files := by
  intro hmem
  rw [workList, List.mem_filter] at hmem
  rcases h with h | h | h <;> rw [h] at hmem <;> simp at hmem

theorem plannedDestDir_congr (cfg : Config) {f g : FileInfo}
    (h : f.creationDateTime = g.creationDateTime) :
    plannedDestDir cfg f = plannedDestDir cfg g := by
  rw [plannedDestDir, plannedDestDir, h]

theorem getF_map_fields (files : List FileInfo) (j : Nat) :
    (getF (files.map fun f => { f with parentIndex := -1 }) j).sourceName =
      (getF files j).sourceName ∧
    (getF (files.map fun f => { f with parentIndex := -1 }) j).sourceDir =
      (getF files j).sourceDir ∧
    (getF (files.map fun f => { f with parentIndex := -1 }) j).creationDateTime =
      (getF files j).creationDateTime ∧
    (getF (files.map fun f => { f with parentIndex := -1 }) j).size =
      (getF files j).size ∧
    (getF (files.map fun f => { f with parentIndex := -1 }) j).mediaCategory =
      (getF files j).mediaCategory ∧
    (getF (files.map fun f => { f with parentIndex := -1 }) j).fileType =
      (getF files j).fileType ∧
    (getF (files.map fun f => { f with parentIndex := -1 }) j).sourceChecksum =
      (getF files j).sourceChecksum ∧
    (getF (files.map fun f => { f with parentIndex := -1 }) j).status =
      (getF files j).status := by
  by_cases hj : j < files.length
  · rw [getF_map_parentInit files j hj]
    exact ⟨rfl, rfl, rfl, rfl, rfl, rfl, rfl, rfl⟩
  · have h1 : getF (files.map fun f => { f with parentIndex := -1 }) j = default := by
      rw [getF, List.getD_eq_getElem?_getD, List.getElem?_eq_none (by simpa using hj)]
      rfl
    have h2 : getF files j = default := by
      rw [getF, List.getD_eq_getElem?_getD, List.getElem?_eq_none (by omega)]
      rfl
    rw [h1, h2]
    exact ⟨rfl, rfl, rfl, rfl, rfl, rfl, rfl, rfl⟩

theorem pass1_prefix_key_none (fs : FS) (cfg : Config) (files0 : List FileInfo)
    (key : Int × Int) :
    ∀ (L : List Nat) (st : List FileInfo × STIndex),
      (∀ m ∈ L, (getF files0 m).mediaCategory ≠ Sidecar →
        ((getF files0 m).size, (getF files0 m).creationDateTime) ≠ key) →
      planOnly files0 st.1 → assocLookup st.2 key = none →
      planOnly files0 ((L.foldl (pass1Step fs cfg) st)).1 ∧
        assocLookup ((L.foldl (pass1Step fs cfg) st)).2 key = none
  | [], st, _, hp, hn => ⟨hp, hn⟩
  | m :: L, st, hmem, hp, hn => by
    rw [List.foldl_cons]
    have hmem0 := hmem m (List.mem_cons_self m L)
    have hp2 : planOnly files0 (pass1Step fs cfg st m).1 :=
      planOnly_trans hp (pass1Step_frame fs cfg st m)
    have hn2 : assocLookup (pass1Step fs cfg st m).2 key = none := by
      rw [pass1Step]
      split
      · exact hn
      next hcat =>
        dsimp only
        split
        next e heq => exact hn
        next files2 heq =>
          have hcat0 : (getF files0 m).mediaCategory ≠ Sidecar := by
            intro hcon
            apply hcat
            rw [(planOnly_id hp m).2.2.2.2.1, hcon]
            simp
          have hpl2 : planOnly files0 files2 := by
            refine planOnly_trans hp (planOnly_trans ?_
              (planOnly_of_updOnly (setFinalDestinationFilename_frame _ _ _ _ _ _ _ heq)))
            exact planOnly_set st.1 m (getF st.1 m).sourceChecksum (getF st.1 m).destName
              (getF st.1 m).status (plannedDestDir cfg (getF st.1 m))
          have hid2 := planOnly_id hpl2 m
          have hkm : ((getF files2 m).size, (getF files2 m).creationDateTime) ≠ key := by
            rw [hid2.2.2.2.1, hid2.2.2.1]
            exact hmem0 hcat0
          rw [assocLookup_appendST_ne key _ m hkm]
          exact hn
    exact pass1_prefix_key_none fs cfg files0 key L _
      (fun x hx => hmem x (List.mem_cons_of_mem m hx)) hp2 hn2

/-- C6.  A non-sidecar record whose initial candidate name and every suffixed
candidate `_000001` … `_999999` in its planned destination directory are
occupied by non-duplicate content — and whose (size, creation time) key is not
shared with an earlier non-sidecar record, so the cheap index pre-check cannot
mask the exhaustion — ends the whole pipeline with status `unnamable` and is
excluded from the copy work list, so no file is written for it; the rest of
the run proceeds (the pipeline still completes and, by the frame lemmas, the
failure never touches any other record). -/
theorem C6_suffix_exhaustion_unnamable (fs : FS) (files : List FileInfo)
    (cfg : Config) (i : Nat) (I : String)
    (hin : i < files.length)
    (hI : I = if cfg.renameByDateTime = true then
        formatDateTime (getF files i).creationDateTime ++ extOf (getF files i).sourceName
      else (getF files i).sourceName)
    (hcat : (getF files i).mediaCategory ≠ Sidecar)
    (hcache0 : ∀ j, (getF files j).sourceChecksum = "")
    (hnodup : ∀ j, j < i → (getF files j).mediaCategory ≠ Sidecar →
      ((getF files j).size, (getF files j).creationDateTime) ≠
        ((getF files i).size, (getF files i).creationDateTime))
    (hinit : ∃ fd, fs.files (mkPath (plannedDestDir cfg (getF files i))
        (trimSuffix I (extOf I) ++ resolvedExt cfg (getF files i).fileType (extOf I))) =
          some fd ∧
      nonDupF fs cfg.checksumDuplicates (getF files i).sourceDir
        (getF files i).sourceName (getF files i).size fd)
    (hcand : ∀ m, 1 ≤ m → m ≤ 999999 →
      ∃ fd, fs.files (mkPath (plannedDestDir cfg (getF files i))
          (trimSuffix I (extOf I) ++ "_" ++ pad3 m ++
            resolvedExt cfg (getF files i).fileType (extOf I))) = some fd ∧
        nonDupF fs cfg.checksumDuplicates (getF files i).sourceDir
          (getF files i).sourceName (getF files i).size fd) :
    (getF (importMedia fs files cfg).1.files i).status = FileStatus.unnamable ∧
    i ∉ workList (planFiles fs files cfg) := by
  set files0 := (files.map fun f => { f with parentIndex := -1 }) with hf0
  have hlen0 : files0.length = files.length := by rw [hf0]; simp
  obtain ⟨flI, idxI, hstI⟩ : ∃ fl idx,
      (List.range i).foldl (pass1Step fs cfg) (files0, ([] : STIndex)) = (fl, idx) :=
    ⟨_, _, rfl⟩
  have hmemKey : ∀ m ∈ List.range i,
      (getF (files.map fun f => { f with parentIndex := -1 }) m).mediaCategory ≠ Sidecar →
      ((getF (files.map fun f => { f with parentIndex := -1 }) m).size,
        (getF (files.map fun f => { f with parentIndex := -1 }) m).creationDateTime) ≠
        ((getF files i).size, (getF files i).creationDateTime) := by
    intro m hm hcatm
    have hmf := getF_map_fields files m
    rw [hmf.2.2.2.1, hmf.2.2.1]
    refine hnodup m (List.mem_range.mp hm) ?_
    rw [← hmf.2.2.2.2.1]
    exact hcatm
  have hpk := pass1_prefix_key_none fs cfg files0
    ((getF files i).size, (getF files i).creationDateTime)
    (List.range i) (files0, ([] : STIndex)) hmemKey (planOnly_refl files0) rfl
  rw [hstI] at hpk
  have hpO : planOnly files0 flI := hpk.1
  have hkN : assocLookup idxI ((getF files i).size, (getF files i).creationDateTime) =
      none := hpk.2
  have hcv0 : cacheValid fs files0 := by
    intro j
    exact Or.inl (by
      rw [hf0, (getF_map_fields files j).2.2.2.2.2.2.1]
      exact hcache0 j)
  have hcvI : cacheValid fs flI := by
    have h := pass1_foldl_cacheValid fs cfg (List.range i) (files0, ([] : STIndex)) hcv0
    rw [hstI] at h
    exact h
  have hlenflI : flI.length = files.length := by
    have h := pass1_foldl_length fs cfg (List.range i) (files0, ([] : STIndex))
    rw [hstI] at h
    exact h.trans hlen0
  have hboundflI : i < flI.length := by rw [hlenflI]; exact hin
  have hmf := getF_map_fields files i
  have hids := planOnly_id hpO i
  have hsn : (getF flI i).sourceName = (getF files i).sourceName := by
    rw [hids.1, hf0, hmf.1]
  have hsd : (getF flI i).sourceDir = (getF files i).sourceDir := by
    rw [hids.2.1, hf0, hmf.2.1]
  have hdt : (getF flI i).creationDateTime = (getF files i).creationDateTime := by
    rw [hids.2.2.1, hf0, hmf.2.2.1]
  have hszt : (getF flI i).size = (getF files i).size := by
    rw [hids.2.2.2.1, hf0, hmf.2.2.2.1]
  have hmc : (getF flI i).mediaCategory = (getF files i).mediaCategory := by
    rw [hids.2.2.2.2.1, hf0, hmf.2.2.2.2.1]
  have hft : (getF flI i).fileType = (getF files i).fileType := by
    rw [hids.2.2.2.2.2.1, hf0, hmf.2.2.2.2.2.1]
  set vD : FileInfo := { getF flI i with destDir := plannedDestDir cfg (getF flI i) }
    with hvD
  set fp : List FileInfo := flI.set i vD with hfp
  have hboundfp : i < fp.length := by rw [hfp, List.length_set]; exact hboundflI
  have hfiEq : getF fp i = vD := by rw [hfp]; exact getF_set_self hboundflI
  have hidx2 : assocLookup idxI ((getF fp i).size, (getF fp i).creationDateTime) =
      none := by
    rw [hfiEq, hvD]
    dsimp only
    rw [hszt, hdt]
    exact hkN
  have hcvfp : cacheValid fs fp := by
    rw [hfp]
    exact cacheValid_set (srcValid_keepCache rfl rfl rfl (hcvI i)) hcvI
  have hcache2 : srcValid fs (getF fp i).sourceDir (getF fp i).sourceName (getF fp i) :=
    hcvfp i
  have hinit2 : ∃ fd, fs.files (mkPath (getF fp i).destDir
        (trimSuffix I (extOf I) ++ resolvedExt cfg (getF fp i).fileType (extOf I))) =
          some fd ∧
      nonDupF fs cfg.checksumDuplicates (getF fp i).sourceDir
        (getF fp i).sourceName (getF fp i).size fd := by
    rw [hfiEq, hvD]
    dsimp only
    rw [hft, hsd, hsn, hszt, plannedDestDir_congr cfg hdt]
    exact hinit
  have hcand2 : ∀ m, 1 ≤ m → m ≤ 999999 →
      ∃ fd, fs.files (mkPath (getF fp i).destDir
          (trimSuffix I (extOf I) ++ "_" ++ pad3 m ++
            resolvedExt cfg (getF fp i).fileType (extOf I))) = some fd ∧
        nonDupF fs cfg.checksumDuplicates (getF fp i).sourceDir
          (getF fp i).sourceName (getF fp i).size fd := by
    intro m hm1 hm2
    rw [hfiEq, hvD]
    dsimp only
    rw [hft, hsd, hsn, hszt, plannedDestDir_congr cfg hdt]
    exact hcand m hm1 hm2
  obtain ⟨err, herr⟩ := setFinalDestinationFilename_exhausts fs fp i I cfg idxI
    hidx2 hcache2 hinit2 hcand2
  have hcatb : ¬((getF flI i).mediaCategory == Sidecar) = true := by
    simp only [beq_iff_eq, hmc]
    exact hcat
  have hIeq : (if cfg.renameByDateTime = true then
        formatDateTime (getF flI i).creationDateTime ++ extOf (getF flI i).sourceName
      else (getF flI i).sourceName) = I := by
    rw [hdt, hsn, hI]
  have hstep : pass1Step fs cfg (flI, idxI) i =
      (fp.set i { getF fp i with status := FileStatus.unnamable }, idxI) := by
    rw [pass1Step]
    dsimp only
    rw [if_neg hcatb, hIeq, ← hvD, ← hfp, herr]
  have hrecM : getF (pass1Step fs cfg (flI, idxI) i).1 i =
      { getF fp i with status := FileStatus.unnamable } := by
    rw [hstep]
    exact getF_set_self hboundfp
  have hpass1eq : pass1 fs cfg files0 =
      (List.range' (i + 1) (files.length - i - 1)).foldl (pass1Step fs cfg)
        (pass1Step fs cfg (flI, idxI) i) := by
    rw [pass1, hlen0, range_split i files.length hin, List.foldl_append,
      List.foldl_append, hstI, List.foldl_cons, List.foldl_nil]
  obtain ⟨c, hcc⟩ := pass1_foldl_other fs cfg (List.range' (i + 1) (files.length - i - 1))
    (pass1Step fs cfg (flI, idxI) i) i
    (by intro hmem; rw [List.mem_range'_1] at hmem; omega)
  have hstat1 : (getF (pass1 fs cfg files0).1 i).status = FileStatus.unnamable := by
    rw [hpass1eq, hcc, hrecM]
  have hcat1 : (getF (pass1 fs cfg files0).1 i).mediaCategory ≠ Sidecar := by
    rw [hpass1eq, hcc, hrecM]
    show (getF fp i).mediaCategory ≠ Sidecar
    rw [hfiEq, hvD]
    show (getF flI i).mediaCategory ≠ Sidecar
    rw [hmc]
    exact hcat
  have hplanstat : (getF (planFiles fs files cfg) i).status = FileStatus.unnamable := by
    rw [planFiles]
    rw [← hf0]
    rw [pass2_nonSidecar cfg (buildParentIndex (pass1 fs cfg files0).1)
      (pass1 fs cfg files0).1 i hcat1]
    exact hstat1
  have hnW : i ∉ workList (planFiles fs files cfg) :=
    not_mem_workList _ i (Or.inl hplanstat)
  refine ⟨?_, hnW⟩
  rw [importMedia, copyFiles_untouched (planFiles fs files cfg) fs cfg i hnW]
  exact hplanstat

/-- Witness for C6: a single photo record `s/a.jpg` (size 5) against a
destination root `d` whose every name is occupied by a 7-byte file; the
pipeline marks it `unnamable` and schedules no copy job for it. -/
theorem C6_suffix_exhaustion_unnamable_witness :
    (getF (importMedia
        ⟨fun p => if p.1 = "d" then some ⟨7, "x", false, 0⟩ else none,
          fun _ => true, fun _ => false, fun _ => false⟩
        [{ sourceName := "a.jpg", sourceDir := "s", size := 5, mediaCategory := "photo" }]
        { destDir := "d" }).1.files 0).status = FileStatus.unnamable ∧
    0 ∉ workList (planFiles
        ⟨fun p => if p.1 = "d" then some ⟨7, "x", false, 0⟩ else none,
          fun _ => true, fun _ => false, fun _ => false⟩
        [{ sourceName := "a.jpg", sourceDir := "s", size := 5, mediaCategory := "photo" }]
        { destDir := "d" }) :=
  C6_suffix_exhaustion_unnamable
    ⟨fun p => if p.1 = "d" then some ⟨7, "x", false, 0⟩ else none,
      fun _ => true, fun _ => false, fun _ => false⟩
    [{ sourceName := "a.jpg", sourceDir := "s", size := 5, mediaCategory := "photo" }]
    { destDir := "d" } 0 "a.jpg"
    (by decide)
    rfl
    (by decide)
    (by
      intro j
      rcases j with _ | n
      · rfl
      · rw [getF, List.getD_eq_getElem?_getD, List.getElem?_eq_none (by simp)]
        rfl)
    (fun j hj => absurd hj (Nat.not_lt_zero j))
    ⟨⟨7, "x", false, 0⟩, rfl, Or.inl (by decide)⟩
    (fun m hm1 hm2 => ⟨⟨7, "x", false, 0⟩, rfl, Or.inl (by decide)⟩)

-- ## Acceptance guarantee of the resolver (claim C1)

theorem isNameTaken_eq_false {files : List FileInfo} {ci : Nat} {N : String}
    (h : isNameTakenByPreviousFile files ci N = false) :
    ∀ k, k < ci → ¬((getF files k).destDir = (getF files ci).destDir ∧
      (getF files k).destName = N) := by
  intro k hk hcon
  simp only [isNameTakenByPreviousFile, List.any_eq_false, List.mem_range] at h
  have h2 := h k hk
  simp only [Bool.and_eq_true, beq_iff_eq, not_and] at h2
  exact h2 hcon.1 hcon.2

/-- A successful run of the disambiguation loop either parked the record as
`pre-existing`, or accepted a name that no earlier record claims (in the
returned list), leaving the record's status and directory unchanged. -/
theorem resolveSuffixLoop_accept (fs : FS) (cfg : Config) (ci : Nat)
    (bd bf e : String) :
    ∀ (rem k : Nat) (files out : List FileInfo), ci < files.length →
      resolveSuffixLoop fs cfg ci bd bf e k rem files = .ok out →
      (getF out ci).status = FileStatus.preExisting ∨
      ((getF out ci).status = (getF files ci).status ∧
        ∀ k2, k2 < ci → ¬((getF out k2).destDir = (getF out ci).destDir ∧
          (getF out k2).destName = (getF out ci).destName)) := by
  intro rem
  induction rem with
  | zero => intro k files out _ h; exact absurd h (by rw [resolveSuffixLoop]; simp)
  | succ m ih =>
    intro k files out hci h
    rw [resolveSuffixLoop] at h
    by_cases hfree : !existsPath fs (mkPath bd (bf ++ "_" ++ pad3 k ++ e)) &&
        !isNameTakenByPreviousFile files ci (bf ++ "_" ++ pad3 k ++ e)
    · rw [if_pos hfree] at h
      simp only [Except.ok.injEq] at h
      right
      have hself : getF out ci =
          { getF files ci with destName := bf ++ "_" ++ pad3 k ++ e } := by
        rw [← h]
        exact getF_set_self hci
      refine ⟨by rw [hself], ?_⟩
      intro k2 hk2 hcon
      have hk2ne : k2 ≠ ci := by omega
      have hother : getF out k2 = getF files k2 := by
        rw [← h]
        exact getF_set_ne (fun hcon2 => hk2ne hcon2.symm)
      have htaken : isNameTakenByPreviousFile files ci (bf ++ "_" ++ pad3 k ++ e) =
          false := by
        simp only [Bool.and_eq_true, Bool.not_eq_true'] at hfree
        exact hfree.2
      refine isNameTaken_eq_false htaken k2 hk2 ?_
      rw [hother, hself] at hcon
      exact ⟨hcon.1, hcon.2⟩
    · rw [if_neg hfree] at h
      rcases hdp : isDuplicate fs (getF files ci) (mkPath bd (bf ++ "_" ++ pad3 k ++ e))
          cfg.checksumDuplicates with er | ⟨dup, file'⟩
      · rw [hdp] at h; simp at h
      · rw [hdp] at h
        simp only at h
        obtain ⟨c, hc⟩ := isDuplicate_frame _ _ _ _ _ _ hdp
        by_cases hdup : dup = true
        · rw [if_pos hdup] at h
          simp only [Except.ok.injEq] at h
          left
          have : ci < (files.set ci file').length := by
            rw [List.length_set]; exact hci
          rw [← h, getF_set_self this]
        · rw [if_neg hdup] at h
          have hlen : ci < (files.set ci file').length := by
            rw [List.length_set]; exact hci
          rcases ih (k + 1) (files.set ci file') out hlen h with hpre | ⟨hst, hnt⟩
          · exact Or.inl hpre
          · refine Or.inr ⟨?_, hnt⟩
            rw [hst, getF_set_self hci, hc]

/-- A successful resolver call either parked the record as `pre-existing`,
or accepted a destination name not claimed by any earlier record in the
returned list, leaving the record's status unchanged. -/
theorem setFinalDestinationFilename_accept (fs : FS) (files : List FileInfo)
    (ci : Nat) (init : String) (cfg : Config) (idx : STIndex) (out : List FileInfo)
    (hci : ci < files.length)
    (h : setFinalDestinationFilename fs files ci init cfg idx = .ok out) :
    (getF out ci).status = FileStatus.preExisting ∨
    ((getF out ci).status = (getF files ci).status ∧
      ∀ k2, k2 < ci → ¬((getF out k2).destDir = (getF out ci).destDir ∧
        (getF out k2).destName = (getF out ci).destName)) := by
  rw [setFinalDestinationFilename] at h
  split at h
  next isDup files1 hdp =>
    have hco : cacheOnly files files1 := by
      have := isDuplicateInPreviousFiles_frame fs files ci cfg.checksumDuplicates idx
      rw [hdp] at this
      exact this
    have hlen1 : files1.length = files.length := by
      have := isDuplicateInPreviousFiles_length fs files ci cfg.checksumDuplicates idx
      rw [hdp] at this
      exact this
    have hci1 : ci < files1.length := by rw [hlen1]; exact hci
    obtain ⟨cc, hcc⟩ := hco ci
    split at h
    · simp only [Except.ok.injEq] at h
      left
      rw [← h, getF_set_self hci1]
    · dsimp only at h
      split at h
      next hfree =>
        simp only [Except.ok.injEq] at h
        right
        have hself : getF out ci =
            { getF files1 ci with
              destName := trimSuffix init (extOf init) ++
                resolvedExt cfg (getF files ci).fileType (extOf init) } := by
          rw [← h]
          exact getF_set_self hci1
        refine ⟨by rw [hself, hcc], ?_⟩
        intro k2 hk2 hcon
        have hk2ne : k2 ≠ ci := by omega
        have hother : getF out k2 = getF files1 k2 := by
          rw [← h]
          exact getF_set_ne (fun hcon2 => hk2ne hcon2.symm)
        have htaken : isNameTakenByPreviousFile files1 ci
            (trimSuffix init (extOf init) ++
              resolvedExt cfg (getF files ci).fileType (extOf init)) = false := by
          simp only [Bool.and_eq_true, Bool.not_eq_true'] at hfree
          exact hfree.2
        refine isNameTaken_eq_false htaken k2 hk2 ?_
        rw [hother, hself] at hcon
        exact ⟨hcon.1, hcon.2⟩
      · split at h
        · exact absurd h (by simp)
        next dup file2 hdp2 =>
          obtain ⟨c, hc⟩ := isDuplicate_frame _ _ _ _ _ _ hdp2
          have hlenset : ci < (files1.set ci file2).length := by
            rw [List.length_set]; exact hci1
          split at h
          · simp only [Except.ok.injEq] at h
            left
            rw [← h, getF_set_self hlenset]
          · rcases resolveSuffixLoop_accept fs cfg ci _ _ _ 999999 1
                (files1.set ci file2) out hlenset h with hpre | ⟨hst, hnt⟩
            · exact Or.inl hpre
            · refine Or.inr ⟨?_, hnt⟩
              rw [hst, getF_set_self hci1, hc, hcc]

/-- No record before `m` (with a planned, copy-eligible, non-sidecar record)
shares its (destination directory, destination name) with any earlier
record. -/
def nameDistinctUpTo (m : Nat) (files : List FileInfo) : Prop :=
  ∀ k1 k2, k1 < k2 → k2 < m →
    (getF files k2).mediaCategory ≠ Sidecar →
    (getF files k2).status ≠ FileStatus.preExisting →
    (getF files k2).status ≠ FileStatus.unnamable →
    ¬((getF files k1).destDir = (getF files k2).destDir ∧
      (getF files k1).destName = (getF files k2).destName)

/-- Case analysis of one pass-1 step: skip a sidecar, mark `unnamable` on
resolver failure, or take the resolver's output and index the record. -/
theorem pass1Step_spec (fs : FS) (cfg : Config) (st : List FileInfo × STIndex)
    (m : Nat) :
    (pass1Step fs cfg st m = st ∧ (getF st.1 m).mediaCategory = Sidecar) ∨
    (∃ e, setFinalDestinationFilename fs
        (st.1.set m { getF st.1 m with destDir := plannedDestDir cfg (getF st.1 m) }) m
        (if cfg.renameByDateTime = true then
          formatDateTime (getF st.1 m).creationDateTime ++ extOf (getF st.1 m).sourceName
        else (getF st.1 m).sourceName) cfg st.2 = .error e ∧
      pass1Step fs cfg st m =
        ((st.1.set m { getF st.1 m with destDir := plannedDestDir cfg (getF st.1 m) }).set m
          { getF (st.1.set m
              { getF st.1 m with destDir := plannedDestDir cfg (getF st.1 m) }) m
            with status := FileStatus.unnamable }, st.2)) ∨
    (∃ out, setFinalDestinationFilename fs
        (st.1.set m { getF st.1 m with destDir := plannedDestDir cfg (getF st.1 m) }) m
        (if cfg.renameByDateTime = true then
          formatDateTime (getF st.1 m).creationDateTime ++ extOf (getF st.1 m).sourceName
        else (getF st.1 m).sourceName) cfg st.2 = .ok out ∧
      pass1Step fs cfg st m =
        (out, appendST st.2 ((getF out m).size, (getF out m).creationDateTime) m)) := by
  obtain ⟨stf, sti⟩ := st
  by_cases hcat : ((getF stf m).mediaCategory == Sidecar) = true
  · left
    refine ⟨?_, by simpa using hcat⟩
    rw [pass1Step]
    dsimp only
    rw [if_pos hcat]
  · rcases hx : setFinalDestinationFilename fs
        (stf.set m { getF stf m with destDir := plannedDestDir cfg (getF stf m) }) m
        (if cfg.renameByDateTime = true then
          formatDateTime (getF stf m).creationDateTime ++ extOf (getF stf m).sourceName
        else (getF stf m).sourceName) cfg sti with e | out
    · right; left
      refine ⟨e, rfl, ?_⟩
      rw [pass1Step]
      dsimp only
      rw [if_neg hcat, hx]
    · right; right
      refine ⟨out, rfl, ?_⟩
      rw [pass1Step]
      dsimp only
      rw [if_neg hcat, hx]

theorem pass1Step_distinct (fs : FS) (cfg : Config) (st : List FileInfo × STIndex)
    (m : Nat) (hlen : m < st.1.length) (hinv : nameDistinctUpTo m st.1) :
    nameDistinctUpTo (m + 1) (pass1Step fs cfg st m).1 := by
  intro k1 k2 hk12 hk2m hcat hs1 hs2
  by_cases hk2eq : k2 = m
  · subst hk2eq
    rcases pass1Step_spec fs cfg st k2 with ⟨heq, hcats⟩ | ⟨e, hx, heq⟩ |
      ⟨out, hx, heq⟩
    · rw [heq] at hcat
      exact absurd hcats hcat
    · have hb : k2 < (st.1.set k2
          { getF st.1 k2 with destDir := plannedDestDir cfg (getF st.1 k2) }).length := by
        rw [List.length_set]; exact hlen
      have hr : getF (pass1Step fs cfg st k2).1 k2 =
          { getF (st.1.set k2
              { getF st.1 k2 with destDir := plannedDestDir cfg (getF st.1 k2) }) k2
            with status := FileStatus.unnamable } := by
        rw [heq]
        exact getF_set_self hb
      rw [hr] at hs2
      exact absurd rfl hs2
    · have hb : k2 < (st.1.set k2
          { getF st.1 k2 with destDir := plannedDestDir cfg (getF st.1 k2) }).length := by
        rw [List.length_set]; exact hlen
      have hr : ∀ q, getF (pass1Step fs cfg st k2).1 q = getF out q := by
        intro q
        rw [heq]
      rcases setFinalDestinationFilename_accept fs _ k2 _ cfg st.2 out hb hx with
        hpre | ⟨hst, hnt⟩
      · rw [hr] at hs1
        exact absurd hpre hs1
      · intro hcon
        rw [hr, hr] at hcon
        exact hnt k1 hk12 hcon
  · have hk2' : k2 < m := by omega
    have hk1ne : k1 ≠ m := by omega
    obtain ⟨c1, hc1⟩ := pass1Step_other fs cfg st m k1 hk1ne
    obtain ⟨c2, hc2⟩ := pass1Step_other fs cfg st m k2 hk2eq
    rw [hc2] at hcat hs1 hs2
    rw [hc1, hc2]
    exact hinv k1 k2 hk12 hk2' hcat hs1 hs2

theorem pass1_range'_distinct (fs : FS) (cfg : Config) :
    ∀ (cnt s : Nat) (st : List FileInfo × STIndex), s + cnt ≤ st.1.length →
      nameDistinctUpTo s st.1 →
      nameDistinctUpTo (s + cnt) ((List.range' s cnt).foldl (pass1Step fs cfg) st).1
  | 0, s, st, _, hinv => by simpa using hinv
  | cnt + 1, s, st, hb, hinv => by
    rw [List.range'_succ, List.foldl_cons]
    have h1 : nameDistinctUpTo (s + 1) (pass1Step fs cfg st s).1 :=
      pass1Step_distinct fs cfg st s (by omega) hinv
    have h2 := pass1_range'_distinct fs cfg cnt (s + 1) (pass1Step fs cfg st s)
      (by rw [pass1Step_length]; omega) h1
    rw [show s + (cnt + 1) = s + 1 + cnt by omega]
    exact h2

theorem pass1_distinct (fs : FS) (cfg : Config) (files0 : List FileInfo) :
    nameDistinctUpTo files0.length (pass1 fs cfg files0).1 := by
  rw [pass1, List.range_eq_range']
  have h := pass1_range'_distinct fs cfg files0.length 0 (files0, ([] : STIndex))
    (by simp) (fun k1 k2 _ h2 _ _ _ => absurd h2 (Nat.not_lt_zero k2))
  simpa using h

theorem getF_set_category {fl : List FileInfo} {m q : Nat} {v : FileInfo}
    (hv : v.mediaCategory = (getF fl m).mediaCategory) :
    (getF (fl.set m v) q).mediaCategory = (getF fl q).mediaCategory := by
  rw [getF_set]
  by_cases h : m = q ∧ m < fl.length
  · rw [if_pos h, hv, h.1]
  · rw [if_neg h]

/-- Pass 2 never changes any record's media category. -/
theorem pass2Step_category (cfg : Config) (pidx : List ((String × String) × Nat))
    (fl : List FileInfo) (m q : Nat) :
    (getF (pass2Step cfg pidx fl m) q).mediaCategory = (getF fl q).mediaCategory := by
  rw [pass2Step]
  split
  · rfl
  · dsimp only
    split
    · exact getF_set_category rfl
    · split
      · exact getF_set_category rfl
      · exact getF_set_category rfl

theorem pass2_category (cfg : Config) (pidx : List ((String × String) × Nat))
    (fl : List FileInfo) (q : Nat) :
    (getF (pass2 cfg pidx fl) q).mediaCategory = (getF fl q).mediaCategory := by
  rw [pass2]
  generalize List.range fl.length = L
  induction L generalizing fl with
  | nil => rfl
  | cons m L ih =>
    rw [List.foldl_cons]
    rw [ih (pass2Step cfg pidx fl m), pass2Step_category]

/-- At the end of planning, two distinct non-sidecar records that are both
still copy-eligible never share (destination directory, destination name). -/
theorem planFiles_nonSidecar_distinct (fs : FS) (files : List FileInfo)
    (cfg : Config) (i j : Nat) (hij : i < j) (hj : j < files.length)
    (hcati : (getF (planFiles fs files cfg) i).mediaCategory ≠ Sidecar)
    (hcatj : (getF (planFiles fs files cfg) j).mediaCategory ≠ Sidecar)
    (hs1 : (getF (planFiles fs files cfg) j).status ≠ FileStatus.preExisting)
    (hs2 : (getF (planFiles fs files cfg) j).status ≠ FileStatus.unnamable) :
    ¬((getF (planFiles fs files cfg) i).destDir =
        (getF (planFiles fs files cfg) j).destDir ∧
      (getF (planFiles fs files cfg) i).destName =
        (getF (planFiles fs files cfg) j).destName) := by
  rw [planFiles] at hcati hcatj hs1 hs2 ⊢
  have hcati' : (getF (pass1 fs cfg
      (files.map fun f => { f with parentIndex := -1 })).1 i).mediaCategory ≠ Sidecar := by
    rw [← pass2_category cfg (buildParentIndex (pass1 fs cfg
      (files.map fun f => { f with parentIndex := -1 })).1) _ i]
    exact hcati
  have hcatj' : (getF (pass1 fs cfg
      (files.map fun f => { f with parentIndex := -1 })).1 j).mediaCategory ≠ Sidecar := by
    rw [← pass2_category cfg (buildParentIndex (pass1 fs cfg
      (files.map fun f => { f with parentIndex := -1 })).1) _ j]
    exact hcatj
  rw [pass2_nonSidecar _ _ _ i hcati'] at hcati ⊢
  rw [pass2_nonSidecar _ _ _ j hcatj'] at hcatj hs1 hs2 ⊢
  have hjlen : j < (files.map fun f => { f with parentIndex := -1 }).length := by
    simpa using hj
  exact pass1_distinct fs cfg (files.map fun f => { f with parentIndex := -1 })
    i j hij hjlen hcatj hs1 hs2

-- ## Idempotence of a successful run (claim C2): duplicate-verdict lemmas

/-- The initial destination filename `importMedia` chooses for a non-sidecar
record. -/
def initName (cfg : Config) (f : FileInfo) : String :=
  if cfg.renameByDateTime = true then
    formatDateTime f.creationDateTime ++ extOf f.sourceName
  else f.sourceName

/-- The normalized extension of the record's candidate names. -/
def extR (cfg : Config) (f : FileInfo) : String :=
  resolvedExt cfg f.fileType (extOf (initName cfg f))

/-- The base (extension-stripped) part of the record's candidate names. -/
def baseOf (cfg : Config) (f : FileInfo) : String :=
  trimSuffix (initName cfg f) (extOf (initName cfg f))

/-- The `t`-th candidate destination name tried by the resolver: the initial
name, then `_001`, `_002`, …. -/
def candName (bf e : String) : Nat → String
  | 0 => bf ++ e
  | t + 1 => bf ++ "_" ++ pad3 (t + 1) ++ e

/-- The destination cell a successful copy job leaves behind: the source's
content, freshly written, with the record's creation time stamped on. -/
def copiedCell (content : String) (t : Int) : FileData :=
  { size := (content.length : Int), content := content, readErr := false, mtime := t }

/-- Every record's source file is present, readable, and its stat size
matches both the record's size field and the content length. -/
def srcConsistent (fs : FS) (files : List FileInfo) : Prop :=
  ∀ q, q < files.length →
    ∃ sd, fs.files (mkPath (getF files q).sourceDir (getF files q).sourceName) = some sd ∧
      sd.readErr = false ∧ sd.size = (getF files q).size ∧
      sd.size = (sd.content.length : Int)

/-- A destination cell that a second resolver walk can neither crash on nor
mistake for a duplicate of the given source. -/
def strictNonDup (cks : Bool) (sz : Int) (srcContent : String) (fd : FileData) : Prop :=
  fd.size ≠ sz ∨
  (cks = true ∧ fd.readErr = false ∧ hashOf fd.content ≠ hashOf srcContent)

theorem calculateXXHash_eval {fs : FS} {p : FPath} {fd : FileData}
    (hp : fs.files p = some fd) (hre : fd.readErr = false) :
    calculateXXHash fs p = .ok (hashOf fd.content) := by
  rw [calculateXXHash, hp]
  dsimp only
  rw [if_neg (by rw [hre]; exact Bool.false_ne_true)]

theorem calculateXXHash_eval_err {fs : FS} {p : FPath} {fd : FileData}
    (hp : fs.files p = some fd) (hre : fd.readErr = true) :
    calculateXXHash fs p = .error "read failed" := by
  rw [calculateXXHash, hp]
  dsimp only
  rw [if_pos (by rw [hre])]

theorem isDuplicate_absent (fs : FS) (file : FileInfo) (p : FPath) (cks : Bool)
    (hp : fs.files p = none) : isDuplicate fs file p cks = .ok (false, file) := by
  rw [isDuplicate, hp]

/-- Inversion: a "not a duplicate" verdict on an occupied cell pins down the
cell's relation to the (readable) source. -/
theorem isDuplicate_false_inversion (fs : FS) (file : FileInfo) (p : FPath)
    (cks : Bool) (fd sd : FileData) (f' : FileInfo)
    (hp : fs.files p = some fd)
    (hsd : fs.files (mkPath file.sourceDir file.sourceName) = some sd)
    (hre : sd.readErr = false)
    (hcache : srcValid fs file.sourceDir file.sourceName file)
    (h : isDuplicate fs file p cks = .ok (false, f')) :
    strictNonDup cks file.size sd.content fd := by
  rw [isDuplicate, hp] at h
  dsimp only at h
  by_cases hsz : fd.size ≠ file.size
  · exact Or.inl hsz
  · rw [if_neg hsz] at h
    by_cases hck : cks = true
    · rw [if_pos hck] at h
      have hown : ∃ f2, (if file.sourceChecksum = "" then
          match calculateXXHash fs (mkPath file.sourceDir file.sourceName) with
          | .error e => .error e
          | .ok c => .ok (c, { file with sourceChecksum := c })
        else .ok (file.sourceChecksum, file) : Except String (String × FileInfo)) =
          .ok (hashOf sd.content, f2) := by
        by_cases hemp : file.sourceChecksum = ""
        · rw [if_pos hemp, calculateXXHash_eval hsd hre]
          exact ⟨_, rfl⟩
        · rw [if_neg hemp]
          rcases hcache with hc0 | ⟨sd2, hsd2, hre2, hcv⟩
          · exact absurd hc0 hemp
          · rw [hsd] at hsd2
            cases Option.some.inj hsd2
            exact ⟨file, by rw [hcv]⟩
      obtain ⟨f2, hf2⟩ := hown
      rw [hf2] at h
      dsimp only at h
      rcases hfre : fd.readErr with _ | _
      · rw [calculateXXHash_eval hp hfre] at h
        dsimp only at h
        simp only [Except.ok.injEq, Prod.mk.injEq] at h
        refine Or.inr ⟨hck, hfre, ?_⟩
        exact fun hcon => (of_decide_eq_false h.1) hcon.symm
      · rw [calculateXXHash_eval_err hp hfre] at h
        exact absurd h (by simp)
    · rw [if_neg hck] at h
      simp at h

/-- Construction: on an occupied cell that is strictly not a duplicate, the
check answers "not a duplicate" and at most fills the record's cache with
the source hash. -/
theorem isDuplicate_eval_false (fs : FS) (file : FileInfo) (p : FPath)
    (cks : Bool) (fd sd : FileData)
    (hp : fs.files p = some fd)
    (hsd : fs.files (mkPath file.sourceDir file.sourceName) = some sd)
    (hre : sd.readErr = false)
    (hcache : srcValid fs file.sourceDir file.sourceName file)
    (hnd : strictNonDup cks file.size sd.content fd) :
    ∃ c, isDuplicate fs file p cks = .ok (false, { file with sourceChecksum := c }) ∧
      (c = file.sourceChecksum ∨ c = hashOf sd.content) := by
  rw [isDuplicate, hp]
  dsimp only
  by_cases hsz : fd.size ≠ file.size
  · rw [if_pos hsz]
    exact ⟨file.sourceChecksum, rfl, Or.inl rfl⟩
  · rw [if_neg hsz]
    rcases hnd with hnd | ⟨hck, hfre, hne⟩
    · exact absurd hnd (by push_neg at hsz ⊢; exact hsz)
    · rw [if_pos hck]
      by_cases hemp : file.sourceChecksum = ""
      · rw [if_pos hemp, calculateXXHash_eval hsd hre]
        dsimp only
        rw [calculateXXHash_eval hp hfre]
        dsimp only
        refine ⟨hashOf sd.content, ?_, Or.inr rfl⟩
        rw [decide_eq_false (fun hcon => hne (hcon.symm))]
      · rw [if_neg hemp]
        rcases hcache with hc0 | ⟨sd2, hsd2, hre2, hcv⟩
        · exact absurd hc0 hemp
        · rw [hsd] at hsd2
          cases Option.some.inj hsd2
          dsimp only
          rw [calculateXXHash_eval hp hfre]
          dsimp only
          refine ⟨file.sourceChecksum, ?_, Or.inl rfl⟩
          rw [decide_eq_false (by rw [hcv]; exact fun hcon => hne hcon.symm)]

/-- Construction: on a cell holding a readable duplicate of the source, the
check answers "duplicate". -/
theorem isDuplicate_eval_true (fs : FS) (file : FileInfo) (p : FPath)
    (cks : Bool) (fd sd : FileData)
    (hp : fs.files p = some fd)
    (hsd : fs.files (mkPath file.sourceDir file.sourceName) = some sd)
    (hre : sd.readErr = false)
    (hcache : srcValid fs file.sourceDir file.sourceName file)
    (hsz : fd.size = file.size)
    (hck2 : cks = true → fd.readErr = false ∧ hashOf fd.content = hashOf sd.content) :
    ∃ f', isDuplicate fs file p cks = .ok (true, f') := by
  rw [isDuplicate, hp]
  dsimp only
  rw [if_neg (by push_neg; exact hsz)]
  by_cases hck : cks = true
  · obtain ⟨hfre, hhash⟩ := hck2 hck
    rw [if_pos hck]
    by_cases hemp : file.sourceChecksum = ""
    · rw [if_pos hemp, calculateXXHash_eval hsd hre]
      dsimp only
      rw [calculateXXHash_eval hp hfre]
      dsimp only
      refine ⟨{ file with sourceChecksum := hashOf sd.content }, ?_⟩
      rw [decide_eq_true hhash.symm]
    · rw [if_neg hemp]
      rcases hcache with hc0 | ⟨sd2, hsd2, hre2, hcv⟩
      · exact absurd hc0 hemp
      · rw [hsd] at hsd2
        cases Option.some.inj hsd2
        dsimp only
        rw [calculateXXHash_eval hp hfre]
        dsimp only
        refine ⟨file, ?_⟩
        rw [decide_eq_true (by rw [hcv]; exact hhash.symm)]
  · rw [if_neg hck]
    exact ⟨file, rfl⟩

theorem srcValid_choice {fs : FS} {f : FileInfo} {c : String} {sd : FileData}
    (hsd : fs.files (mkPath f.sourceDir f.sourceName) = some sd)
    (hre : sd.readErr = false)
    (hcache : srcValid fs f.sourceDir f.sourceName f)
    (hc : c = f.sourceChecksum ∨ c = hashOf sd.content) :
    srcValid fs f.sourceDir f.sourceName { f with sourceChecksum := c } := by
  rcases hc with hc | hc
  · exact @srcValid_keepCache fs f { f with sourceChecksum := c } rfl rfl hc hcache
  · exact Or.inr ⟨sd, hsd, hre, hc⟩

-- ## Semantic characterization of the duplicate-index pre-check (claim C2)

/-- Scan inversion: a successful scan found an indexed record whose readable
source hashes to the probe value. -/
theorem dupScanPrev_true_inversion (fs : FS) (cur : String) :
    ∀ (idxs : List Nat) (files out : List FileInfo), cacheValid fs files →
      dupScanPrev fs cur idxs files = (true, out) →
      ∃ p ∈ idxs, ∃ sdp, fs.files (mkPath (getF files p).sourceDir
          (getF files p).sourceName) = some sdp ∧ sdp.readErr = false ∧
        cur = hashOf sdp.content
  | [], files, out, _, h => by
    rw [dupScanPrev] at h
    exact absurd h (by simp)
  | i :: rest, files, out, hcv, h => by
    rw [dupScanPrev] at h
    dsimp only at h
    by_cases hemp : (getF files i).sourceChecksum = ""
    · rw [if_pos hemp] at h
      rcases hx : calculateXXHash fs
          (mkPath (getF files i).sourceDir (getF files i).sourceName) with e | c
      · rw [hx] at h
        obtain ⟨p, hp, sdp, hfact⟩ :=
          dupScanPrev_true_inversion fs cur rest files out hcv h
        exact ⟨p, List.mem_cons_of_mem i hp, sdp, hfact⟩
      · rw [hx] at h
        dsimp only at h
        obtain ⟨sdp, hsdp, hre, hc⟩ := calculateXXHash_ok _ _ _ hx
        by_cases hcur : cur = c
        · exact ⟨i, List.mem_cons_self i rest, sdp, hsdp, hre, by rw [hcur, hc]⟩
        · rw [if_neg hcur] at h
          have hcv2 : cacheValid fs
              (files.set i { getF files i with sourceChecksum := c }) :=
            cacheValid_set (srcValid_fill hx) hcv
          obtain ⟨p, hp, sdp2, h1, h2, h3⟩ := dupScanPrev_true_inversion fs cur rest
            (files.set i { getF files i with sourceChecksum := c }) out hcv2 h
          refine ⟨p, List.mem_cons_of_mem i hp, sdp2, ?_, h2, h3⟩
          rw [getF_set] at h1
          by_cases hc2 : i = p ∧ i < files.length
          · rw [if_pos hc2] at h1
            rw [← hc2.1]
            exact h1
          · rw [if_neg hc2] at h1
            exact h1
    · rw [if_neg hemp] at h
      by_cases hcur : cur = (getF files i).sourceChecksum
      · rcases hcv i with hc0 | ⟨sdp, hsdp, hre, hcc⟩
        · exact absurd hc0 hemp
        · exact ⟨i, List.mem_cons_self i rest, sdp, hsdp, hre, by rw [hcur, hcc]⟩
      · rw [if_neg hcur] at h
        obtain ⟨p, hp, sdp, hfact⟩ :=
          dupScanPrev_true_inversion fs cur rest files out hcv h
        exact ⟨p, List.mem_cons_of_mem i hp, sdp, hfact⟩

/-- Scan construction: if some indexed record's readable source hashes to the
probe value, the scan succeeds. -/
theorem dupScanPrev_eval_true (fs : FS) (cur : String) :
    ∀ (idxs : List Nat) (files : List FileInfo) (p : Nat), cacheValid fs files →
      p ∈ idxs →
      (∃ sdp, fs.files (mkPath (getF files p).sourceDir
          (getF files p).sourceName) = some sdp ∧ sdp.readErr = false ∧
        cur = hashOf sdp.content) →
      ∃ out, dupScanPrev fs cur idxs files = (true, out)
  | [], _, p, _, hmem, _ => absurd hmem (List.not_mem_nil p)
  | i :: rest, files, p, hcv, hmem, ⟨sdp, hsdp, hre, hcur⟩ => by
    rw [dupScanPrev]
    dsimp only
    by_cases hip : i = p
    · subst hip
      by_cases hemp : (getF files i).sourceChecksum = ""
      · rw [if_pos hemp, calculateXXHash_eval hsdp hre]
        dsimp only
        rw [if_pos hcur]
        exact ⟨_, rfl⟩
      · rw [if_neg hemp]
        rcases hcv i with hc0 | ⟨sdp2, hsdp2, hre2, hcc⟩
        · exact absurd hc0 hemp
        · rw [hsdp] at hsdp2
          cases Option.some.inj hsdp2
          rw [if_pos (by rw [hcur, hcc])]
          exact ⟨_, rfl⟩
    · have hmem2 : p ∈ rest := by
        rcases List.mem_cons.mp hmem with hcon | hmem2
        · exact absurd hcon.symm hip
        · exact hmem2
      by_cases hemp : (getF files i).sourceChecksum = ""
      · rw [if_pos hemp]
        rcases hx : calculateXXHash fs
            (mkPath (getF files i).sourceDir (getF files i).sourceName) with e | c
        · exact dupScanPrev_eval_true fs cur rest files p hcv hmem2 ⟨sdp, hsdp, hre, hcur⟩
        · dsimp only
          by_cases hcur2 : cur = c
          · rw [if_pos hcur2]
            exact ⟨_, rfl⟩
          · rw [if_neg hcur2]
            have hcv2 : cacheValid fs
                (files.set i { getF files i with sourceChecksum := c }) :=
              cacheValid_set (srcValid_fill hx) hcv
            have hfact2 : ∃ sdp2, fs.files (mkPath
                (getF (files.set i { getF files i with sourceChecksum := c }) p).sourceDir
                (getF (files.set i { getF files i with sourceChecksum := c }) p).sourceName) =
                  some sdp2 ∧ sdp2.readErr = false ∧ cur = hashOf sdp2.content := by
              refine ⟨sdp, ?_, hre, hcur⟩
              rw [getF_set, if_neg (fun hcon => hip hcon.1)]
              exact hsdp
            exact dupScanPrev_eval_true fs cur rest _ p hcv2 hmem2 hfact2
      · rw [if_neg hemp]
        by_cases hcur2 : cur = (getF files i).sourceChecksum
        · rw [if_pos hcur2]
          exact ⟨_, rfl⟩
        · rw [if_neg hcur2]
          exact dupScanPrev_eval_true fs cur rest files p hcv hmem2 ⟨sdp, hsdp, hre, hcur⟩

/-- Inversion: a positive index pre-check yields the looked-up index bucket
and, with checksums on, a hash-matching indexed record. -/
theorem isDupInPrev_true_inversion (fs : FS) (files : List FileInfo) (q : Nat)
    (cks : Bool) (idx : STIndex) (out : List FileInfo)
    (hcv : cacheValid fs files)
    (h : isDuplicateInPreviousFiles fs files q cks idx = (true, out)) :
    ∃ indices, assocLookup idx ((getF files q).size, (getF files q).creationDateTime) =
        some indices ∧
      (cks = false ∨
        ∃ p ∈ indices, ∃ sdp sdq,
          fs.files (mkPath (getF files p).sourceDir (getF files p).sourceName) =
            some sdp ∧ sdp.readErr = false ∧
          fs.files (mkPath (getF files q).sourceDir (getF files q).sourceName) =
            some sdq ∧ sdq.readErr = false ∧
          hashOf sdq.content = hashOf sdp.content) := by
  rw [isDuplicateInPreviousFiles] at h
  rcases hlook : assocLookup idx ((getF files q).size, (getF files q).creationDateTime)
    with _ | indices
  · rw [hlook] at h
    exact absurd h (by simp)
  · rw [hlook] at h
    dsimp only at h
    refine ⟨indices, rfl, ?_⟩
    by_cases hck : cks = true
    · right
      rw [if_neg (by rw [hck]; simp)] at h
      have hown : ∃ cur files2, (if (getF files q).sourceChecksum = "" then
          match calculateXXHash fs (mkPath (getF files q).sourceDir
              (getF files q).sourceName) with
          | .error e => .error e
          | .ok c => .ok (c, files.set q { getF files q with sourceChecksum := c })
        else .ok ((getF files q).sourceChecksum, files) :
          Except String (String × List FileInfo)) = .ok (cur, files2) ∧
          (∃ sdq, fs.files (mkPath (getF files q).sourceDir
              (getF files q).sourceName) = some sdq ∧ sdq.readErr = false ∧
            cur = hashOf sdq.content) ∧
          cacheValid fs files2 ∧
          (∀ j, (getF files2 j).sourceDir = (getF files j).sourceDir ∧
            (getF files2 j).sourceName = (getF files j).sourceName) := by
        by_cases hemp : (getF files q).sourceChecksum = ""
        · rw [if_pos hemp]
          rw [if_pos hemp] at h
          rcases hx : calculateXXHash fs (mkPath (getF files q).sourceDir
              (getF files q).sourceName) with e | c
          · rw [hx] at h
            dsimp only at h
            exact absurd h (by simp)
          · obtain ⟨sdq, hsdq, hre, hc⟩ := calculateXXHash_ok _ _ _ hx
            refine ⟨c, _, rfl, ⟨sdq, hsdq, hre, hc⟩,
              cacheValid_set (srcValid_fill hx) hcv, ?_⟩
            intro j
            rw [getF_set]
            by_cases hc2 : q = j ∧ q < files.length
            · rw [if_pos hc2, hc2.1]
              exact ⟨rfl, rfl⟩
            · rw [if_neg hc2]
              exact ⟨rfl, rfl⟩
        · rw [if_neg hemp]
          rcases hcv q with hc0 | ⟨sdq, hsdq, hre, hcc⟩
          · exact absurd hc0 hemp
          · exact ⟨(getF files q).sourceChecksum, files, rfl, ⟨sdq, hsdq, hre, hcc⟩,
              hcv, fun j => ⟨rfl, rfl⟩⟩
      obtain ⟨cur, files2, hf2, ⟨sdq, hsdq, hreq, hcur⟩, hcv2, hid⟩ := hown
      rw [hf2] at h
      dsimp only at h
      obtain ⟨p, hp, sdp, h1, h2, h3⟩ :=
        dupScanPrev_true_inversion fs cur indices files2 out hcv2 h
      refine ⟨p, hp, sdp, sdq, ?_, h2, hsdq, hreq, by rw [← hcur, ← h3]⟩
      rw [(hid p).1, (hid p).2] at h1
      exact h1
    · exact Or.inl (by revert hck; cases cks <;> simp)

/-- Construction: with the same index bucket and a hash-matching indexed
record (or checksums off), the pre-check answers "duplicate". -/
theorem isDupInPrev_eval_true (fs : FS) (files : List FileInfo) (q : Nat)
    (cks : Bool) (idx : STIndex) (indices : List Nat)
    (hlook : assocLookup idx ((getF files q).size, (getF files q).creationDateTime) =
      some indices)
    (hcv : cacheValid fs files)
    (hsem : cks = false ∨
      ∃ p ∈ indices, ∃ sdp sdq,
        fs.files (mkPath (getF files p).sourceDir (getF files p).sourceName) =
          some sdp ∧ sdp.readErr = false ∧
        fs.files (mkPath (getF files q).sourceDir (getF files q).sourceName) =
          some sdq ∧ sdq.readErr = false ∧
        hashOf sdq.content = hashOf sdp.content) :
    ∃ out, isDuplicateInPreviousFiles fs files q cks idx = (true, out) := by
  rw [isDuplicateInPreviousFiles, hlook]
  dsimp only
  rcases hsem with hck | ⟨p, hp, sdp, sdq, hsdp, hrep, hsdq, hreq, hhash⟩
  · rw [if_pos (by rw [hck]; rfl)]
    exact ⟨files, rfl⟩
  · by_cases hck : cks = true
    · rw [if_neg (by rw [hck]; simp)]
      by_cases hemp : (getF files q).sourceChecksum = ""
      · rw [if_pos hemp, calculateXXHash_eval hsdq hreq]
        dsimp only
        refine dupScanPrev_eval_true fs (hashOf sdq.content) indices _ p
          (cacheValid_set (srcValid_fill (calculateXXHash_eval hsdq hreq)) hcv) hp ?_
        refine ⟨sdp, ?_, hrep, hhash⟩
        rw [getF_set]
        by_cases hc2 : q = p ∧ q < files.length
        · rw [if_pos hc2]
          rw [← hc2.1] at hsdp
          exact hsdp
        · rw [if_neg hc2]
          exact hsdp
      · rw [if_neg hemp]
        rcases hcv q with hc0 | ⟨sdq2, hsdq2, hre2, hcc⟩
        · exact absurd hc0 hemp
        · rw [hsdq] at hsdq2
          cases Option.some.inj hsdq2
          dsimp only
          refine dupScanPrev_eval_true fs (getF files q).sourceChecksum indices files p
            hcv hp ⟨sdp, hsdp, hrep, by rw [hcc, hhash]⟩
    · have hckf : cks = false := by revert hck; cases cks <;> simp
      rw [if_pos (by rw [hckf]; rfl)]
      exact ⟨files, rfl⟩

-- ## Run-1 resolver walk extraction (claim C2)

/-- An occupied candidate cell rejected by the resolver: it can be rejected
again by a later resolver walk against the same content. -/
def rejCell (fs : FS) (cks : Bool) (sz : Int) (srcContent : String) (p : FPath) : Prop :=
  ∃ fd, fs.files p = some fd ∧ strictNonDup cks sz srcContent fd

/-- An earlier record claims this (destination directory, name). -/
def claimedInPrefix (files : List FileInfo) (ci : Nat) (bd N : String) : Prop :=
  ∃ k, k < ci ∧ (getF files k).destDir = bd ∧ (getF files k).destName = N

/-- What a candidate cell held when the resolver declared it a duplicate. -/
def dupCell (fs : FS) (cks : Bool) (sz : Int) (srcContent : String) (p : FPath) : Prop :=
  ∃ fd, fs.files p = some fd ∧ fd.size = sz ∧
    (cks = true → fd.readErr = false ∧ hashOf fd.content = hashOf srcContent)

theorem isNameTaken_true_inversion {files : List FileInfo} {ci : Nat} {N : String}
    (h : isNameTakenByPreviousFile files ci N = true) :
    ∃ k, k < ci ∧ (getF files k).destDir = (getF files ci).destDir ∧
      (getF files k).destName = N := by
  rw [isNameTakenByPreviousFile, List.any_eq_true] at h
  obtain ⟨k, hk, hkp⟩ := h
  simp only [Bool.and_eq_true, beq_iff_eq] at hkp
  exact ⟨k, List.mem_range.mp hk, hkp.1, hkp.2⟩

theorem existsPath_false_none {fs : FS} {p : FPath}
    (h : existsPath fs p = false) : fs.files p = none := by
  rw [existsPath] at h
  exact Option.not_isSome_iff_eq_none.mp (by rw [h]; exact Bool.false_ne_true)

theorem existsPath_some {fs : FS} {p : FPath} {fd : FileData}
    (h : fs.files p = some fd) : existsPath fs p = true := by
  rw [existsPath, h]
  rfl

/-- Inversion of a "duplicate" verdict: the candidate cell matches the
source in size, and (with checksums on) is readable with the same hash. -/
theorem isDuplicate_true_inversion (fs : FS) (file : FileInfo) (p : FPath)
    (cks : Bool) (sd : FileData) (f' : FileInfo)
    (hsd : fs.files (mkPath file.sourceDir file.sourceName) = some sd)
    (hre : sd.readErr = false)
    (hcache : srcValid fs file.sourceDir file.sourceName file)
    (h : isDuplicate fs file p cks = .ok (true, f')) :
    dupCell fs cks file.size sd.content p := by
  rw [isDuplicate] at h
  rcases hp : fs.files p with _ | fd
  · rw [hp] at h
    simp at h
  · rw [hp] at h
    dsimp only at h
    by_cases hsz : fd.size ≠ file.size
    · rw [if_pos hsz] at h
      simp at h
    · rw [if_neg hsz] at h
      push_neg at hsz
      by_cases hck : cks = true
      · rw [if_pos hck] at h
        have hown : ∃ f2, (if file.sourceChecksum = "" then
            match calculateXXHash fs (mkPath file.sourceDir file.sourceName) with
            | .error e => .error e
            | .ok c => .ok (c, { file with sourceChecksum := c })
          else .ok (file.sourceChecksum, file) : Except String (String × FileInfo)) =
            .ok (hashOf sd.content, f2) := by
          by_cases hemp : file.sourceChecksum = ""
          · rw [if_pos hemp, calculateXXHash_eval hsd hre]
            exact ⟨_, rfl⟩
          · rw [if_neg hemp]
            rcases hcache with hc0 | ⟨sd2, hsd2, hre2, hcv⟩
            · exact absurd hc0 hemp
            · rw [hsd] at hsd2
              cases Option.some.inj hsd2
              exact ⟨file, by rw [hcv]⟩
        obtain ⟨f2, hf2⟩ := hown
        rw [hf2] at h
        dsimp only at h
        rcases hfre : fd.readErr with _ | _
        · rw [calculateXXHash_eval hp hfre] at h
          dsimp only at h
          simp only [Except.ok.injEq, Prod.mk.injEq] at h
          exact ⟨fd, hp, hsz, fun _ => ⟨hfre, (of_decide_eq_true h.1).symm⟩⟩
        · rw [calculateXXHash_eval_err hp hfre] at h
          exact absurd h (by simp)
      · exact ⟨fd, hp, hsz, fun hcon => absurd hcon hck⟩

/-- Run-1 extraction for the disambiguation loop: a successful walk visited
candidates `k`, `k+1`, …, rejecting each (occupied non-duplicate cell, or a
name claimed by an earlier record) until it stopped, either on a duplicate
cell (`pre-existing`) or on a free unclaimed name (accepted). -/
theorem resolveSuffixLoop_run1 (fs : FS) (cfg : Config) (ci : Nat)
    (bd bf e : String) (sd : FileData) :
    ∀ (rem k : Nat) (files out : List FileInfo),
      ci < files.length →
      fs.files (mkPath (getF files ci).sourceDir (getF files ci).sourceName) = some sd →
      sd.readErr = false →
      (getF files ci).destDir = bd →
      srcValid fs (getF files ci).sourceDir (getF files ci).sourceName (getF files ci) →
      resolveSuffixLoop fs cfg ci bd bf e k rem files = .ok out →
      ∃ t, k ≤ t ∧ t < k + rem ∧
        (∀ s, k ≤ s → s < t →
          rejCell fs cfg.checksumDuplicates (getF files ci).size sd.content
            (mkPath bd (bf ++ "_" ++ pad3 s ++ e)) ∨
          (fs.files (mkPath bd (bf ++ "_" ++ pad3 s ++ e)) = none ∧
            claimedInPrefix files ci bd (bf ++ "_" ++ pad3 s ++ e))) ∧
        (getF out ci).destName = bf ++ "_" ++ pad3 t ++ e ∧
        (((getF out ci).status = FileStatus.preExisting ∧
            dupCell fs cfg.checksumDuplicates (getF files ci).size sd.content
              (mkPath bd (bf ++ "_" ++ pad3 t ++ e))) ∨
          ((getF out ci).status = (getF files ci).status ∧
            fs.files (mkPath bd (bf ++ "_" ++ pad3 t ++ e)) = none)) := by
  intro rem
  induction rem with
  | zero =>
    intro k files out _ _ _ _ _ h
    exact absurd h (by rw [resolveSuffixLoop]; simp)
  | succ m ih =>
    intro k files out hci hsd hre hbd hcache h
    rw [resolveSuffixLoop] at h
    by_cases hfree : !existsPath fs (mkPath bd (bf ++ "_" ++ pad3 k ++ e)) &&
        !isNameTakenByPreviousFile files ci (bf ++ "_" ++ pad3 k ++ e)
    · -- accepted at k
      rw [if_pos hfree] at h
      simp only [Except.ok.injEq] at h
      simp only [Bool.and_eq_true, Bool.not_eq_true'] at hfree
      refine ⟨k, le_refl k, by omega, fun s hs1 hs2 => absurd hs2 (by omega), ?_, ?_⟩
      · rw [← h, getF_set_self hci]
      · right
        rw [← h, getF_set_self hci]
        exact ⟨rfl, existsPath_false_none hfree.1⟩
    · rw [if_neg hfree] at h
      rcases hdp : isDuplicate fs (getF files ci) (mkPath bd (bf ++ "_" ++ pad3 k ++ e))
          cfg.checksumDuplicates with er | ⟨dup, file'⟩
      · rw [hdp] at h
        simp at h
      · rw [hdp] at h
        simp only at h
        obtain ⟨c, hc⟩ := isDuplicate_frame _ _ _ _ _ _ hdp
        by_cases hdup : dup = true
        · -- duplicate at k
          rw [if_pos hdup] at h
          simp only [Except.ok.injEq] at h
          have hlen2 : ci < (files.set ci file').length := by
            rw [List.length_set]; exact hci
          refine ⟨k, le_refl k, by omega, fun s hs1 hs2 => absurd hs2 (by omega), ?_, ?_⟩
          · rw [← h, getF_set_self hlen2]
          · left
            rw [← h, getF_set_self hlen2]
            refine ⟨rfl, ?_⟩
            exact isDuplicate_true_inversion fs (getF files ci) _ _ sd file' hsd hre
              hcache (hdup ▸ hdp)
        · -- rejected at k, walk continues
          rw [if_neg hdup] at h
          have hlen2 : ci < (files.set ci file').length := by
            rw [List.length_set]; exact hci
          have hcache2 : srcValid fs (getF (files.set ci file') ci).sourceDir
              (getF (files.set ci file') ci).sourceName (getF (files.set ci file') ci) := by
            rw [getF_set_self hci]
            exact isDuplicate_cacheValid fs (getF files ci) _ _ _ _ hdp hcache
          have hsd2 : fs.files (mkPath (getF (files.set ci file') ci).sourceDir
              (getF (files.set ci file') ci).sourceName) = some sd := by
            rw [getF_set_self hci, hc]
            exact hsd
          have hbd2 : (getF (files.set ci file') ci).destDir = bd := by
            rw [getF_set_self hci, hc]
            exact hbd
          obtain ⟨t, ht1, ht2, hwalk, hname, hterm⟩ := ih (k + 1) (files.set ci file')
            out hlen2 hsd2 hre hbd2 hcache2 h
          have hsz2 : (getF (files.set ci file') ci).size = (getF files ci).size := by
            rw [getF_set_self hci, hc]
          have hrejk : rejCell fs cfg.checksumDuplicates (getF files ci).size sd.content
              (mkPath bd (bf ++ "_" ++ pad3 k ++ e)) ∨
              (fs.files (mkPath bd (bf ++ "_" ++ pad3 k ++ e)) = none ∧
                claimedInPrefix files ci bd (bf ++ "_" ++ pad3 k ++ e)) := by
            rcases hcell : fs.files (mkPath bd (bf ++ "_" ++ pad3 k ++ e)) with _ | fd
            · right
              refine ⟨rfl, ?_⟩
              have htk : isNameTakenByPreviousFile files ci (bf ++ "_" ++ pad3 k ++ e) =
                  true := by
                by_contra hcon
                apply hfree
                simp only [Bool.and_eq_true, Bool.not_eq_true']
                constructor
                · rw [existsPath, hcell]
                  rfl
                · exact Bool.eq_false_iff.mpr hcon
              obtain ⟨k2, hk2, hkd, hkn⟩ := isNameTaken_true_inversion htk
              exact ⟨k2, hk2, by rw [hkd, hbd], hkn⟩
            · left
              refine ⟨fd, hcell, ?_⟩
              exact isDuplicate_false_inversion fs (getF files ci) _ _ fd sd file'
                hcell hsd hre hcache (by
                  rw [hdp]
                  congr 1
                  rw [Prod.mk.injEq]
                  exact ⟨by revert hdup; cases dup <;> simp, rfl⟩)
          refine ⟨t, by omega, by omega, ?_, hname, ?_⟩
          · intro s hs1 hs2
            by_cases hsk : s = k
            · subst hsk
              exact hrejk
            · rcases hwalk s (by omega) hs2 with hw | ⟨hw1, k2, hk2, hkd, hkn⟩
              · rw [hsz2] at hw
                exact Or.inl hw
              · refine Or.inr ⟨hw1, k2, hk2, ?_, ?_⟩
                · rw [getF_set_ne (fun hcon => (by omega : k2 ≠ ci) hcon.symm)] at hkd
                  exact hkd
                · rw [getF_set_ne (fun hcon => (by omega : k2 ≠ ci) hcon.symm)] at hkn
                  exact hkn
          · rcases hterm with ⟨h1, h2⟩ | ⟨h1, h2⟩
            · rw [hsz2] at h2
              exact Or.inl ⟨h1, h2⟩
            · refine Or.inr ⟨?_, h2⟩
              rw [h1, getF_set_self hci, hc]

theorem candName_zero (bf e : String) : candName bf e 0 = bf ++ e := rfl

theorem candName_pos (bf e : String) (s : Nat) (hs : 1 ≤ s) :
    candName bf e s = bf ++ "_" ++ pad3 s ++ e := by
  rcases s with _ | m
  · omega
  · rfl

/-- Run-1 extraction for the whole resolver call: either the index pre-check
fired (`pre-existing` at the initial name), or the resolver walked candidates
`0..t`, rejecting each earlier one, and stopped at `t` either on a duplicate
cell (`pre-existing`) or on a free unclaimed name (accepted, status kept). -/
theorem setFinalDestinationFilename_run1 (fs : FS) (files : List FileInfo)
    (ci : Nat) (init : String) (cfg : Config) (idx : STIndex) (out : List FileInfo)
    (sd : FileData)
    (hci : ci < files.length)
    (hsd : fs.files (mkPath (getF files ci).sourceDir (getF files ci).sourceName) =
      some sd)
    (hre : sd.readErr = false)
    (hcv : cacheValid fs files)
    (h : setFinalDestinationFilename fs files ci init cfg idx = .ok out) :
    ((∃ out1, isDuplicateInPreviousFiles fs files ci cfg.checksumDuplicates idx =
        (true, out1)) ∧
      (getF out ci).status = FileStatus.preExisting ∧
      (getF out ci).destName = candName (trimSuffix init (extOf init))
        (resolvedExt cfg (getF files ci).fileType (extOf init)) 0) ∨
    (∃ t, t ≤ 999999 ∧
      (∀ s, s < t →
        rejCell fs cfg.checksumDuplicates (getF files ci).size sd.content
          (mkPath (getF files ci).destDir (candName (trimSuffix init (extOf init))
            (resolvedExt cfg (getF files ci).fileType (extOf init)) s)) ∨
        (fs.files (mkPath (getF files ci).destDir (candName (trimSuffix init (extOf init))
            (resolvedExt cfg (getF files ci).fileType (extOf init)) s)) = none ∧
          claimedInPrefix files ci (getF files ci).destDir
            (candName (trimSuffix init (extOf init))
              (resolvedExt cfg (getF files ci).fileType (extOf init)) s))) ∧
      (getF out ci).destName = candName (trimSuffix init (extOf init))
        (resolvedExt cfg (getF files ci).fileType (extOf init)) t ∧
      (((getF out ci).status = FileStatus.preExisting ∧
          dupCell fs cfg.checksumDuplicates (getF files ci).size sd.content
            (mkPath (getF files ci).destDir (candName (trimSuffix init (extOf init))
              (resolvedExt cfg (getF files ci).fileType (extOf init)) t))) ∨
        ((getF out ci).status = (getF files ci).status ∧
          fs.files (mkPath (getF files ci).destDir (candName (trimSuffix init (extOf init))
            (resolvedExt cfg (getF files ci).fileType (extOf init)) t)) = none))) := by
  rw [setFinalDestinationFilename] at h
  split at h
  next isDup files1 hdp =>
    have hco : cacheOnly files files1 := by
      have h2 := isDuplicateInPreviousFiles_frame fs files ci cfg.checksumDuplicates idx
      rw [hdp] at h2
      exact h2
    have hcv1 : cacheValid fs files1 := by
      have h2 := isDuplicateInPreviousFiles_cacheValid fs files ci
        cfg.checksumDuplicates idx hcv
      rw [hdp] at h2
      exact h2
    have hlen1 : files1.length = files.length := by
      have h2 := isDuplicateInPreviousFiles_length fs files ci cfg.checksumDuplicates idx
      rw [hdp] at h2
      exact h2
    have hci1 : ci < files1.length := by rw [hlen1]; exact hci
    obtain ⟨cc, hcc⟩ := hco ci
    split at h
    next hisdup =>
      left
      simp only [Except.ok.injEq] at h
      rw [hisdup] at hdp
      refine ⟨⟨files1, hdp⟩, ?_, ?_⟩
      · rw [← h, getF_set_self hci1]
      · rw [← h, getF_set_self hci1, candName_zero]
    next hisdup =>
      dsimp only at h
      split at h
      next hfreeCond =>
        right
        simp only [Except.ok.injEq] at h
        simp only [Bool.and_eq_true, Bool.not_eq_true'] at hfreeCond
        refine ⟨0, by omega, fun s hs => absurd hs (by omega), ?_, ?_⟩
        · rw [← h, getF_set_self hci1, candName_zero]
        · right
          constructor
          · rw [← h, getF_set_self hci1]
            dsimp only
            rw [hcc]
          · rw [candName_zero]
            exact existsPath_false_none hfreeCond.1
      next hfreeCond =>
        split at h
        · exact absurd h (by simp)
        next dup file2 hdp2 =>
          obtain ⟨c2, hc2⟩ := isDuplicate_frame _ _ _ _ _ _ hdp2
          have hlenset : ci < (files1.set ci file2).length := by
            rw [List.length_set]; exact hci1
          have hsd1 : fs.files (mkPath (getF files1 ci).sourceDir
              (getF files1 ci).sourceName) = some sd := by
            rw [hcc]
            exact hsd
          have hcache1 : srcValid fs (getF files1 ci).sourceDir
              (getF files1 ci).sourceName (getF files1 ci) := hcv1 ci
          split at h
          next hdup =>
            right
            simp only [Except.ok.injEq] at h
            refine ⟨0, by omega, fun s hs => absurd hs (by omega), ?_, ?_⟩
            · rw [← h, getF_set_self hlenset, candName_zero]
            · left
              constructor
              · rw [← h, getF_set_self hlenset]
              · rw [candName_zero]
                have hinv := isDuplicate_true_inversion fs (getF files1 ci) _
                  cfg.checksumDuplicates sd file2 hsd1 hre hcache1 (by
                    rw [hdp2, hdup])
                rw [hcc] at hinv
                exact hinv
          next hdup =>
            right
            have hcache3 : srcValid fs (getF (files1.set ci file2) ci).sourceDir
                (getF (files1.set ci file2) ci).sourceName
                (getF (files1.set ci file2) ci) := by
              rw [getF_set_self hci1]
              exact isDuplicate_cacheValid fs (getF files1 ci) _ _ _ _ hdp2 hcache1
            have hsd3 : fs.files (mkPath (getF (files1.set ci file2) ci).sourceDir
                (getF (files1.set ci file2) ci).sourceName) = some sd := by
              rw [getF_set_self hci1, hc2, hcc]
              exact hsd
            have hbd3 : (getF (files1.set ci file2) ci).destDir =
                (getF files ci).destDir := by
              rw [getF_set_self hci1, hc2, hcc]
            obtain ⟨t, ht1, ht2, hwalk, hname, hterm⟩ := resolveSuffixLoop_run1 fs cfg ci
              (getF files ci).destDir (trimSuffix init (extOf init))
              (resolvedExt cfg (getF files ci).fileType (extOf init)) sd 999999 1
              (files1.set ci file2) out hlenset hsd3 hre hbd3 hcache3 h
            have hsz3 : (getF (files1.set ci file2) ci).size = (getF files ci).size := by
              rw [getF_set_self hci1, hc2, hcc]
            have hclaim3 : ∀ N, claimedInPrefix (files1.set ci file2) ci
                (getF files ci).destDir N →
                claimedInPrefix files ci (getF files ci).destDir N := by
              intro N ⟨k, hk, hkd, hkn⟩
              obtain ⟨ck, hck⟩ := hco k
              rw [getF_set_ne (fun hcon => (by omega : k ≠ ci) hcon.symm)] at hkd hkn
              rw [hck] at hkd hkn
              exact ⟨k, hk, hkd, hkn⟩
            refine ⟨t, by omega, ?_, ?_, ?_⟩
            · intro s hs
              rcases Nat.eq_zero_or_pos s with hs0 | hs1
              · subst hs0
                rw [candName_zero]
                rcases hcell : fs.files (mkPath (getF files ci).destDir
                    (trimSuffix init (extOf init) ++
                      resolvedExt cfg (getF files ci).fileType (extOf init))) with _ | fd
                · right
                  refine ⟨rfl, ?_⟩
                  have htk : isNameTakenByPreviousFile files1 ci
                      (trimSuffix init (extOf init) ++
                        resolvedExt cfg (getF files ci).fileType (extOf init)) = true := by
                    by_contra hcon
                    apply hfreeCond
                    simp only [Bool.and_eq_true, Bool.not_eq_true']
                    constructor
                    · rw [existsPath, hcell]
                      rfl
                    · exact Bool.eq_false_iff.mpr hcon
                  obtain ⟨k, hk, hkd, hkn⟩ := isNameTaken_true_inversion htk
                  obtain ⟨ck, hck⟩ := hco k
                  rw [hck, hcc] at hkd
                  rw [hck] at hkn
                  exact ⟨k, hk, hkd, hkn⟩
                · left
                  refine ⟨fd, hcell, ?_⟩
                  have hinv := isDuplicate_false_inversion fs (getF files1 ci) _
                    cfg.checksumDuplicates fd sd file2 hcell hsd1 hre hcache1 (by
                      rw [hdp2]
                      congr 1
                      rw [Prod.mk.injEq]
                      exact ⟨Bool.eq_false_iff.mpr hdup, rfl⟩)
                  rw [hcc] at hinv
                  exact hinv
              · rw [candName_pos _ _ s hs1]
                rcases hwalk s hs1 (by omega) with hw | ⟨hw1, hw2⟩
                · rw [hsz3] at hw
                  exact Or.inl hw
                · exact Or.inr ⟨hw1, hclaim3 _ hw2⟩
            · rw [candName_pos _ _ t (by omega)]
              exact hname
            · rw [candName_pos _ _ t (by omega)]
              rcases hterm with ⟨h1, h2⟩ | ⟨h1, h2⟩
              · rw [hsz3] at h2
                exact Or.inl ⟨h1, h2⟩
              · refine Or.inr ⟨?_, h2⟩
                rw [h1, getF_set_self hci1, hc2, hcc]

-- ## The run-1 planning characterization (claim C2)

/-- The `s`-th candidate destination name of a record. -/
def candOf (cfg : Config) (f : FileInfo) (s : Nat) : String :=
  candName (baseOf cfg f) (extR cfg f) s

/-- The `s`-th candidate destination path of a record. -/
def candPath (cfg : Config) (f : FileInfo) (s : Nat) : FPath :=
  mkPath (plannedDestDir cfg f) (candOf cfg f s)

/-- A record's source path. -/
def srcPathF (f : FileInfo) : FPath := mkPath f.sourceDir f.sourceName

/-- The duplicate index pass 1 has built after its first `q` steps, when no
step failed: every earlier record appended under its (size, time) key. -/
def canonIdx (files : List FileInfo) : Nat → STIndex
  | 0 => []
  | q + 1 => appendST (canonIdx files q)
      ((getF files q).size, (getF files q).creationDateTime) q

/-- How pass 1 planned record `q` (relative to the input `files0` and the
planning output `fl1`): either the index pre-check fired — recorded
semantically, so a second run can replay it — or the resolver walked
candidates `0..t` with every earlier candidate rejected and stopped either
on a duplicate cell or on a free unclaimed name. -/
def route1 (fs : FS) (cfg : Config) (files0 fl1 : List FileInfo) (q : Nat) : Prop :=
  (getF fl1 q).destDir = plannedDestDir cfg (getF files0 q) ∧
  (((getF fl1 q).status = FileStatus.preExisting ∧
    (getF fl1 q).destName = candOf cfg (getF files0 q) 0 ∧
    ∃ indices, assocLookup (canonIdx files0 q)
        ((getF files0 q).size, (getF files0 q).creationDateTime) = some indices ∧
      (cfg.checksumDuplicates = false ∨
        ∃ p ∈ indices, ∃ sdp sdq,
          fs.files (srcPathF (getF files0 p)) = some sdp ∧ sdp.readErr = false ∧
          fs.files (srcPathF (getF files0 q)) = some sdq ∧ sdq.readErr = false ∧
          hashOf sdq.content = hashOf sdp.content)) ∨
  (∃ t, t ≤ 999999 ∧
    ∃ sdq, fs.files (srcPathF (getF files0 q)) = some sdq ∧ sdq.readErr = false ∧
      (∀ s, s < t →
        rejCell fs cfg.checksumDuplicates (getF files0 q).size sdq.content
          (candPath cfg (getF files0 q) s) ∨
        (fs.files (candPath cfg (getF files0 q) s) = none ∧
          claimedInPrefix fl1 q (plannedDestDir cfg (getF files0 q))
            (candOf cfg (getF files0 q) s))) ∧
      (getF fl1 q).destName = candOf cfg (getF files0 q) t ∧
      (((getF fl1 q).status = FileStatus.preExisting ∧
          dupCell fs cfg.checksumDuplicates (getF files0 q).size sdq.content
            (candPath cfg (getF files0 q) t)) ∨
        ((getF fl1 q).status = (getF files0 q).status ∧
          fs.files (candPath cfg (getF files0 q) t) = none))))

/-- `route1` only reads the destination/status fields of records up to `q`,
so it survives any later-record processing. -/
theorem route1_stable {fs : FS} {cfg : Config} {files0 X X' : List FileInfo} {q : Nat}
    (heq : ∀ j, j ≤ q → (getF X' j).destDir = (getF X j).destDir ∧
      (getF X' j).destName = (getF X j).destName ∧
      (getF X' j).status = (getF X j).status)
    (hr : route1 fs cfg files0 X q) : route1 fs cfg files0 X' q := by
  obtain ⟨h0, hr⟩ := hr
  refine ⟨by rw [(heq q le_rfl).1, h0], ?_⟩
  rcases hr with ⟨h1, h2, h3⟩ | ⟨t, ht, sdq, hs1, hs2, hwalk, hname, hterm⟩
  · exact Or.inl ⟨by rw [(heq q le_rfl).2.2, h1], by rw [(heq q le_rfl).2.1, h2], h3⟩
  · refine Or.inr ⟨t, ht, sdq, hs1, hs2, ?_, by rw [(heq q le_rfl).2.1, hname], ?_⟩
    · intro s hs
      rcases hwalk s hs with hw | ⟨hw1, k, hk, hkd, hkn⟩
      · exact Or.inl hw
      · refine Or.inr ⟨hw1, k, hk, ?_, ?_⟩
        · rw [(heq k (by omega)).1, hkd]
        · rw [(heq k (by omega)).2.1, hkn]
    · rcases hterm with ⟨h1, h2⟩ | ⟨h1, h2⟩
      · exact Or.inl ⟨by rw [(heq q le_rfl).2.2, h1], h2⟩
      · exact Or.inr ⟨by rw [(heq q le_rfl).2.2, h1], h2⟩

/-- With no sidecar records, pass 2 is the identity. -/
theorem pass2_no_sidecars (cfg : Config) (pidx : List ((String × String) × Nat)) :
    ∀ (L : List Nat) (fl : List FileInfo),
      (∀ j, (getF fl j).mediaCategory ≠ Sidecar) →
      L.foldl (pass2Step cfg pidx) fl = fl
  | [], _, _ => rfl
  | m :: L, fl, hcat => by
    rw [List.foldl_cons]
    have hstep : pass2Step cfg pidx fl m = fl := by
      rw [pass2Step]
      rw [if_pos ?_]
      simp only [bne_iff_ne, ne_eq]
      exact hcat m
    rw [hstep]
    exact pass2_no_sidecars cfg pidx L fl hcat

/-- Pass-1 fold characterization: processing records `s, s+1, …` from a
state with a canonical index and routes for all earlier records yields
routes for every processed record, provided no record ends `unnamable`. -/
theorem pass1_run1_aux (fs : FS) (cfg : Config) (files0 : List FileInfo)
    (hcats : ∀ q, q < files0.length → (getF files0 q).mediaCategory ≠ Sidecar)
    (hsrc : srcConsistent fs files0) :
    ∀ (cnt s : Nat) (st : List FileInfo × STIndex),
      s + cnt = files0.length →
      st.1.length = files0.length →
      planOnly files0 st.1 →
      cacheValid fs st.1 →
      st.2 = canonIdx files0 s →
      (∀ q, s ≤ q → ∃ c, getF st.1 q = { getF files0 q with sourceChecksum := c }) →
      (∀ q, q < s → route1 fs cfg files0 st.1 q) →
      (∀ q, (getF ((List.range' s cnt).foldl (pass1Step fs cfg) st).1 q).status ≠
        FileStatus.unnamable) →
      ∀ q, q < s + cnt →
        route1 fs cfg files0 ((List.range' s cnt).foldl (pass1Step fs cfg) st).1 q
  | 0, s, st, hlen, _, _, _, _, _, hroutes, _ => by
    intro q hq
    exact hroutes q (by omega)
  | cnt + 1, s, st, hlen, hstlen, hpo, hcv, hidx, hunt, hroutes, hno => by
    rw [List.range'_succ, List.foldl_cons] at hno ⊢
    have hsl : s < files0.length := by omega
    obtain ⟨c0, hc0⟩ := hunt s le_rfl
    rcases pass1Step_spec fs cfg st s with ⟨heq, hcats'⟩ | ⟨e, hx, heq⟩ |
      ⟨out, hx, heq⟩
    · exfalso
      apply hcats s hsl
      rw [← (planOnly_id hpo s).2.2.2.2.1]
      exact hcats'
    · exfalso
      obtain ⟨c1, hc1⟩ := pass1_foldl_other fs cfg (List.range' (s + 1) cnt)
        (pass1Step fs cfg st s) s (by intro hm; rw [List.mem_range'_1] at hm; omega)
      apply hno s
      have hb : s < (st.1.set s
          { getF st.1 s with destDir := plannedDestDir cfg (getF st.1 s) }).length := by
        rw [List.length_set, hstlen]; exact hsl
      have hrec : getF (pass1Step fs cfg st s).1 s =
          { getF (st.1.set s
              { getF st.1 s with destDir := plannedDestDir cfg (getF st.1 s) }) s
            with status := FileStatus.unnamable } := by
        rw [heq]
        exact getF_set_self hb
      rw [hc1, hrec]
    · -- the resolver succeeded at record s
      have hb : s < st.1.length := by rw [hstlen]; exact hsl
      set files' := st.1.set s
        { getF st.1 s with destDir := plannedDestDir cfg (getF st.1 s) } with hfp
      have hb' : s < files'.length := by rw [hfp, List.length_set]; exact hb
      have hpo' : planOnly files0 files' := by
        rw [hfp]
        exact planOnly_trans hpo (planOnly_set st.1 s _ _ _ _)
      have hcv' : cacheValid fs files' := by
        rw [hfp]
        exact cacheValid_set (srcValid_keepCache rfl rfl rfl (hcv s)) hcv
      have hids' : ∀ j, _ := fun j => planOnly_id hpo' j
      have hfs' : getF files' s =
          { getF st.1 s with destDir := plannedDestDir cfg (getF st.1 s) } := by
        rw [hfp]
        exact getF_set_self hb
      have hDD : plannedDestDir cfg (getF st.1 s) = plannedDestDir cfg (getF files0 s) :=
        plannedDestDir_congr cfg (planOnly_id hpo s).2.2.1
      have hinitEq : (if cfg.renameByDateTime = true then
          formatDateTime (getF st.1 s).creationDateTime ++ extOf (getF st.1 s).sourceName
        else (getF st.1 s).sourceName) = initName cfg (getF files0 s) := by
        rw [(planOnly_id hpo s).2.2.1, (planOnly_id hpo s).1, initName]
      rw [hinitEq] at hx
      obtain ⟨sd, hsd0, hsre, hssz, hslen⟩ := hsrc s hsl
      have hsd' : fs.files (mkPath (getF files' s).sourceDir
          (getF files' s).sourceName) = some sd := by
        rw [(hids' s).2.1, (hids' s).1]
        exact hsd0
      have hrun := setFinalDestinationFilename_run1 fs files' s
        (initName cfg (getF files0 s)) cfg st.2 out sd hb' hsd' hsre hcv' hx
      have hupd := setFinalDestinationFilename_frame fs files' s
        (initName cfg (getF files0 s)) cfg st.2 out hx
      obtain ⟨cM, nM, sM, hM⟩ := hupd.2
      have hpoOut : planOnly files0 out := planOnly_trans hpo' (planOnly_of_updOnly hupd)
      have hstep1 : (pass1Step fs cfg st s).1 = out := by rw [heq]
      have hstep2 : (pass1Step fs cfg st s).2 =
          appendST st.2 ((getF out s).size, (getF out s).creationDateTime) s := by
        rw [heq]
      have hfd' : (getF files' s).destDir = plannedDestDir cfg (getF files0 s) := by
        rw [hfs']
        dsimp only
        exact hDD
      have houtDD : (getF out s).destDir = plannedDestDir cfg (getF files0 s) := by
        rw [hM]
        dsimp only
        exact hfd'
      have hcand : ∀ u, candName (trimSuffix (initName cfg (getF files0 s))
          (extOf (initName cfg (getF files0 s))))
          (resolvedExt cfg (getF files' s).fileType
            (extOf (initName cfg (getF files0 s)))) u =
          candOf cfg (getF files0 s) u := by
        intro u
        rw [(hids' s).2.2.2.2.2.1]
        rfl
      have hclaimOut : ∀ N, claimedInPrefix files' s
          (plannedDestDir cfg (getF files0 s)) N →
          claimedInPrefix out s (plannedDestDir cfg (getF files0 s)) N := by
        intro N ⟨k, hk, hkd, hkn⟩
        obtain ⟨ck, hck⟩ := hupd.1 k (by omega)
        refine ⟨k, hk, ?_, ?_⟩
        · rw [hck]
          dsimp only
          exact hkd
        · rw [hck]
          dsimp only
          exact hkn
      have hrouteS : route1 fs cfg files0 out s := by
        refine ⟨houtDD, ?_⟩
        rcases hrun with ⟨⟨out1, hverd⟩, hst, hnm⟩ | ⟨t, ht, hwalk, hnm, hterm⟩
        · left
          refine ⟨hst, by rw [hnm, hcand 0], ?_⟩
          rw [hidx] at hverd
          obtain ⟨indices, hlook, hsem⟩ := isDupInPrev_true_inversion fs files' s
            cfg.checksumDuplicates (canonIdx files0 s) out1 hcv' hverd
          refine ⟨indices, ?_, ?_⟩
          · rw [(hids' s).2.2.2.1, (hids' s).2.2.1] at hlook
            exact hlook
          · rcases hsem with hck | ⟨p, hp, sdp, sdq2, hp1, hp2, hp3, hp4, hp5⟩
            · exact Or.inl (by revert hck; cases cfg.checksumDuplicates <;> simp)
            · refine Or.inr ⟨p, hp, sdp, sdq2, ?_, hp2, ?_, hp4, hp5⟩
              · rw [srcPathF, ← (hids' p).2.1, ← (hids' p).1]
                exact hp1
              · rw [srcPathF, ← (hids' s).2.1, ← (hids' s).1]
                exact hp3
        · right
          refine ⟨t, ht, sd, by rw [srcPathF]; exact hsd0, hsre, ?_, ?_, ?_⟩
          · intro u hu
            rcases hwalk u hu with hw | ⟨hw1, hw2⟩
            · left
              rw [hfd', hcand u, (hids' s).2.2.2.1] at hw
              exact hw
            · right
              rw [hfd', hcand u] at hw1 hw2
              exact ⟨hw1, hclaimOut _ hw2⟩
          · rw [hnm, hcand t]
          · rcases hterm with ⟨h1, h2⟩ | ⟨h1, h2⟩
            · left
              rw [hfd', hcand t, (hids' s).2.2.2.1] at h2
              exact ⟨h1, h2⟩
            · right
              constructor
              · rw [h1, hfs']
                dsimp only
                rw [hc0]
              · rw [hfd', hcand t] at h2
                exact h2
      have hothers : ∀ j, j ≠ s → ∃ c2, getF out j = { getF st.1 j with sourceChecksum := c2 } := by
        intro j hj
        obtain ⟨c2, hc2⟩ := hupd.1 j hj
        refine ⟨c2, ?_⟩
        rw [hc2, hfp, getF_set_ne (fun hcon => hj hcon.symm)]
      have hrec := pass1_run1_aux fs cfg files0 hcats hsrc cnt (s + 1)
        (pass1Step fs cfg st s)
        (by omega)
        (by rw [hstep1,
          setFinalDestinationFilename_length fs files' s _ cfg st.2 out hx, hfp,
          List.length_set, hstlen])
        (by rw [hstep1]; exact hpoOut)
        (pass1Step_cacheValid fs cfg st s hcv)
        (by
          rw [hstep2, hidx, (planOnly_id hpoOut s).2.2.2.1,
            (planOnly_id hpoOut s).2.2.1]
          rfl)
        (by
          intro q hq
          obtain ⟨c2, hc2⟩ := hothers q (by omega)
          obtain ⟨c3, hc3⟩ := hunt q (by omega)
          refine ⟨c2, ?_⟩
          rw [hstep1, hc2, hc3])
        (by
          intro q hq
          by_cases hqs : q = s
          · subst hqs
            rw [hstep1]
            exact hrouteS
          · rw [hstep1]
            refine route1_stable ?_ (hroutes q (by omega))
            intro j hj
            obtain ⟨c2, hc2⟩ := hothers j (by omega)
            rw [hc2]
            exact ⟨rfl, rfl, rfl⟩)
        hno
      intro q hq
      exact hrec q (by omega)

/-- Run-1 planning characterization: if no record of a sidecar-free input
ends pass 1 `unnamable`, every record has an extracted route. -/
theorem pass1_run1 (fs : FS) (cfg : Config) (files0 : List FileInfo)
    (hcats : ∀ q, q < files0.length → (getF files0 q).mediaCategory ≠ Sidecar)
    (hsrc : srcConsistent fs files0)
    (hcv0 : cacheValid fs files0)
    (hno : ∀ q, (getF (pass1 fs cfg files0).1 q).status ≠ FileStatus.unnamable) :
    ∀ q, q < files0.length → route1 fs cfg files0 (pass1 fs cfg files0).1 q := by
  rw [pass1, List.range_eq_range'] at hno ⊢
  intro q hq
  exact pass1_run1_aux fs cfg files0 hcats hsrc files0.length 0
    (files0, ([] : STIndex)) (by omega) rfl (planOnly_refl _) hcv0 rfl
    (fun q2 _ => ⟨(getF files0 q2).sourceChecksum, rfl⟩)
    (fun q2 hq2 => absurd hq2 (by omega)) hno q (by omega)

-- ## Copy-phase filesystem characterization (claim C2)

theorem fsSet_at (fs : FS) (p : FPath) (fd : Option FileData) :
    (fsSet fs p fd).files p = fd := by
  rw [fsSet]
  dsimp only
  rw [if_pos rfl]

theorem fsSet_other (fs : FS) (p : FPath) (fd : Option FileData) (q : FPath)
    (hq : q ≠ p) : (fsSet fs p fd).files q = fs.files q := by
  rw [fsSet]
  dsimp only
  rw [if_neg hq]

theorem setFileTimes_other (fs : FS) (p : FPath) (t : Int) (q : FPath)
    (hq : q ≠ p) : (setFileTimes fs p t).files q = fs.files q := by
  rw [setFileTimes]
  split
  · rfl
  · exact fsSet_other _ _ _ _ hq

theorem setFileTimes_at (fs : FS) (p : FPath) (t : Int) (fd : FileData)
    (hp : fs.files p = some fd) :
    (setFileTimes fs p t).files p = some { fd with mtime := t } := by
  rw [setFileTimes, hp]
  exact fsSet_at _ _ _

theorem copyFile_fs_other (fs : FS) (src dst : FPath) (q : FPath) (hq : q ≠ dst) :
    (copyFile fs src dst).1.files q = fs.files q := by
  rw [copyFile]
  split
  · rfl
  · dsimp only
    split
    · exact fsSet_other _ _ _ _ hq
    · split
      · rw [fsSet_other _ _ _ _ hq, fsSet_other _ _ _ _ hq]
      · split
        · rw [fsSet_other _ _ _ _ hq, fsSet_other _ _ _ _ hq]
        · rw [fsSet_other _ _ _ _ hq, fsSet_other _ _ _ _ hq]

theorem copyFile_ok_inversion (fs : FS) (src dst : FPath) (fs2 : FS) (w : Int)
    (h : copyFile fs src dst = (fs2, .ok w)) :
    ∃ sd, fs.files src = some sd ∧ sd.readErr = false ∧
      fs2.files dst = some (writtenFile sd.content) ∧
      (∀ q, q ≠ dst → fs2.files q = fs.files q) := by
  rw [copyFile] at h
  split at h
  · simp at h
  next sd hsrc =>
    dsimp only at h
    split at h
    · simp at h
    next hre =>
      split at h
      · simp at h
      · split at h
        · simp at h
        · simp only [Prod.mk.injEq] at h
          refine ⟨sd, hsrc, by simpa using hre, ?_, ?_⟩
          · rw [← h.1]
            exact fsSet_at _ _ _
          · intro q hq
            rw [← h.1, fsSet_other _ _ _ _ hq, fsSet_other _ _ _ _ hq]

/-- Pointwise characterization of one copy job: directory-creation failure
(filesystem untouched), copy failure (only the destination cell touched), or
success (the destination cell holds the freshly copied source content). -/
theorem runJob_fs_char (cfg : Config) (st : CopyState) (m : Nat)
    (hdry : cfg.dryRun = false) :
    ((runJob cfg st m).fs = st.fs ∧
      (runJob cfg st m).files =
        st.files.set m { getF st.files m with status := .dirCreationFailed }) ∨
    ((runJob cfg st m).files =
        st.files.set m { getF st.files m with status := .failed } ∧
      (∀ q, q ≠ mkPath (getF st.files m).destDir (getF st.files m).destName →
        (runJob cfg st m).fs.files q = st.fs.files q)) ∨
    ((runJob cfg st m).files =
        st.files.set m { getF st.files m with status := .copied } ∧
      (∀ q, q ≠ mkPath (getF st.files m).destDir (getF st.files m).destName →
        (runJob cfg st m).fs.files q = st.fs.files q) ∧
      (∃ sd, st.fs.files (mkPath (getF st.files m).sourceDir
          (getF st.files m).sourceName) = some sd ∧
        (runJob cfg st m).fs.files
            (mkPath (getF st.files m).destDir (getF st.files m).destName) =
          some (copiedCell sd.content (getF st.files m).creationDateTime))) := by
  rw [runJob]
  rw [if_pos (by rw [hdry]; rfl)]
  rcases hmk : mkdirAll st.fs (getF st.files m).destDir with e | fs1
  · dsimp only
    exact Or.inl ⟨rfl, rfl⟩
  · dsimp only
    have hfs1 : fs1.files = st.fs.files := by
      rw [mkdirAll] at hmk
      split at hmk
      · simp at hmk
      · simp only [Except.ok.injEq] at hmk
        rw [← hmk]
    rcases hcp : copyFile fs1 (mkPath (getF st.files m).sourceDir
        (getF st.files m).sourceName)
        (mkPath (getF st.files m).destDir (getF st.files m).destName) with ⟨fs2, res⟩
    rcases res with er | w
    · dsimp only
      refine Or.inr (Or.inl ⟨rfl, ?_⟩)
      intro q hq
      rw [fsSet_other _ _ _ _ hq]
      have := copyFile_fs_other fs1 (mkPath (getF st.files m).sourceDir
        (getF st.files m).sourceName)
        (mkPath (getF st.files m).destDir (getF st.files m).destName) q hq
      rw [hcp] at this
      dsimp only at this
      rw [this, hfs1]
    · dsimp only
      obtain ⟨sd, hsrc, hre, hdst, hother⟩ := copyFile_ok_inversion fs1 _ _ fs2 w hcp
      refine Or.inr (Or.inr ⟨rfl, ?_, ?_⟩)
      · intro q hq
        rw [setFileTimes_other _ _ _ _ hq, hother q hq, hfs1]
      · refine ⟨sd, by rw [← hfs1]; exact hsrc, ?_⟩
        dsimp only
        rw [setFileTimes_at _ _ _ _ hdst]
        rfl

/-- Copy-fold invariant: processing any sequence of work-list jobs keeps
record changes status-only, leaves non-target cells untouched, and gives
every record marked `copied` a destination cell holding its source
content. -/
theorem copyFold_char (cfg : Config) (plan1 : List FileInfo) (fs1 : FS)
    (W : List Nat)
    (hdry : cfg.dryRun = false)
    (hWb : ∀ r ∈ W, r < plan1.length)
    (hdist : ∀ r ∈ W, ∀ r' ∈ W, r ≠ r' →
      ¬((getF plan1 r).destDir = (getF plan1 r').destDir ∧
        (getF plan1 r).destName = (getF plan1 r').destName))
    (hsrcne : ∀ r ∈ W, ∀ r' ∈ W,
      mkPath (getF plan1 r).sourceDir (getF plan1 r).sourceName ≠
        mkPath (getF plan1 r').destDir (getF plan1 r').destName) :
    ∀ (L : List Nat) (st : CopyState),
      (∀ x ∈ L, x ∈ W) →
      st.files.length = plan1.length →
      (∀ j, ∃ s, getF st.files j = { getF plan1 j with status := s }) →
      (∀ pth, (∀ r ∈ W, pth ≠ mkPath (getF plan1 r).destDir (getF plan1 r).destName) →
        st.fs.files pth = fs1.files pth) →
      (∀ r ∈ W, (getF st.files r).status = FileStatus.copied →
        ∃ sd, fs1.files (mkPath (getF plan1 r).sourceDir (getF plan1 r).sourceName) =
            some sd ∧
          st.fs.files (mkPath (getF plan1 r).destDir (getF plan1 r).destName) =
            some (copiedCell sd.content (getF plan1 r).creationDateTime)) →
      ((∀ j, ∃ s, getF (L.foldl (runJob cfg) st).files j =
          { getF plan1 j with status := s }) ∧
       (∀ pth, (∀ r ∈ W, pth ≠ mkPath (getF plan1 r).destDir (getF plan1 r).destName) →
          (L.foldl (runJob cfg) st).fs.files pth = fs1.files pth) ∧
       (∀ r ∈ W, (getF (L.foldl (runJob cfg) st).files r).status = FileStatus.copied →
          ∃ sd, fs1.files (mkPath (getF plan1 r).sourceDir
              (getF plan1 r).sourceName) = some sd ∧
            (L.foldl (runJob cfg) st).fs.files
                (mkPath (getF plan1 r).destDir (getF plan1 r).destName) =
              some (copiedCell sd.content (getF plan1 r).creationDateTime)))
  | [], st, _, _, hstat, hI1, hI2 => ⟨hstat, hI1, hI2⟩
  | m :: L, st, hsub, hlen, hstat, hI1, hI2 => by
    rw [List.foldl_cons]
    have hmW : m ∈ W := hsub m (List.mem_cons_self m L)
    have hmb : m < st.files.length := by rw [hlen]; exact hWb m hmW
    obtain ⟨sm, hsm⟩ := hstat m
    have hTm : mkPath (getF st.files m).destDir (getF st.files m).destName =
        mkPath (getF plan1 m).destDir (getF plan1 m).destName := by
      rw [hsm]
    have hSm : mkPath (getF st.files m).sourceDir (getF st.files m).sourceName =
        mkPath (getF plan1 m).sourceDir (getF plan1 m).sourceName := by
      rw [hsm]
    have hCm : (getF st.files m).creationDateTime = (getF plan1 m).creationDateTime := by
      rw [hsm]
    have hstat' : ∀ X : FileStatus, ∀ j, ∃ s2,
        getF (st.files.set m { getF st.files m with status := X }) j =
          { getF plan1 j with status := s2 } := by
      intro X j
      rw [getF_set]
      by_cases hc : m = j ∧ m < st.files.length
      · refine ⟨X, ?_⟩
        rw [if_pos hc, hsm, ← hc.1]
      · rw [if_neg hc]
        exact hstat j
    have hlen' : ∀ X : FileStatus,
        (st.files.set m { getF st.files m with status := X }).length = plan1.length := by
      intro X
      rw [List.length_set]
      exact hlen
    have hTne : ∀ r, r ∈ W → r ≠ m →
        mkPath (getF plan1 r).destDir (getF plan1 r).destName ≠
          mkPath (getF plan1 m).destDir (getF plan1 m).destName := by
      intro r hr hne hcon
      rw [mkPath, mkPath, Prod.mk.injEq] at hcon
      exact hdist r hr m hmW hne ⟨hcon.1, hcon.2⟩
    rcases runJob_fs_char cfg st m hdry with ⟨hfs, hfiles⟩ | ⟨hfiles, hfs⟩ |
      ⟨hfiles, hfsO, sd, hsdSrc, hsdDst⟩
    · -- directory creation failed: filesystem untouched
      refine copyFold_char cfg plan1 fs1 W hdry hWb hdist hsrcne L (runJob cfg st m)
        (fun x hx => hsub x (List.mem_cons_of_mem m hx))
        (by rw [hfiles]; exact hlen' _)
        (by rw [hfiles]; exact hstat' _)
        (by intro pth hpth; rw [hfs]; exact hI1 pth hpth)
        ?_
      intro r hr hcop
      rw [hfiles] at hcop
      rw [getF_set] at hcop
      by_cases hc : m = r ∧ m < st.files.length
      · rw [if_pos hc] at hcop
        exact absurd hcop (by simp)
      · rw [if_neg hc] at hcop
        obtain ⟨sd2, h1, h2⟩ := hI2 r hr hcop
        exact ⟨sd2, h1, by rw [hfs]; exact h2⟩
    · -- copy failed: only the job's target cell touched
      refine copyFold_char cfg plan1 fs1 W hdry hWb hdist hsrcne L (runJob cfg st m)
        (fun x hx => hsub x (List.mem_cons_of_mem m hx))
        (by rw [hfiles]; exact hlen' _)
        (by rw [hfiles]; exact hstat' _)
        ?_ ?_
      · intro pth hpth
        rw [hfs pth (by rw [hTm]; exact hpth m hmW)]
        exact hI1 pth hpth
      · intro r hr hcop
        rw [hfiles, getF_set] at hcop
        by_cases hc : m = r ∧ m < st.files.length
        · rw [if_pos hc] at hcop
          exact absurd hcop (by simp)
        · rw [if_neg hc] at hcop
          obtain ⟨sd2, h1, h2⟩ := hI2 r hr hcop
          refine ⟨sd2, h1, ?_⟩
          by_cases hrm : r = m
          · exfalso
            apply hc
            refine ⟨hrm.symm, hmb⟩
          · rw [hfs _ (by rw [hTm]; exact hTne r hr hrm)]
            exact h2
    · -- copy succeeded: the job's target now holds the source content
      refine copyFold_char cfg plan1 fs1 W hdry hWb hdist hsrcne L (runJob cfg st m)
        (fun x hx => hsub x (List.mem_cons_of_mem m hx))
        (by rw [hfiles]; exact hlen' _)
        (by rw [hfiles]; exact hstat' _)
        ?_ ?_
      · intro pth hpth
        rw [hfsO pth (by rw [hTm]; exact hpth m hmW)]
        exact hI1 pth hpth
      · intro r hr hcop
        by_cases hrm : r = m
        · subst hrm
          refine ⟨sd, ?_, ?_⟩
          · rw [← hI1 (mkPath (getF plan1 r).sourceDir (getF plan1 r).sourceName)
              (fun r' hr' => hsrcne r hr r' hr'), ← hSm]
            exact hsdSrc
          · rw [← hTm, ← hCm]
            exact hsdDst
        · rw [hfiles, getF_set,
            if_neg (fun hcon => hrm (hcon.1.symm))] at hcop
          obtain ⟨sd2, h1, h2⟩ := hI2 r hr hcop
          refine ⟨sd2, h1, ?_⟩
          rw [hfsO _ (by rw [hTm]; exact hTne r hr hrm)]
          exact h2

-- ## Run-2 resolver replay (claim C2)

theorem isNameTaken_eval_true {files : List FileInfo} {ci : Nat} {N : String}
    (k2 : Nat) (hk2 : k2 < ci)
    (hd : (getF files k2).destDir = (getF files ci).destDir)
    (hn : (getF files k2).destName = N) :
    isNameTakenByPreviousFile files ci N = true := by
  rw [isNameTakenByPreviousFile, List.any_eq_true]
  refine ⟨k2, List.mem_range.mpr hk2, ?_⟩
  simp [hd, hn]

/-- Replay of the disambiguation loop against the post-run filesystem: every
candidate before `t` is again rejected (or terminates early as a duplicate),
and candidate `t` is a duplicate, so the record parks as `pre-existing`. -/
theorem resolveSuffixLoop_run2 (fs : FS) (cfg : Config) (ci : Nat)
    (bd bf e : String) (srcD srcN : String) (sz : Int) (sd : FileData)
    (hsd : fs.files (mkPath srcD srcN) = some sd) (hre : sd.readErr = false) :
    ∀ (rem k t : Nat) (files : List FileInfo),
      ci < files.length →
      (getF files ci).sourceDir = srcD → (getF files ci).sourceName = srcN →
      (getF files ci).size = sz → (getF files ci).destDir = bd →
      srcValid fs srcD srcN (getF files ci) →
      k ≤ t → t < k + rem →
      (∀ s, k ≤ s → s < t →
        (∃ fd, fs.files (mkPath bd (bf ++ "_" ++ pad3 s ++ e)) = some fd ∧
          (fd.size ≠ sz ∨ cfg.checksumDuplicates = false ∨ fd.readErr = false)) ∨
        (fs.files (mkPath bd (bf ++ "_" ++ pad3 s ++ e)) = none ∧
          claimedInPrefix files ci bd (bf ++ "_" ++ pad3 s ++ e))) →
      (∃ fd, fs.files (mkPath bd (bf ++ "_" ++ pad3 t ++ e)) = some fd ∧
        fd.size = sz ∧
        (cfg.checksumDuplicates = true → fd.readErr = false ∧
          hashOf fd.content = hashOf sd.content)) →
      ∃ out, resolveSuffixLoop fs cfg ci bd bf e k rem files = .ok out ∧
        (getF out ci).status = FileStatus.preExisting := by
  intro rem
  induction rem with
  | zero =>
    intro k t files _ _ _ _ _ _ hkt ht _ _
    omega
  | succ m ih =>
    intro k t files hci hsrcD hsrcN hsz hbd hcache hkt ht hwalk hdup
    rw [resolveSuffixLoop]
    have hfileSrc : mkPath (getF files ci).sourceDir (getF files ci).sourceName =
        mkPath srcD srcN := by
      rw [hsrcD, hsrcN]
    have hsd' : fs.files (mkPath (getF files ci).sourceDir
        (getF files ci).sourceName) = some sd := by
      rw [hfileSrc]
      exact hsd
    have hcache' : srcValid fs (getF files ci).sourceDir (getF files ci).sourceName
        (getF files ci) := by
      rw [hsrcD, hsrcN]
      exact hcache
    by_cases hkeq : k = t
    · -- duplicate here: park as pre-existing
      subst hkeq
      obtain ⟨fd, hfd, hfsz, hckf⟩ := hdup
      rw [if_neg (by rw [existsPath_some hfd]; simp)]
      obtain ⟨f', hdp⟩ := isDuplicate_eval_true fs (getF files ci) _
        cfg.checksumDuplicates fd sd hfd hsd' hre hcache' (by rw [hfsz, hsz]) hckf
      rw [hdp]
      dsimp only
      rw [if_pos rfl]
      refine ⟨_, rfl, ?_⟩
      rw [getF_set_self (by simpa using hci)]
    · -- rejected here: walk continues
      have hklt : k < t := by omega
      have hnext : ∀ file2 : FileInfo,
          (getF (files.set ci file2) ci).sourceDir = srcD →
          (getF (files.set ci file2) ci).sourceName = srcN →
          (getF (files.set ci file2) ci).size = sz →
          (getF (files.set ci file2) ci).destDir = bd →
          srcValid fs srcD srcN (getF (files.set ci file2) ci) →
          ∃ out, resolveSuffixLoop fs cfg ci bd bf e (k + 1) m (files.set ci file2) =
            .ok out ∧ (getF out ci).status = FileStatus.preExisting := by
        intro file2 h1 h2 h3 h4 h5
        refine ih (k + 1) t (files.set ci file2)
          (by rw [List.length_set]; exact hci) h1 h2 h3 h4 h5 (by omega) (by omega)
          ?_ hdup
        intro s hs1 hs2
        rcases hwalk s (by omega) hs2 with hw | ⟨hw1, k2, hk2, hkd, hkn⟩
        · exact Or.inl hw
        · refine Or.inr ⟨hw1, k2, hk2, ?_, ?_⟩
          · rw [getF_set_ne (fun hcon => (by omega : k2 ≠ ci) hcon.symm)]
            exact hkd
          · rw [getF_set_ne (fun hcon => (by omega : k2 ≠ ci) hcon.symm)]
            exact hkn
      rcases hwalk k le_rfl hklt with ⟨fd, hfd, hR⟩ | ⟨hnone, k2, hk2, hkd, hkn⟩
      · -- occupied: not accepted; the duplicate check cannot crash
        rw [if_neg (by rw [existsPath_some hfd]; simp)]
        by_cases hfsz : fd.size = (getF files ci).size
        · -- same size: with checksums off it is a duplicate (early park);
          -- with checksums on the cell is readable, so the hash decides
          by_cases hck : cfg.checksumDuplicates = true
          · have hfre : fd.readErr = false := by
              rcases hR with hR | hR | hR
              · exact absurd (by rw [hfsz, hsz]) hR
              · exact absurd hck (by rw [hR]; exact Bool.false_ne_true)
              · exact hR
            by_cases hh : hashOf fd.content = hashOf sd.content
            · obtain ⟨f', hdp⟩ := isDuplicate_eval_true fs (getF files ci) _
                cfg.checksumDuplicates fd sd hfd hsd' hre hcache' hfsz
                (fun _ => ⟨hfre, hh⟩)
              rw [hdp]
              dsimp only
              rw [if_pos rfl]
              refine ⟨_, rfl, ?_⟩
              rw [getF_set_self (by simpa using hci)]
            · obtain ⟨c, hdp, hcch⟩ := isDuplicate_eval_false fs (getF files ci) _
                cfg.checksumDuplicates fd sd hfd hsd' hre hcache'
                (Or.inr ⟨hck, hfre, hh⟩)
              rw [hdp]
              dsimp only
              rw [if_neg (by simp)]
              refine hnext _ ?_ ?_ ?_ ?_ ?_
              · rw [getF_set_self hci]
                dsimp only
                exact hsrcD
              · rw [getF_set_self hci]
                dsimp only
                exact hsrcN
              · rw [getF_set_self hci]
                dsimp only
                exact hsz
              · rw [getF_set_self hci]
                dsimp only
                exact hbd
              · rw [getF_set_self hci]
                rw [← hsrcD, ← hsrcN] at hsd hcache ⊢
                exact srcValid_choice hsd hre hcache hcch
          · obtain ⟨f', hdp⟩ := isDuplicate_eval_true fs (getF files ci) _
              cfg.checksumDuplicates fd sd hfd hsd' hre hcache' hfsz
              (fun hcon => absurd hcon hck)
            rw [hdp]
            dsimp only
            rw [if_pos rfl]
            refine ⟨_, rfl, ?_⟩
            rw [getF_set_self (by simpa using hci)]
        · -- size differs: rejected again
          obtain ⟨c, hdp, hcch⟩ := isDuplicate_eval_false fs (getF files ci) _
            cfg.checksumDuplicates fd sd hfd hsd' hre hcache' (Or.inl hfsz)
          rw [hdp]
          dsimp only
          rw [if_neg (by simp)]
          refine hnext _ ?_ ?_ ?_ ?_ ?_
          · rw [getF_set_self hci]
            dsimp only
            exact hsrcD
          · rw [getF_set_self hci]
            dsimp only
            exact hsrcN
          · rw [getF_set_self hci]
            dsimp only
            exact hsz
          · rw [getF_set_self hci]
            dsimp only
            exact hbd
          · rw [getF_set_self hci]
            rw [← hsrcD, ← hsrcN] at hsd hcache ⊢
            exact srcValid_choice hsd hre hcache hcch
      · -- absent but claimed by an earlier record: rejected again
        have htk : isNameTakenByPreviousFile files ci (bf ++ "_" ++ pad3 k ++ e) =
            true := isNameTaken_eval_true k2 hk2 (by rw [hkd, hbd]) hkn
        rw [if_neg (by rw [htk]; simp)]
        rw [isDuplicate_absent fs (getF files ci) _ cfg.checksumDuplicates hnone]
        dsimp only
        rw [if_neg (by simp)]
        refine hnext _ ?_ ?_ ?_ ?_ ?_
        · rw [getF_set_self hci]
          exact hsrcD
        · rw [getF_set_self hci]
          exact hsrcN
        · rw [getF_set_self hci]
          exact hsz
        · rw [getF_set_self hci]
          exact hbd
        · rw [getF_set_self hci]
          exact (by rw [← hsrcD, ← hsrcN] at hcache; rw [← hsrcD, ← hsrcN]; exact hcache)

/-- Replay of the index pre-check: with the same bucket and a hash-matching
indexed record (or checksums off), the resolver parks the record as
`pre-existing` at its initial name. -/
theorem setFinalDestinationFilename_run2_idx (fs : FS) (files : List FileInfo)
    (ci : Nat) (init : String) (cfg : Config) (idx : STIndex) (indices : List Nat)
    (hci : ci < files.length)
    (hlook : assocLookup idx ((getF files ci).size, (getF files ci).creationDateTime) =
      some indices)
    (hcv : cacheValid fs files)
    (hsem : cfg.checksumDuplicates = false ∨
      ∃ p ∈ indices, ∃ sdp sdq,
        fs.files (mkPath (getF files p).sourceDir (getF files p).sourceName) =
          some sdp ∧ sdp.readErr = false ∧
        fs.files (mkPath (getF files ci).sourceDir (getF files ci).sourceName) =
          some sdq ∧ sdq.readErr = false ∧
        hashOf sdq.content = hashOf sdp.content) :
    ∃ out, setFinalDestinationFilename fs files ci init cfg idx = .ok out ∧
      (getF out ci).status = FileStatus.preExisting ∧
      (getF out ci).destName = trimSuffix init (extOf init) ++
        resolvedExt cfg (getF files ci).fileType (extOf init) ∧
      (getF out ci).destDir = (getF files ci).destDir := by
  obtain ⟨out1, hverd⟩ := isDupInPrev_eval_true fs files ci cfg.checksumDuplicates idx
    indices hlook hcv hsem
  have hlen1 : out1.length = files.length := by
    have h2 := isDuplicateInPreviousFiles_length fs files ci cfg.checksumDuplicates idx
    rw [hverd] at h2
    exact h2
  have hci1 : ci < out1.length := by rw [hlen1]; exact hci
  have hco : cacheOnly files out1 := by
    have h2 := isDuplicateInPreviousFiles_frame fs files ci cfg.checksumDuplicates idx
    rw [hverd] at h2
    exact h2
  obtain ⟨cc, hcc⟩ := hco ci
  rw [setFinalDestinationFilename, hverd]
  dsimp only
  rw [if_pos rfl]
  refine ⟨_, rfl, ?_, ?_, ?_⟩
  · rw [getF_set_self hci1]
  · rw [getF_set_self hci1]
  · rw [getF_set_self hci1]
    dsimp only
    rw [hcc]

/-- Replay of the resolver walk: every pre-`t` candidate is rejected again
(or parks the record early as a duplicate), and candidate `t` is a
duplicate, so the resolver ends with status `pre-existing`. -/
theorem setFinalDestinationFilename_run2_walk (fs : FS) (files : List FileInfo)
    (ci : Nat) (init : String) (cfg : Config) (idx : STIndex) (t : Nat)
    (sd : FileData)
    (hci : ci < files.length)
    (hsd : fs.files (mkPath (getF files ci).sourceDir (getF files ci).sourceName) =
      some sd)
    (hre : sd.readErr = false)
    (hcv : cacheValid fs files)
    (ht : t ≤ 999999)
    (hwalk : ∀ s, s < t →
      (∃ fd, fs.files (mkPath (getF files ci).destDir
          (candName (trimSuffix init (extOf init))
            (resolvedExt cfg (getF files ci).fileType (extOf init)) s)) = some fd ∧
        (fd.size ≠ (getF files ci).size ∨ cfg.checksumDuplicates = false ∨
          fd.readErr = false)) ∨
      (fs.files (mkPath (getF files ci).destDir
          (candName (trimSuffix init (extOf init))
            (resolvedExt cfg (getF files ci).fileType (extOf init)) s)) = none ∧
        claimedInPrefix files ci (getF files ci).destDir
          (candName (trimSuffix init (extOf init))
            (resolvedExt cfg (getF files ci).fileType (extOf init)) s)))
    (hdup : ∃ fd, fs.files (mkPath (getF files ci).destDir
        (candName (trimSuffix init (extOf init))
          (resolvedExt cfg (getF files ci).fileType (extOf init)) t)) = some fd ∧
      fd.size = (getF files ci).size ∧
      (cfg.checksumDuplicates = true → fd.readErr = false ∧
        hashOf fd.content = hashOf sd.content)) :
    ∃ out, setFinalDestinationFilename fs files ci init cfg idx = .ok out ∧
      (getF out ci).status = FileStatus.preExisting := by
  obtain ⟨isDup, files1, hverd⟩ :
      ∃ a b, isDuplicateInPreviousFiles fs files ci cfg.checksumDuplicates idx =
        (a, b) := ⟨_, _, rfl⟩
  have hlen1 : files1.length = files.length := by
    have h2 := isDuplicateInPreviousFiles_length fs files ci cfg.checksumDuplicates idx
    rw [hverd] at h2
    exact h2
  have hci1 : ci < files1.length := by rw [hlen1]; exact hci
  have hco : cacheOnly files files1 := by
    have h2 := isDuplicateInPreviousFiles_frame fs files ci cfg.checksumDuplicates idx
    rw [hverd] at h2
    exact h2
  have hcv1 : cacheValid fs files1 := by
    have h2 := isDuplicateInPreviousFiles_cacheValid fs files ci
      cfg.checksumDuplicates idx hcv
    rw [hverd] at h2
    exact h2
  obtain ⟨cc, hcc⟩ := hco ci
  have hsd1 : fs.files (mkPath (getF files1 ci).sourceDir
      (getF files1 ci).sourceName) = some sd := by
    rw [hcc]
    exact hsd
  have hcache1 : srcValid fs (getF files1 ci).sourceDir (getF files1 ci).sourceName
      (getF files1 ci) := hcv1 ci
  rw [setFinalDestinationFilename, hverd]
  dsimp only
  by_cases hisdup : isDup = true
  · rw [if_pos hisdup]
    exact ⟨_, rfl, by rw [getF_set_self hci1]⟩
  · rw [if_neg hisdup]
    -- transfer of claims from `files` to the walk list
    have hclaim1 : ∀ N, claimedInPrefix files ci (getF files ci).destDir N →
        ∀ file2 : FileInfo, claimedInPrefix (files1.set ci file2) ci
          (getF files ci).destDir N := by
      intro N ⟨k, hk, hkd, hkn⟩ file2
      obtain ⟨ck, hck⟩ := hco k
      refine ⟨k, hk, ?_, ?_⟩
      · rw [getF_set_ne (fun hcon => (by omega : k ≠ ci) hcon.symm), hck]
        exact hkd
      · rw [getF_set_ne (fun hcon => (by omega : k ≠ ci) hcon.symm), hck]
        exact hkn
    have hloop : ∀ (file2 : FileInfo), (getF (files1.set ci file2) ci).sourceDir =
          (getF files ci).sourceDir →
        (getF (files1.set ci file2) ci).sourceName = (getF files ci).sourceName →
        (getF (files1.set ci file2) ci).size = (getF files ci).size →
        (getF (files1.set ci file2) ci).destDir = (getF files ci).destDir →
        srcValid fs (getF files ci).sourceDir (getF files ci).sourceName
          (getF (files1.set ci file2) ci) →
        1 ≤ t →
        ∃ out, resolveSuffixLoop fs cfg ci (getF files ci).destDir
            (trimSuffix init (extOf init))
            (resolvedExt cfg (getF files ci).fileType (extOf init)) 1 999999
            (files1.set ci file2) = .ok out ∧
          (getF out ci).status = FileStatus.preExisting := by
      intro file2 h1 h2 h3 h4 h5 h6
      refine resolveSuffixLoop_run2 fs cfg ci (getF files ci).destDir
        (trimSuffix init (extOf init))
        (resolvedExt cfg (getF files ci).fileType (extOf init))
        (getF files ci).sourceDir (getF files ci).sourceName
        (getF files ci).size sd hsd hre 999999 1 t (files1.set ci file2)
        (by rw [List.length_set]; exact hci1) h1 h2 h3 h4 h5 h6 (by omega)
        ?_ ?_
      · intro s hs1 hs2
        rcases hwalk s hs2 with ⟨fd, hfd, hR⟩ | ⟨hnone, hcl⟩
        · rw [candName_pos _ _ s hs1] at hfd
          exact Or.inl ⟨fd, hfd, hR⟩
        · rw [candName_pos _ _ s hs1] at hnone hcl
          exact Or.inr ⟨hnone, hclaim1 _ hcl file2⟩
      · obtain ⟨fd, hfd, hfsz, hckf⟩ := hdup
        rw [candName_pos _ _ t (by omega)] at hfd
        exact ⟨fd, hfd, hfsz, hckf⟩
    rcases Nat.eq_zero_or_pos t with ht0 | ht1
    · -- duplicate at the initial candidate
      subst ht0
      obtain ⟨fd, hfd, hfsz, hckf⟩ := hdup
      rw [candName_zero] at hfd
      rw [if_neg (by rw [existsPath_some hfd]; simp)]
      obtain ⟨f', hdp⟩ := isDuplicate_eval_true fs (getF files1 ci) _
        cfg.checksumDuplicates fd sd hfd hsd1 hre hcache1 (by rw [hfsz, hcc]) hckf
      rw [hdp]
      dsimp only
      rw [if_pos rfl]
      exact ⟨_, rfl, by rw [getF_set_self (by simpa using hci1)]⟩
    · -- initial candidate rejected (or an early duplicate)
      rcases hwalk 0 ht1 with ⟨fd, hfd, hR⟩ | ⟨hnone, hcl⟩
      · rw [candName_zero] at hfd
        rw [if_neg (by rw [existsPath_some hfd]; simp)]
        by_cases hfsz : fd.size = (getF files1 ci).size
        · by_cases hck : cfg.checksumDuplicates = true
          · have hfre : fd.readErr = false := by
              rcases hR with hR | hR | hR
              · exact absurd (by rw [hfsz, hcc]) hR
              · exact absurd hck (by rw [hR]; exact Bool.false_ne_true)
              · exact hR
            by_cases hh : hashOf fd.content = hashOf sd.content
            · obtain ⟨f', hdp⟩ := isDuplicate_eval_true fs (getF files1 ci) _
                cfg.checksumDuplicates fd sd hfd hsd1 hre hcache1 hfsz
                (fun _ => ⟨hfre, hh⟩)
              rw [hdp]
              dsimp only
              rw [if_pos rfl]
              exact ⟨_, rfl, by rw [getF_set_self (by simpa using hci1)]⟩
            · obtain ⟨c, hdp, hcch⟩ := isDuplicate_eval_false fs (getF files1 ci) _
                cfg.checksumDuplicates fd sd hfd hsd1 hre hcache1
                (Or.inr ⟨hck, hfre, hh⟩)
              rw [hdp]
              dsimp only
              rw [if_neg (by simp)]
              refine hloop _ ?_ ?_ ?_ ?_ ?_ ht1
              · rw [getF_set_self hci1]
                dsimp only
                rw [hcc]
              · rw [getF_set_self hci1]
                dsimp only
                rw [hcc]
              · rw [getF_set_self hci1]
                dsimp only
                rw [hcc]
              · rw [getF_set_self hci1]
                dsimp only
                rw [hcc]
              · rw [getF_set_self hci1]
                have hval := srcValid_choice hsd1 hre hcache1 hcch
                rw [hcc] at hval
                exact hval
          · obtain ⟨f', hdp⟩ := isDuplicate_eval_true fs (getF files1 ci) _
              cfg.checksumDuplicates fd sd hfd hsd1 hre hcache1 hfsz
              (fun hcon => absurd hcon hck)
            rw [hdp]
            dsimp only
            rw [if_pos rfl]
            exact ⟨_, rfl, by rw [getF_set_self (by simpa using hci1)]⟩
        · obtain ⟨c, hdp, hcch⟩ := isDuplicate_eval_false fs (getF files1 ci) _
            cfg.checksumDuplicates fd sd hfd hsd1 hre hcache1 (Or.inl hfsz)
          rw [hdp]
          dsimp only
          rw [if_neg (by simp)]
          refine hloop _ ?_ ?_ ?_ ?_ ?_ ht1
          · rw [getF_set_self hci1]
            dsimp only
            rw [hcc]
          · rw [getF_set_self hci1]
            dsimp only
            rw [hcc]
          · rw [getF_set_self hci1]
            dsimp only
            rw [hcc]
          · rw [getF_set_self hci1]
            dsimp only
            rw [hcc]
          · rw [getF_set_self hci1]
            have hval := srcValid_choice hsd1 hre hcache1 hcch
            rw [hcc] at hval
            exact hval
      · rw [candName_zero] at hnone hcl
        obtain ⟨k, hk, hkd, hkn⟩ := hcl
        obtain ⟨ck, hck⟩ := hco k
        have htk : isNameTakenByPreviousFile files1 ci
            (trimSuffix init (extOf init) ++
              resolvedExt cfg (getF files ci).fileType (extOf init)) = true := by
          refine isNameTaken_eval_true k hk ?_ ?_
          · rw [hck, hcc]
            exact hkd
          · rw [hck]
            exact hkn
        rw [if_neg (by rw [htk]; simp)]
        rw [isDuplicate_absent fs (getF files1 ci) _ cfg.checksumDuplicates hnone]
        dsimp only
        rw [if_neg (by simp)]
        refine hloop _ ?_ ?_ ?_ ?_ ?_ ht1
        · rw [getF_set_self hci1, hcc]
        · rw [getF_set_self hci1, hcc]
        · rw [getF_set_self hci1, hcc]
        · rw [getF_set_self hci1, hcc]
        · rw [getF_set_self hci1]
          have hdir : (getF files1 ci).sourceDir = (getF files ci).sourceDir := by
            rw [hcc]
          have hnam : (getF files1 ci).sourceName = (getF files ci).sourceName := by
            rw [hcc]
          have hval := hcv1 ci
          rw [hdir, hnam] at hval
          exact hval

theorem assocLookup_appendST_mem (v x : Nat) (key k2 : Int × Int) :
    ∀ (idx : STIndex) (l : List Nat),
      assocLookup (appendST idx k2 v) key = some l → x ∈ l →
      (∃ l0, assocLookup idx key = some l0 ∧ x ∈ l0) ∨ x = v
  | [], l, hl, hx => by
    rw [appendST] at hl
    by_cases hk : k2 = key
    · rw [assocLookup, if_pos hk] at hl
      have hle : [v] = l := Option.some.inj hl
      rw [← hle] at hx
      exact Or.inr (List.mem_singleton.mp hx)
    · rw [assocLookup, if_neg hk, assocLookup] at hl
      exact absurd hl (by simp)
  | (k1, l1) :: rest, l, hl, hx => by
    rw [appendST] at hl
    by_cases h1 : k1 = k2
    · rw [if_pos h1, assocLookup] at hl
      by_cases h2 : k1 = key
      · rw [if_pos h2] at hl
        have hle : l1 ++ [v] = l := Option.some.inj hl
        rw [← hle] at hx
        rcases List.mem_append.mp hx with hx2 | hx2
        · exact Or.inl ⟨l1, by rw [assocLookup, if_pos h2], hx2⟩
        · exact Or.inr (List.mem_singleton.mp hx2)
      · rw [if_neg h2] at hl
        exact Or.inl ⟨l, by rw [assocLookup, if_neg h2]; exact hl, hx⟩
    · rw [if_neg h1, assocLookup] at hl
      by_cases h2 : k1 = key
      · rw [if_pos h2] at hl
        have hle : l1 = l := Option.some.inj hl
        exact Or.inl ⟨l, by rw [assocLookup, if_pos h2, hle], hx⟩
      · rw [if_neg h2] at hl
        rcases assocLookup_appendST_mem v x key k2 rest l hl hx with
          ⟨l0, hl0, hx0⟩ | hxv
        · exact Or.inl ⟨l0, by rw [assocLookup, if_neg h2]; exact hl0, hx0⟩
        · exact Or.inr hxv

theorem canonIdx_bucket_lt (files0 : List FileInfo) :
    ∀ (s : Nat) (key : Int × Int) (l : List Nat),
      assocLookup (canonIdx files0 s) key = some l → ∀ x ∈ l, x < s
  | 0, _, l, hl => by
    rw [canonIdx, assocLookup] at hl
    exact absurd hl (by simp)
  | s + 1, key, l, hl => by
    intro x hx
    rw [canonIdx] at hl
    rcases assocLookup_appendST_mem s x key
        ((getF files0 s).size, (getF files0 s).creationDateTime)
        (canonIdx files0 s) l hl hx with ⟨l0, hl0, hx0⟩ | hxv
    · have := canonIdx_bucket_lt files0 s key l0 hl0 x hx0
      omega
    · omega

/-- Run-2 pass-1 fold: against the post-run filesystem, every record is
re-planned as `pre-existing`, and a record whose first-run route was the
index pre-check keeps its first-run destination. -/
theorem pass1_run2_aux (fs1 fs2 : FS) (cfg : Config) (files0 plan1 : List FileInfo)
    (hcats : ∀ q, q < files0.length → (getF files0 q).mediaCategory ≠ Sidecar)
    (hunset : ∀ q, q < files0.length → (getF files0 q).status = FileStatus.unset)
    (hsrc1 : srcConsistent fs1 files0)
    (hsam : ∀ q, q < files0.length →
      fs2.files (mkPath (getF files0 q).sourceDir (getF files0 q).sourceName) =
        fs1.files (mkPath (getF files0 q).sourceDir (getF files0 q).sourceName))
    (hocc : ∀ pth fd, fs1.files pth = some fd → fs2.files pth = some fd)
    (hfreeR : ∀ pth, fs1.files pth = none →
      fs2.files pth = none ∨ ∃ fd, fs2.files pth = some fd ∧ fd.readErr = false)
    (hroutes : ∀ q, q < files0.length → route1 fs1 cfg files0 plan1 q)
    (hplanstat : ∀ q, q < files0.length →
      (getF plan1 q).status = FileStatus.preExisting ∨
      (getF plan1 q).status = FileStatus.unset)
    (hwr : ∀ q, q < files0.length → (getF plan1 q).status = FileStatus.unset →
      ∃ sdq, fs1.files (mkPath (getF files0 q).sourceDir
          (getF files0 q).sourceName) = some sdq ∧
        fs2.files (mkPath (getF plan1 q).destDir (getF plan1 q).destName) =
          some (copiedCell sdq.content (getF files0 q).creationDateTime)) :
    ∀ (cnt s : Nat) (st : List FileInfo × STIndex),
      s + cnt = files0.length →
      st.1.length = files0.length →
      planOnly files0 st.1 →
      cacheValid fs2 st.1 →
      st.2 = canonIdx files0 s →
      (∀ q, s ≤ q → ∃ c, getF st.1 q = { getF files0 q with sourceChecksum := c }) →
      (∀ q, q < s → (getF st.1 q).status = FileStatus.preExisting ∧
        ((getF plan1 q).status = FileStatus.preExisting →
          fs1.files (mkPath (getF plan1 q).destDir (getF plan1 q).destName) = none →
          (getF st.1 q).destName = (getF plan1 q).destName ∧
          (getF st.1 q).destDir = (getF plan1 q).destDir)) →
      ∀ q, q < s + cnt →
        (getF ((List.range' s cnt).foldl (pass1Step fs2 cfg) st).1 q).status =
          FileStatus.preExisting
  | 0, s, st, hlen, _, _, _, _, _, hprev => by
    intro q hq
    exact (hprev q (by omega)).1
  | cnt + 1, s, st, hlen, hstlen, hpo, hcv, hidx, hunt, hprev => by
    rw [List.range'_succ, List.foldl_cons]
    have hsl : s < files0.length := by omega
    obtain ⟨c0, hc0⟩ := hunt s le_rfl
    have hb : s < st.1.length := by rw [hstlen]; exact hsl
    set files' := st.1.set s
      { getF st.1 s with destDir := plannedDestDir cfg (getF st.1 s) } with hfp
    have hb' : s < files'.length := by rw [hfp, List.length_set]; exact hb
    have hpo' : planOnly files0 files' := by
      rw [hfp]
      exact planOnly_trans hpo (planOnly_set st.1 s _ _ _ _)
    have hcv' : cacheValid fs2 files' := by
      rw [hfp]
      exact cacheValid_set (srcValid_keepCache rfl rfl rfl (hcv s)) hcv
    have hids' : ∀ j, _ := fun j => planOnly_id hpo' j
    have hfs' : getF files' s =
        { getF st.1 s with destDir := plannedDestDir cfg (getF st.1 s) } := by
      rw [hfp]
      exact getF_set_self hb
    have hDD : plannedDestDir cfg (getF st.1 s) = plannedDestDir cfg (getF files0 s) :=
      plannedDestDir_congr cfg (planOnly_id hpo s).2.2.1
    have hfd' : (getF files' s).destDir = plannedDestDir cfg (getF files0 s) := by
      rw [hfs']
      dsimp only
      exact hDD
    have hinitEq : (if cfg.renameByDateTime = true then
        formatDateTime (getF st.1 s).creationDateTime ++ extOf (getF st.1 s).sourceName
      else (getF st.1 s).sourceName) = initName cfg (getF files0 s) := by
      rw [(planOnly_id hpo s).2.2.1, (planOnly_id hpo s).1, initName]
    have hcand : ∀ u, candName (trimSuffix (initName cfg (getF files0 s))
        (extOf (initName cfg (getF files0 s))))
        (resolvedExt cfg (getF files' s).fileType
          (extOf (initName cfg (getF files0 s)))) u =
        candOf cfg (getF files0 s) u := by
      intro u
      rw [(hids' s).2.2.2.2.2.1]
      rfl
    obtain ⟨hrDD, hroute⟩ := hroutes s hsl
    obtain ⟨sd1, hsd1, hre1, hssz1, hslen1⟩ := hsrc1 s hsl
    have hsd2 : fs2.files (mkPath (getF files0 s).sourceDir
        (getF files0 s).sourceName) = some sd1 := by
      rw [hsam s hsl]
      exact hsd1
    have hsd2' : fs2.files (mkPath (getF files' s).sourceDir
        (getF files' s).sourceName) = some sd1 := by
      rw [(hids' s).2.1, (hids' s).1]
      exact hsd2
    have hreplay : ∃ out2, setFinalDestinationFilename fs2 files' s
        (initName cfg (getF files0 s)) cfg st.2 = .ok out2 ∧
        (getF out2 s).status = FileStatus.preExisting ∧
        ((getF plan1 s).status = FileStatus.preExisting →
          fs1.files (mkPath (getF plan1 s).destDir (getF plan1 s).destName) = none →
          (getF out2 s).destName = (getF plan1 s).destName ∧
          (getF out2 s).destDir = (getF plan1 s).destDir) := by
      rcases hroute with ⟨hst1, hnm1, indices, hlook1, hsem1⟩ |
        ⟨t, ht, sdq, hsq1, hsqre, hwalk1, hname1, hterm1⟩
      · -- index-route replay
        have hlook2 : assocLookup st.2
            ((getF files' s).size, (getF files' s).creationDateTime) =
            some indices := by
          rw [hidx, (hids' s).2.2.2.1, (hids' s).2.2.1]
          exact hlook1
        have hsem2 : cfg.checksumDuplicates = false ∨
            ∃ p ∈ indices, ∃ sdp sdq2,
              fs2.files (mkPath (getF files' p).sourceDir
                (getF files' p).sourceName) = some sdp ∧ sdp.readErr = false ∧
              fs2.files (mkPath (getF files' s).sourceDir
                (getF files' s).sourceName) = some sdq2 ∧ sdq2.readErr = false ∧
              hashOf sdq2.content = hashOf sdp.content := by
          rcases hsem1 with hck | ⟨p, hp, sdp, sdq2, hp1, hp2, hp3, hp4, hp5⟩
          · exact Or.inl hck
          · have hplt : p < files0.length := by
              have := canonIdx_bucket_lt files0 s _ indices hlook1 p hp
              omega
            refine Or.inr ⟨p, hp, sdp, sdq2, ?_, hp2, ?_, hp4, hp5⟩
            · rw [(hids' p).2.1, (hids' p).1, hsam p hplt]
              rw [srcPathF] at hp1
              exact hp1
            · rw [(hids' s).2.1, (hids' s).1, hsam s hsl]
              rw [srcPathF] at hp3
              exact hp3
        obtain ⟨out2, hok, hst2, hnm2, hdd2⟩ := setFinalDestinationFilename_run2_idx
          fs2 files' s (initName cfg (getF files0 s)) cfg st.2 indices hb' hlook2
          hcv' hsem2
        refine ⟨out2, hok, hst2, fun _ _ => ⟨?_, ?_⟩⟩
        · rw [hnm2, hnm1, (hids' s).2.2.2.2.2.1]
          rfl
        · rw [hdd2, hfd', hrDD]
      · -- walk-route replay
        rw [srcPathF] at hsq1
        have hsq1' : sdq = sd1 := Option.some.inj (hsq1.symm.trans hsd1)
        obtain ⟨out2, hok, hst2⟩ := setFinalDestinationFilename_run2_walk fs2 files' s
          (initName cfg (getF files0 s)) cfg st.2 t sd1 hb' hsd2' hre1 hcv' ht
          (by
            intro u hu
            rw [hcand u, hfd', (hids' s).2.2.2.1]
            rcases hwalk1 u hu with ⟨fd, hfd1, hnd⟩ | ⟨hnone, k, hk, hkd, hkn⟩
            · refine Or.inl ⟨fd, hocc _ fd hfd1, ?_⟩
              rcases hnd with hnd | ⟨hck, hfre, _⟩
              · exact Or.inl hnd
              · exact Or.inr (Or.inr hfre)
            · have hkpath : mkPath (plannedDestDir cfg (getF files0 s))
                  (candOf cfg (getF files0 s) u) =
                  mkPath (getF plan1 k).destDir (getF plan1 k).destName := by
                rw [hkd, hkn]
              rcases hplanstat k (by omega) with hkpre | hkuns
              · obtain ⟨hkst, hkcl⟩ := hprev k hk
                obtain ⟨hnmk, hddk⟩ := hkcl hkpre (by rw [← hkpath]; exact hnone)
                rcases hfreeR _ hnone with hf2 | ⟨fd, hf2, hfre⟩
                · refine Or.inr ⟨hf2, k, hk, ?_, ?_⟩
                  · rw [hfp, getF_set_ne (fun hcon => (by omega : k ≠ s) hcon.symm),
                      hddk, hkd]
                  · rw [hfp, getF_set_ne (fun hcon => (by omega : k ≠ s) hcon.symm),
                      hnmk, hkn]
                · exact Or.inl ⟨fd, hf2, Or.inr (Or.inr hfre)⟩
              · obtain ⟨sdk, hsdk1, hcell2⟩ := hwr k (by omega) hkuns
                refine Or.inl ⟨copiedCell sdk.content (getF files0 k).creationDateTime,
                  ?_, Or.inr (Or.inr rfl)⟩
                rw [hkpath]
                exact hcell2)
          (by
            rw [hcand t, hfd', (hids' s).2.2.2.1]
            rcases hterm1 with ⟨hst1, fd, hf1, hfsz, hckf⟩ | ⟨hst1, hnone⟩
            · refine ⟨fd, hocc _ fd hf1, hfsz, ?_⟩
              intro hck
              obtain ⟨hfre, hh⟩ := hckf hck
              exact ⟨hfre, by rw [hh, hsq1']⟩
            · have hsuns : (getF plan1 s).status = FileStatus.unset := by
                rw [hst1]
                exact hunset s hsl
              obtain ⟨sdk, hsdk1, hcell2⟩ := hwr s hsl hsuns
              have hsdk : sdk = sd1 := Option.some.inj (hsdk1.symm.trans hsd1)
              refine ⟨copiedCell sd1.content (getF files0 s).creationDateTime, ?_, ?_, ?_⟩
              · rw [← hsdk]
                have hpath : mkPath (getF plan1 s).destDir (getF plan1 s).destName =
                    mkPath (plannedDestDir cfg (getF files0 s))
                      (candOf cfg (getF files0 s) t) := by
                  rw [hrDD, hname1]
                rw [← hpath]
                exact hcell2
              · show (sd1.content.length : Int) = (getF files0 s).size
                rw [← hslen1, hssz1]
              · intro _
                exact ⟨rfl, rfl⟩)
        refine ⟨out2, hok, hst2, fun hpre hnone1 => ?_⟩
        exfalso
        rcases hterm1 with ⟨hst1, fd, hf1, _, _⟩ | ⟨hst1, _⟩
        · have hpath : mkPath (getF plan1 s).destDir (getF plan1 s).destName =
              candPath cfg (getF files0 s) t := by
            rw [candPath, candOf, hrDD, hname1]
            rfl
          rw [hpath, hf1] at hnone1
          exact Option.noConfusion hnone1
        · rw [hst1, hunset s hsl] at hpre
          exact FileStatus.noConfusion hpre
    -- now follow the actual step
    rcases pass1Step_spec fs2 cfg st s with ⟨heq, hcats'⟩ | ⟨e, hx, heq⟩ |
      ⟨out, hx, heq⟩
    · exfalso
      apply hcats s hsl
      rw [← (planOnly_id hpo s).2.2.2.2.1]
      exact hcats'
    · exfalso
      rw [← hfp, hinitEq] at hx
      obtain ⟨out2, hok, _, _⟩ := hreplay
      rw [hok] at hx
      exact Except.noConfusion hx
    · rw [← hfp, hinitEq] at hx
      obtain ⟨out2, hok, hst2, hnmcl⟩ := hreplay
      have hout : out2 = out := by
        rw [hok] at hx
        simpa using hx
      subst hout
      have hupd := setFinalDestinationFilename_frame fs2 files' s
        (initName cfg (getF files0 s)) cfg st.2 out2 hx
      have hpoOut : planOnly files0 out2 :=
        planOnly_trans hpo' (planOnly_of_updOnly hupd)
      have hstep1 : (pass1Step fs2 cfg st s).1 = out2 := by rw [heq]
      have hstep2 : (pass1Step fs2 cfg st s).2 =
          appendST st.2 ((getF out2 s).size, (getF out2 s).creationDateTime) s := by
        rw [heq]
      have hothers : ∀ j, j ≠ s →
          ∃ c2, getF out2 j = { getF st.1 j with sourceChecksum := c2 } := by
        intro j hj
        obtain ⟨c2, hc2⟩ := hupd.1 j hj
        refine ⟨c2, ?_⟩
        rw [hc2, hfp, getF_set_ne (fun hcon => hj hcon.symm)]
      have hrec := pass1_run2_aux fs1 fs2 cfg files0 plan1 hcats hunset hsrc1 hsam
        hocc hfreeR hroutes hplanstat hwr cnt (s + 1) (pass1Step fs2 cfg st s)
        (by omega)
        (by rw [hstep1,
          setFinalDestinationFilename_length fs2 files' s _ cfg st.2 out2 hx, hfp,
          List.length_set, hstlen])
        (by rw [hstep1]; exact hpoOut)
        (pass1Step_cacheValid fs2 cfg st s hcv)
        (by
          rw [hstep2, hidx, (planOnly_id hpoOut s).2.2.2.1,
            (planOnly_id hpoOut s).2.2.1]
          rfl)
        (by
          intro q hq
          obtain ⟨c2, hc2⟩ := hothers q (by omega)
          obtain ⟨c3, hc3⟩ := hunt q (by omega)
          refine ⟨c2, ?_⟩
          rw [hstep1, hc2, hc3])
        (by
          intro q hq
          by_cases hqs : q = s
          · subst hqs
            rw [hstep1]
            exact ⟨hst2, hnmcl⟩
          · obtain ⟨hq1, hq2⟩ := hprev q (by omega)
            obtain ⟨c2, hc2⟩ := hothers q hqs
            rw [hstep1]
            constructor
            · rw [hc2]
              dsimp only
              exact hq1
            · intro hpre hnone1
              obtain ⟨hn1, hn2⟩ := hq2 hpre hnone1
              constructor
              · rw [hc2]
                dsimp only
                exact hn1
              · rw [hc2]
                dsimp only
                exact hn2)
      intro q hq
      exact hrec q (by omega)

-- ## Run-2 assembly helpers (claim C2)

theorem pass1_planOnly (fs : FS) (cfg : Config) (files0 : List FileInfo) :
    planOnly files0 (pass1 fs cfg files0).1 := by
  rw [pass1]
  suffices h : ∀ (L : List Nat) (st : List FileInfo × STIndex),
      planOnly files0 st.1 → planOnly files0 ((L.foldl (pass1Step fs cfg) st)).1 by
    exact h _ (files0, []) (planOnly_refl _)
  intro L
  induction L with
  | nil => intro st h; exact h
  | cons m L ih =>
    intro st h
    rw [List.foldl_cons]
    exact ih _ (planOnly_trans h (pass1Step_frame fs cfg st m))

theorem mem_workList (files : List FileInfo) (i : Nat) (hi : i < files.length)
    (h1 : (getF files i).status ≠ FileStatus.unnamable)
    (h2 : (getF files i).status ≠ FileStatus.preExisting)
    (h3 : (getF files i).status ≠ FileStatus.sidecarDeleted) :
    i ∈ workList files := by
  rw [workList, List.mem_filter]
  refine ⟨List.mem_range.mpr hi, ?_⟩
  simp [h1, h2, h3]

theorem workList_lt (files : List FileInfo) (i : Nat) (hi : i ∈ workList files) :
    i < files.length := by
  rw [workList, List.mem_filter, List.mem_range] at hi
  exact hi.1

theorem workList_status (files : List FileInfo) (i : Nat) (hi : i ∈ workList files) :
    (getF files i).status ≠ FileStatus.unnamable ∧
    (getF files i).status ≠ FileStatus.preExisting ∧
    (getF files i).status ≠ FileStatus.sidecarDeleted := by
  rw [workList, List.mem_filter] at hi
  have := hi.2
  simp only [Bool.not_eq_true', Bool.or_eq_false_iff, beq_eq_false_iff_ne, ne_eq] at this
  exact ⟨this.1.1, this.1.2, this.2⟩

theorem workList_nil (files : List FileInfo)
    (h : ∀ q, q < files.length → (getF files q).status = FileStatus.preExisting) :
    workList files = [] := by
  rw [workList, List.filter_eq_nil_iff]
  intro a ha
  rw [List.mem_range] at ha
  simp [h a ha]

/-- Any sequence of copy jobs can only move a record's status to one of the
three job outcomes, or leave it alone. -/
theorem copyFold_status_from (cfg : Config) (hdry : cfg.dryRun = false) :
    ∀ (L : List Nat) (st : CopyState) (j : Nat),
      (getF (L.foldl (runJob cfg) st).files j).status = (getF st.files j).status ∨
      (getF (L.foldl (runJob cfg) st).files j).status = FileStatus.dirCreationFailed ∨
      (getF (L.foldl (runJob cfg) st).files j).status = FileStatus.failed ∨
      (getF (L.foldl (runJob cfg) st).files j).status = FileStatus.copied
  | [], _, _ => Or.inl rfl
  | m :: L, st, j => by
    rw [List.foldl_cons]
    rcases copyFold_status_from cfg hdry L (runJob cfg st m) j with h | h
    · by_cases hjm : j = m
      · subst hjm
        rcases runJob_fs_char cfg st j hdry with ⟨_, hfiles⟩ | ⟨hfiles, _⟩ |
          ⟨hfiles, _, _⟩
        · rw [h, hfiles, getF_set]
          by_cases hc : j = j ∧ j < st.files.length
          · rw [if_pos hc]
            exact Or.inr (Or.inl rfl)
          · rw [if_neg hc]
            exact Or.inl rfl
        · rw [h, hfiles, getF_set]
          by_cases hc : j = j ∧ j < st.files.length
          · rw [if_pos hc]
            exact Or.inr (Or.inr (Or.inl rfl))
          · rw [if_neg hc]
            exact Or.inl rfl
        · rw [h, hfiles, getF_set]
          by_cases hc : j = j ∧ j < st.files.length
          · rw [if_pos hc]
            exact Or.inr (Or.inr (Or.inr rfl))
          · rw [if_neg hc]
            exact Or.inl rfl
      · rw [h, runJob_other cfg st m j hjm]
        exact Or.inl rfl
    · exact Or.inr h

theorem getF_beyond (files : List FileInfo) (j : Nat) (hj : files.length ≤ j) :
    getF files j = default := by
  rw [getF, List.getD_eq_getElem?_getD, List.getElem?_eq_none (by omega)]
  rfl

theorem default_not_sidecar : (default : FileInfo).mediaCategory ≠ Sidecar := by decide

/-- Core of the idempotence argument, for a sidecar-free record list whose
first run ends every record `copied` or `pre-existing`: replanning against
the post-run filesystem parks every record `pre-existing`. -/
theorem run2_core (fs : FS) (cfg : Config) (files0 : List FileInfo)
    (hdry : cfg.dryRun = false)
    (hcats0 : ∀ q, q < files0.length → (getF files0 q).mediaCategory ≠ Sidecar)
    (hunset0 : ∀ q, q < files0.length → (getF files0 q).status = FileStatus.unset)
    (hcv0 : ∀ fsx : FS, cacheValid fsx files0)
    (hsrc0 : srcConsistent fs files0)
    (hno : ∀ q, (getF (pass1 fs cfg files0).1 q).status ≠ FileStatus.unnamable)
    (hfirst0 : ∀ q, q < files0.length →
      (getF (copyFiles (pass1 fs cfg files0).1 fs cfg).1.files q).status =
        FileStatus.copied ∨
      (getF (copyFiles (pass1 fs cfg files0).1 fs cfg).1.files q).status =
        FileStatus.preExisting) :
    ∀ q, q < files0.length →
      (getF (pass1 (copyFiles (pass1 fs cfg files0).1 fs cfg).1.fs cfg files0).1 q).status =
        FileStatus.preExisting := by
  have hlen1 : (pass1 fs cfg files0).1.length = files0.length := pass1_length fs cfg files0
  have hpo1 : planOnly files0 (pass1 fs cfg files0).1 := pass1_planOnly fs cfg files0
  have hroutes1 : ∀ q, q < files0.length →
      route1 fs cfg files0 (pass1 fs cfg files0).1 q :=
    pass1_run1 fs cfg files0 hcats0 hsrc0 (hcv0 fs) hno
  have hplanstat1 : ∀ q, q < files0.length →
      (getF (pass1 fs cfg files0).1 q).status = FileStatus.preExisting ∨
      (getF (pass1 fs cfg files0).1 q).status = FileStatus.unset := by
    intro q hq
    obtain ⟨hrDD, hr⟩ := hroutes1 q hq
    rcases hr with ⟨h1, _, _⟩ | ⟨t, ht, sdq, hs1, hs2, hwalk, hname, hterm⟩
    · exact Or.inl h1
    · rcases hterm with ⟨h1, _⟩ | ⟨h1, _⟩
      · exact Or.inl h1
      · rw [h1]
        exact Or.inr (hunset0 q hq)
  have haccW : ∀ r, r ∈ workList (pass1 fs cfg files0).1 →
      fs.files (mkPath (getF (pass1 fs cfg files0).1 r).destDir
        (getF (pass1 fs cfg files0).1 r).destName) = none := by
    intro r hr
    have hrlen : r < files0.length := by
      have := workList_lt _ r hr
      omega
    obtain ⟨hst1, hst2, _⟩ := workList_status _ r hr
    obtain ⟨hrDD, hro⟩ := hroutes1 r hrlen
    rcases hro with ⟨h1, _, _⟩ | ⟨t, ht, sdq, hs1, hs2, hwalk, hname, hterm⟩
    · exact absurd h1 hst2
    · rcases hterm with ⟨h1, _⟩ | ⟨h1, hnone⟩
      · exact absurd h1 hst2
      · rw [hrDD, hname]
        exact hnone
  have hsrcne : ∀ q, q < files0.length → ∀ r, r ∈ workList (pass1 fs cfg files0).1 →
      mkPath (getF files0 q).sourceDir (getF files0 q).sourceName ≠
        mkPath (getF (pass1 fs cfg files0).1 r).destDir
          (getF (pass1 fs cfg files0).1 r).destName := by
    intro q hq r hr hcon
    obtain ⟨sd, h1, _, _, _⟩ := hsrc0 q hq
    rw [hcon, haccW r hr] at h1
    exact Option.noConfusion h1
  have hfour :
      (∀ q, q < files0.length →
        (copyFiles (pass1 fs cfg files0).1 fs cfg).1.fs.files
          (mkPath (getF files0 q).sourceDir (getF files0 q).sourceName) =
        fs.files (mkPath (getF files0 q).sourceDir (getF files0 q).sourceName)) ∧
      (∀ pth fd, fs.files pth = some fd →
        (copyFiles (pass1 fs cfg files0).1 fs cfg).1.fs.files pth = some fd) ∧
      (∀ pth, fs.files pth = none →
        (copyFiles (pass1 fs cfg files0).1 fs cfg).1.fs.files pth = none ∨
        ∃ fd, (copyFiles (pass1 fs cfg files0).1 fs cfg).1.fs.files pth = some fd ∧
          fd.readErr = false) ∧
      (∀ q, q < files0.length →
        (getF (pass1 fs cfg files0).1 q).status = FileStatus.unset →
        ∃ sdq, fs.files (mkPath (getF files0 q).sourceDir
            (getF files0 q).sourceName) = some sdq ∧
          (copyFiles (pass1 fs cfg files0).1 fs cfg).1.fs.files
              (mkPath (getF (pass1 fs cfg files0).1 q).destDir
                (getF (pass1 fs cfg files0).1 q).destName) =
            some (copiedCell sdq.content (getF files0 q).creationDateTime)) := by
    by_cases hWe : (workList (pass1 fs cfg files0).1).isEmpty = true
    · have hfs2 : (copyFiles (pass1 fs cfg files0).1 fs cfg).1.fs = fs := by
        rw [copyFiles, if_pos hWe]
      have hWnil : workList (pass1 fs cfg files0).1 = [] := List.isEmpty_iff.mp hWe
      refine ⟨fun q hq => by rw [hfs2], fun pth fd h => by rw [hfs2]; exact h,
        fun pth h => Or.inl (by rw [hfs2]; exact h), ?_⟩
      intro q hq hst
      exact absurd
        (by
          refine mem_workList (pass1 fs cfg files0).1 q (by omega) ?_ ?_ ?_ <;>
            rw [hst] <;> exact fun hcon => FileStatus.noConfusion hcon)
        (by rw [hWnil]; exact List.not_mem_nil q)
    · have hdistW : ∀ r ∈ workList (pass1 fs cfg files0).1,
          ∀ r2 ∈ workList (pass1 fs cfg files0).1, r ≠ r2 →
          ¬((getF (pass1 fs cfg files0).1 r).destDir =
              (getF (pass1 fs cfg files0).1 r2).destDir ∧
            (getF (pass1 fs cfg files0).1 r).destName =
              (getF (pass1 fs cfg files0).1 r2).destName) := by
        intro r hr r2 hr2 hne hcon
        have hrl : r < files0.length := by have := workList_lt _ r hr; omega
        have hrl2 : r2 < files0.length := by have := workList_lt _ r2 hr2; omega
        obtain ⟨hu1, hp1, _⟩ := workList_status _ r hr
        obtain ⟨hu2, hp2, _⟩ := workList_status _ r2 hr2
        have hcatp : ∀ j, j < files0.length →
            (getF (pass1 fs cfg files0).1 j).mediaCategory ≠ Sidecar := by
          intro j hj
          rw [(planOnly_id hpo1 j).2.2.2.2.1]
          exact hcats0 j hj
        rcases Nat.lt_or_ge r r2 with hlt | hge
        · exact pass1_distinct fs cfg files0 r r2 hlt hrl2 (hcatp r2 hrl2) hp2 hu2 hcon
        · have hlt2 : r2 < r := by omega
          exact pass1_distinct fs cfg files0 r2 r hlt2 hrl (hcatp r hrl) hp1 hu1
            ⟨hcon.1.symm, hcon.2.symm⟩
      have hLsub : ∀ x ∈ interleave (sortBySizeDesc (pass1 fs cfg files0).1
          (workList (pass1 fs cfg files0).1)), x ∈ workList (pass1 fs cfg files0).1 := by
        intro x hx
        exact (List.Perm.mem_iff ((interleave_perm _).trans
          (List.perm_insertionSort _ _))).mp hx
      have hWb : ∀ r ∈ workList (pass1 fs cfg files0).1,
          r < (pass1 fs cfg files0).1.length :=
        fun r hr => workList_lt _ r hr
      obtain ⟨Hstat, HI1, HI2⟩ := copyFold_char cfg (pass1 fs cfg files0).1 fs
        (workList (pass1 fs cfg files0).1) hdry hWb hdistW
        (fun r hr r2 hr2 => by
          have hrl : r < files0.length := by have := workList_lt _ r hr; omega
          rw [(planOnly_id hpo1 r).2.1, (planOnly_id hpo1 r).1]
          exact hsrcne r hrl r2 hr2)
        (interleave (sortBySizeDesc (pass1 fs cfg files0).1
          (workList (pass1 fs cfg files0).1)))
        { files := (pass1 fs cfg files0).1, fs := fs, bytesWritten := 0, copyErrors := [] }
        hLsub rfl
        (fun j => ⟨(getF (pass1 fs cfg files0).1 j).status, rfl⟩)
        (fun pth _ => rfl)
        (fun r hr hcop => by
          have hrl : r < files0.length := by have := workList_lt _ r hr; omega
          rcases hplanstat1 r hrl with h | h <;> rw [hcop] at h <;>
            exact FileStatus.noConfusion h)
      have hCF : (copyFiles (pass1 fs cfg files0).1 fs cfg).1 =
          (interleave (sortBySizeDesc (pass1 fs cfg files0).1
            (workList (pass1 fs cfg files0).1))).foldl (runJob cfg)
            { files := (pass1 fs cfg files0).1, fs := fs, bytesWritten := 0,
              copyErrors := [] } := by
        rw [copyFiles, if_neg hWe]
      have hWcopied : ∀ r ∈ workList (pass1 fs cfg files0).1,
          (getF (copyFiles (pass1 fs cfg files0).1 fs cfg).1.files r).status =
            FileStatus.copied := by
        intro r hr
        have hrl : r < files0.length := by have := workList_lt _ r hr; omega
        obtain ⟨hu1, hp1, _⟩ := workList_status _ r hr
        rcases hfirst0 r hrl with h | h
        · exact h
        · exfalso
          have h2 := copyFold_status_from cfg hdry
            (interleave (sortBySizeDesc (pass1 fs cfg files0).1
              (workList (pass1 fs cfg files0).1)))
            { files := (pass1 fs cfg files0).1, fs := fs, bytesWritten := 0,
              copyErrors := [] } r
          rw [← hCF] at h2
          rcases h2 with h2 | h2 | h2 | h2
          · rw [h] at h2
            rcases hplanstat1 r hrl with h4 | h4
            · exact hp1 h4
            · exact FileStatus.noConfusion (h4.symm.trans h2.symm)
          · rw [h] at h2
            exact FileStatus.noConfusion h2
          · rw [h] at h2
            exact FileStatus.noConfusion h2
          · rw [h] at h2
            exact FileStatus.noConfusion h2
      have hwrW : ∀ r, r ∈ workList (pass1 fs cfg files0).1 →
          ∃ sd, fs.files (mkPath (getF (pass1 fs cfg files0).1 r).sourceDir
              (getF (pass1 fs cfg files0).1 r).sourceName) = some sd ∧
            (copyFiles (pass1 fs cfg files0).1 fs cfg).1.fs.files
                (mkPath (getF (pass1 fs cfg files0).1 r).destDir
                  (getF (pass1 fs cfg files0).1 r).destName) =
              some (copiedCell sd.content
                (getF (pass1 fs cfg files0).1 r).creationDateTime) := by
        intro r hr
        have h := HI2 r hr (by
          have h0 := hWcopied r hr
          rw [hCF] at h0
          exact h0)
        rw [hCF]
        exact h
      refine ⟨?_, ?_, ?_, ?_⟩
      · intro q hq
        have h := HI1 (mkPath (getF files0 q).sourceDir (getF files0 q).sourceName)
          (fun r hr => hsrcne q hq r hr)
        rw [hCF]
        exact h
      · intro pth fd hfd
        have hne : ∀ r ∈ workList (pass1 fs cfg files0).1,
            pth ≠ mkPath (getF (pass1 fs cfg files0).1 r).destDir
              (getF (pass1 fs cfg files0).1 r).destName := by
          intro r hr hcon
          rw [hcon, haccW r hr] at hfd
          exact Option.noConfusion hfd
        have h := HI1 pth hne
        rw [hCF, h]
        exact hfd
      · intro pth hnone
        by_cases hex : ∃ r, r ∈ workList (pass1 fs cfg files0).1 ∧
            pth = mkPath (getF (pass1 fs cfg files0).1 r).destDir
              (getF (pass1 fs cfg files0).1 r).destName
        · obtain ⟨r, hr, rfl⟩ := hex
          obtain ⟨sd, _, hcell⟩ := hwrW r hr
          exact Or.inr ⟨copiedCell sd.content
            (getF (pass1 fs cfg files0).1 r).creationDateTime, hcell, rfl⟩
        · refine Or.inl ?_
          have hne : ∀ r ∈ workList (pass1 fs cfg files0).1,
              pth ≠ mkPath (getF (pass1 fs cfg files0).1 r).destDir
                (getF (pass1 fs cfg files0).1 r).destName := by
            intro r hr hcon
            exact hex ⟨r, hr, hcon⟩
          have h := HI1 pth hne
          rw [hCF, h]
          exact hnone
      · intro q hq hst
        have hqW : q ∈ workList (pass1 fs cfg files0).1 := by
          refine mem_workList (pass1 fs cfg files0).1 q (by omega) ?_ ?_ ?_ <;>
            rw [hst] <;> exact fun hcon => FileStatus.noConfusion hcon
        obtain ⟨sd, hsd, hcell⟩ := hwrW q hqW
        refine ⟨sd, ?_, ?_⟩
        · rw [← (planOnly_id hpo1 q).2.1, ← (planOnly_id hpo1 q).1]
          exact hsd
        · rw [← (planOnly_id hpo1 q).2.2.1]
          exact hcell
  obtain ⟨hsam2, hocc2, hfreeR2, hwr2⟩ := hfour
  have hmain := pass1_run2_aux fs (copyFiles (pass1 fs cfg files0).1 fs cfg).1.fs cfg
    files0 (pass1 fs cfg files0).1 hcats0 hunset0 hsrc0 hsam2 hocc2 hfreeR2
    hroutes1 hplanstat1 hwr2 files0.length 0 (files0, ([] : STIndex)) (by omega) rfl
    (planOnly_refl _) (hcv0 _) rfl
    (fun q _ => ⟨(getF files0 q).sourceChecksum, rfl⟩)
    (fun q hq => absurd hq (by omega))
  intro q hq
  rw [pass1, List.range_eq_range']
  exact hmain q (by omega)

/-- C2: For a sidecar-free source tree with fresh records (unset status,
empty checksum caches) and consistent sources, if the first run ends every
record `copied` or `pre-existing`, then a second run of the full pipeline
against the resulting filesystem writes zero additional bytes and ends every
record `pre-existing`. -/
theorem C2_sidecar_free_successful_run_idempotent (fs : FS) (files : List FileInfo)
    (cfg : Config)
    (hdry : cfg.dryRun = false)
    (hcats : ∀ q, q < files.length → (getF files q).mediaCategory ≠ Sidecar)
    (hunset : ∀ q, q < files.length → (getF files q).status = FileStatus.unset)
    (hcache : ∀ q, q < files.length → (getF files q).sourceChecksum = "")
    (hsrc : srcConsistent fs files)
    (hfirst : ∀ q, q < files.length →
      (getF (importMedia fs files cfg).1.files q).status = FileStatus.copied ∨
      (getF (importMedia fs files cfg).1.files q).status = FileStatus.preExisting) :
    (importMedia (importMedia fs files cfg).1.fs files cfg).1.bytesWritten = 0 ∧
    ∀ q, q < files.length →
      (getF (importMedia (importMedia fs files cfg).1.fs files cfg).1.files q).status =
        FileStatus.preExisting := by
  obtain ⟨fs2, hfs2⟩ : ∃ x, (importMedia fs files cfg).1.fs = x := ⟨_, rfl⟩
  rw [hfs2]
  have hlen0 : (files.map fun f => { f with parentIndex := -1 }).length = files.length :=
    List.length_map _ _
  have hcats0 : ∀ q, q < (files.map fun f => { f with parentIndex := -1 }).length →
      (getF (files.map fun f => { f with parentIndex := -1 }) q).mediaCategory ≠
        Sidecar := by
    intro q hq
    rw [(getF_map_fields files q).2.2.2.2.1]
    exact hcats q (by omega)
  have hunset0 : ∀ q, q < (files.map fun f => { f with parentIndex := -1 }).length →
      (getF (files.map fun f => { f with parentIndex := -1 }) q).status =
        FileStatus.unset := by
    intro q hq
    rw [(getF_map_fields files q).2.2.2.2.2.2.2]
    exact hunset q (by omega)
  have hsrc0 : srcConsistent fs (files.map fun f => { f with parentIndex := -1 }) := by
    intro q hq
    obtain ⟨sd, h1, h2, h3, h4⟩ := hsrc q (by omega)
    refine ⟨sd, ?_, h2, ?_, h4⟩
    · rw [(getF_map_fields files q).2.1, (getF_map_fields files q).1]
      exact h1
    · rw [(getF_map_fields files q).2.2.2.1]
      exact h3
  have hcv0 : ∀ fsx : FS, cacheValid fsx (files.map fun f => { f with parentIndex := -1 }) := by
    intro fsx j
    refine Or.inl ?_
    rw [(getF_map_fields files j).2.2.2.2.2.2.1]
    by_cases hj : j < files.length
    · exact hcache j hj
    · rw [getF_beyond files j (by omega)]
      rfl
  have hcatsF : ∀ fsx : FS, ∀ j, (getF (pass1 fsx cfg
      (files.map fun f => { f with parentIndex := -1 })).1 j).mediaCategory ≠
      Sidecar := by
    intro fsx j
    by_cases hj : j < (files.map fun f => { f with parentIndex := -1 }).length
    · rw [(planOnly_id (pass1_planOnly fsx cfg _) j).2.2.2.2.1]
      exact hcats0 j hj
    · rw [getF_beyond _ j (by rw [pass1_length]; omega)]
      exact default_not_sidecar
  have hplanEq : ∀ fsx : FS, planFiles fsx files cfg =
      (pass1 fsx cfg (files.map fun f => { f with parentIndex := -1 })).1 := by
    intro fsx
    rw [planFiles, pass2]
    exact pass2_no_sidecars cfg _ _ _ (hcatsF fsx)
  have hIM : importMedia fs files cfg =
      copyFiles (pass1 fs cfg (files.map fun f => { f with parentIndex := -1 })).1
        fs cfg := by
    rw [importMedia, hplanEq fs]
  have hno : ∀ q, (getF (pass1 fs cfg
      (files.map fun f => { f with parentIndex := -1 })).1 q).status ≠
      FileStatus.unnamable := by
    intro q hcon
    by_cases hq : q < files.length
    · have hnw : q ∉ workList (pass1 fs cfg
          (files.map fun f => { f with parentIndex := -1 })).1 :=
        not_mem_workList _ q (Or.inl hcon)
      rcases hfirst q hq with h | h <;>
        · rw [hIM, copyFiles_untouched _ fs cfg q hnw, hcon] at h
          exact FileStatus.noConfusion h
    · rw [getF_beyond _ q (by rw [pass1_length]; omega)] at hcon
      exact FileStatus.noConfusion hcon
  have hcore := run2_core fs cfg (files.map fun f => { f with parentIndex := -1 })
    hdry hcats0 hunset0 hcv0 hsrc0 hno
    (fun q hq => by rw [← hIM]; exact hfirst q (by omega))
  have hfs2c : (copyFiles (pass1 fs cfg
      (files.map fun f => { f with parentIndex := -1 })).1 fs cfg).1.fs = fs2 := by
    rw [← hIM]
    exact hfs2
  rw [hfs2c] at hcore
  have hplan2 : ∀ q, q < files.length →
      (getF (planFiles fs2 files cfg) q).status = FileStatus.preExisting := by
    intro q hq
    rw [hplanEq fs2]
    exact hcore q (by omega)
  have hW2 : workList (planFiles fs2 files cfg) = [] := by
    refine workList_nil _ ?_
    intro q hq
    rw [hplanEq fs2, pass1_length] at hq
    exact hplan2 q (by omega)
  rw [importMedia, copyFiles, if_pos (by rw [hW2]; rfl)]
  refine ⟨rfl, ?_⟩
  intro q hq
  dsimp only
  exact hplan2 q hq

/-- A one-record sidecar-free source tree for exercising the pipeline. -/
def wfilesC2 : List FileInfo :=
  [{ sourceName := "a.jpg", sourceDir := "s", size := 1 }]

def wfsC2 : FS :=
  { files := fun p => if p = ("s", "a.jpg") then
      some { size := 1, content := "x" } else none,
    dirs := fun _ => false, badDirs := fun _ => false, badPaths := fun _ => false }

def wcfgC2 : Config := { destDir := "d" }

theorem C2_sidecar_free_successful_run_idempotent_witness :
    (importMedia (importMedia wfsC2 wfilesC2 wcfgC2).1.fs wfilesC2 wcfgC2).1.bytesWritten =
      0 ∧
    ∀ q, q < wfilesC2.length →
      (getF (importMedia (importMedia wfsC2 wfilesC2 wcfgC2).1.fs
        wfilesC2 wcfgC2).1.files q).status = FileStatus.preExisting :=
  C2_sidecar_free_successful_run_idempotent wfsC2 wfilesC2 wcfgC2 rfl
    (by decide) (by decide) (by decide)
    (by
      intro q hq
      have hq1 : q = 0 := by
        have h1 : q < 1 := by simpa [wfilesC2] using hq
        omega
      subst hq1
      exact ⟨{ size := 1, content := "x" }, rfl, rfl, rfl, rfl⟩)
    (by decide)

/-- A one-record source tree whose only file is a sidecar with action
`copy` (an `.xmp` file, whose built-in default action is `copy`). -/
def cfilesC2 : List FileInfo :=
  [{ sourceName := "a.xmp", sourceDir := "s", size := 1, mediaCategory := Sidecar }]

def cfsC2 : FS :=
  { files := fun p => if p = ("s", "a.xmp") then
      some { size := 1, content := "y" } else none,
    dirs := fun _ => false, badDirs := fun _ => false, badPaths := fun _ => false }

def ccfgC2 : Config := { destDir := "d" }

/-- Counterexample to the unconditional claim: a sidecar whose action is
`copy` is copied again by a second run — pass 2 assigns sidecar
destinations without consulting the filesystem, so the record never parks
as `pre-existing`, the second run's work list is nonempty, and it rewrites
the same bytes. -/
theorem C2_sidecar_recopy_counterexample :
    (getF cfilesC2 0).mediaCategory = Sidecar ∧
    getSidecarAction (sidecarExtOf (getF cfilesC2 0).sourceName) ccfgC2.sidecars
      ccfgC2.sidecarDefault = SidecarAction.copy ∧
    (getF (importMedia cfsC2 cfilesC2 ccfgC2).1.files 0).status = FileStatus.copied ∧
    (importMedia (importMedia cfsC2 cfilesC2 ccfgC2).1.fs
      cfilesC2 ccfgC2).1.bytesWritten ≠ 0 ∧
    (getF (importMedia (importMedia cfsC2 cfilesC2 ccfgC2).1.fs
      cfilesC2 ccfgC2).1.files 0).status ≠ FileStatus.preExisting := by
  decide

/-- C1: At pipeline completion, two distinct non-sidecar records that both
ended `copied` never share the same (destination directory, destination
name): the resolver's acceptance paths check the destination disk and every
previously planned record, and the copy phase never changes destination
fields. -/
theorem C1_copied_nonsidecar_destinations_distinct (fs : FS) (files : List FileInfo)
    (cfg : Config) (i j : Nat) (hij : i < j) (hjl : j < files.length)
    (hcati : (getF (importMedia fs files cfg).1.files i).mediaCategory ≠ Sidecar)
    (hcatj : (getF (importMedia fs files cfg).1.files j).mediaCategory ≠ Sidecar)
    (hsi : (getF (importMedia fs files cfg).1.files i).status = FileStatus.copied)
    (hsj : (getF (importMedia fs files cfg).1.files j).status = FileStatus.copied) :
    ¬((getF (importMedia fs files cfg).1.files i).destDir =
        (getF (importMedia fs files cfg).1.files j).destDir ∧
      (getF (importMedia fs files cfg).1.files i).destName =
        (getF (importMedia fs files cfg).1.files j).destName) := by
  rw [importMedia] at hcati hcatj hsi hsj ⊢
  obtain ⟨si, hi2⟩ := copyFiles_statusOnly (planFiles fs files cfg) fs cfg i
  obtain ⟨sj, hj2⟩ := copyFiles_statusOnly (planFiles fs files cfg) fs cfg j
  have hpre : ∀ k, ((getF (planFiles fs files cfg) k).status = FileStatus.preExisting ∨
      (getF (planFiles fs files cfg) k).status = FileStatus.unnamable ∨
      (getF (planFiles fs files cfg) k).status = FileStatus.sidecarDeleted) →
      (getF (copyFiles (planFiles fs files cfg) fs cfg).1.files k).status =
        (getF (planFiles fs files cfg) k).status := by
    intro k hk
    have hk2 : (getF (planFiles fs files cfg) k).status = FileStatus.unnamable ∨
        (getF (planFiles fs files cfg) k).status = FileStatus.preExisting ∨
        (getF (planFiles fs files cfg) k).status = FileStatus.sidecarDeleted := by
      rcases hk with h | h | h
      · exact Or.inr (Or.inl h)
      · exact Or.inl h
      · exact Or.inr (Or.inr h)
    rw [copyFiles_untouched (planFiles fs files cfg) fs cfg k
      (not_mem_workList (planFiles fs files cfg) k hk2)]
  have hplj1 : (getF (planFiles fs files cfg) j).status ≠ FileStatus.preExisting := by
    intro hcon
    rw [hpre j (Or.inl hcon), hcon] at hsj
    exact FileStatus.noConfusion hsj
  have hplj2 : (getF (planFiles fs files cfg) j).status ≠ FileStatus.unnamable := by
    intro hcon
    rw [hpre j (Or.inr (Or.inl hcon)), hcon] at hsj
    exact FileStatus.noConfusion hsj
  have hcati2 : (getF (planFiles fs files cfg) i).mediaCategory ≠ Sidecar := by
    rw [hi2] at hcati
    exact hcati
  have hcatj2 : (getF (planFiles fs files cfg) j).mediaCategory ≠ Sidecar := by
    rw [hj2] at hcatj
    exact hcatj
  have hplan := planFiles_nonSidecar_distinct fs files cfg i j hij hjl hcati2 hcatj2
    hplj1 hplj2
  intro hcon
  apply hplan
  rw [hi2, hj2] at hcon
  exact hcon

/-- A two-record non-sidecar source tree (different sizes, so the duplicate
index does not fire). -/
def wfilesC1 : List FileInfo :=
  [{ sourceName := "a.jpg", sourceDir := "s", size := 1 },
   { sourceName := "b.jpg", sourceDir := "s", size := 2 }]

def wfsC1 : FS :=
  { files := fun p =>
      if p = ("s", "a.jpg") then some { size := 1, content := "x" }
      else if p = ("s", "b.jpg") then some { size := 2, content := "zz" }
      else none,
    dirs := fun _ => false, badDirs := fun _ => false, badPaths := fun _ => false }

def wcfgC1 : Config := { destDir := "d" }

theorem C1_copied_nonsidecar_destinations_distinct_witness :
    (0 : Nat) < 1 ∧ 1 < wfilesC1.length ∧
    (getF (importMedia wfsC1 wfilesC1 wcfgC1).1.files 0).mediaCategory ≠ Sidecar ∧
    (getF (importMedia wfsC1 wfilesC1 wcfgC1).1.files 1).mediaCategory ≠ Sidecar ∧
    (getF (importMedia wfsC1 wfilesC1 wcfgC1).1.files 0).status = FileStatus.copied ∧
    (getF (importMedia wfsC1 wfilesC1 wcfgC1).1.files 1).status = FileStatus.copied ∧
    ¬((getF (importMedia wfsC1 wfilesC1 wcfgC1).1.files 0).destDir =
        (getF (importMedia wfsC1 wfilesC1 wcfgC1).1.files 1).destDir ∧
      (getF (importMedia wfsC1 wfilesC1 wcfgC1).1.files 0).destName =
        (getF (importMedia wfsC1 wfilesC1 wcfgC1).1.files 1).destName) :=
  ⟨by decide, by decide, by decide, by decide, by decide, by decide,
    C1_copied_nonsidecar_destinations_distinct wfsC1 wfilesC1 wcfgC1 0 1
      (by decide) (by decide) (by decide) (by decide) (by decide) (by decide)⟩

/-- Two orphan sidecars with the same file name in different source
directories. -/
def cfilesC1 : List FileInfo :=
  [{ sourceName := "a.xmp", sourceDir := "s1", size := 1, mediaCategory := Sidecar },
   { sourceName := "a.xmp", sourceDir := "s2", size := 1, mediaCategory := Sidecar }]

def cfsC1 : FS :=
  { files := fun p =>
      if p = ("s1", "a.xmp") then some { size := 1, content := "x" }
      else if p = ("s2", "a.xmp") then some { size := 1, content := "y" }
      else none,
    dirs := fun _ => false, badDirs := fun _ => false, badPaths := fun _ => false }

def ccfgC1 : Config := { destDir := "d" }

/-- Counterexample to the claim's extension to sidecar records: pass 2
assigns orphan-sidecar destinations without any collision check, so two
orphan sidecars with the same name both end `copied` at the identical
destination. -/
theorem C1_sidecar_collision_counterexample :
    (getF cfilesC1 0).mediaCategory = Sidecar ∧
    (getF cfilesC1 1).mediaCategory = Sidecar ∧
    (getF (importMedia cfsC1 cfilesC1 ccfgC1).1.files 0).status = FileStatus.copied ∧
    (getF (importMedia cfsC1 cfilesC1 ccfgC1).1.files 1).status = FileStatus.copied ∧
    (getF (importMedia cfsC1 cfilesC1 ccfgC1).1.files 0).destDir =
      (getF (importMedia cfsC1 cfilesC1 ccfgC1).1.files 1).destDir ∧
    (getF (importMedia cfsC1 cfilesC1 ccfgC1).1.files 0).destName =
      (getF (importMedia cfsC1 cfilesC1 ccfgC1).1.files 1).destName := by
  decide
